import Mathlib

/-!
# CoreDNS `traefik` plugin: synchronisation engine and query responder

A shallow embedding of `traefik.go` and `setup.go`, followed by theorems about it.

Modelling conventions.

* A Go `string` is the list of its runes (`GoString`).  `strings.ToLower` maps
  a rune-level lowering function over the string; that function belongs to the
  Go library and is a parameter `lower : Char → Char` of every definition that
  lowercases.
* The Go map `TraefikConfigEntryMap` is an association list with unique keys;
  `range` visits the entries in list order.
* Logging, the request counter and the read/write mutex are not part of the
  modelled state: `refresh` and `ServeDNS` are single atomic steps.  The two
  counters that `refresh` only logs are returned next to its error.
* `uint32` and `int` values are natural numbers or integers; the code does no
  arithmetic on them beyond counting map entries.
* What the operating system and the Traefik API return are arguments of the
  functions that ask for them.
-/

namespace TraefikPlugin

/-- A Go string, as the sequence of its runes. -/
abbrev GoString := List Char

/-- A Go `error` value, by its message. -/
abbrev GoError := String

/-- The rune U+0060 that quotes a hostname literal in a Traefik rule. -/
def backtick : Char := Char.ofNat 96

/-- Go `strings.ToLower`: the rune-wise image of `s` under the lowering `lower`. -/
def ToLower (lower : Char → Char) (s : GoString) : GoString := s.map lower

/-! ## The host pattern of `setup.go`

`hostMatcher` is the regular expression `Host(SNI)?\(B([^B]+)B\)` where `B` is
the backtick.  Go matches leftmost-first: an optional group is tried before it
is skipped, and `+` takes the longest run first and gives runes back one at a
time. -/

namespace hostMatcher

/-- A literal piece of the pattern: `p` at the front of `s`, returning what follows it. -/
def lit : GoString → GoString → Option GoString
  | [], s => some s
  | _ :: _, [] => none
  | c :: p, d :: s => if c = d then lit p s else none

/-- The tail `([^B]+)B\)` of the pattern: the second capture group followed by
the closing backtick and parenthesis.  Returns the captured run and the text
after the match.  The run is extended first; only when no longer run leads to a
match is it closed at the current rune. -/
def hostRun : GoString → Option (GoString × GoString)
  | [] => none
  | c :: s =>
    if c = backtick then none
    else
      match hostRun s with
      | some (h, rest) => some (c :: h, rest)
      | none =>
        match lit [backtick, ')'] s with
        | some rest => some ([c], rest)
        | none => none

/-- The part `\(B([^B]+)B\)` after the optional group, whose text `g1` is passed along.
Returns both capture groups and the text after the match. -/
def afterGroup (g1 : GoString) (s : GoString) : Option (GoString × GoString × GoString) :=
  match lit ['(', backtick] s with
  | none => none
  | some s2 =>
    match hostRun s2 with
    | some (h, rest) => some (g1, h, rest)
    | none => none

/-- A match of the whole pattern starting at the first rune of `s`: the text of
`(SNI)?` (empty when the group takes no part), the text of `([^B]+)`, and the
text after the match. -/
def matchAt (s : GoString) : Option (GoString × GoString × GoString) :=
  match lit ['H', 'o', 's', 't'] s with
  | none => none
  | some s1 =>
    let withSNI :=
      match lit ['S', 'N', 'I'] s1 with
      | some s2 => afterGroup ['S', 'N', 'I'] s2
      | none => none
    match withSNI with
    | some m => some m
    | none => afterGroup [] s1

/-- The search loop of `FindAllStringSubmatch`: `skip` runes of the previous
match are still to be passed over; after them the leftmost match is reported
as `[whole, group 1, group 2]` and the search resumes at its end. -/
def scan : Nat → GoString → List (List GoString)
  | _, [] => []
  | skip + 1, _ :: s => scan skip s
  | 0, c :: s =>
    match matchAt (c :: s) with
    | some (g1, g2, rest) =>
      let n := (c :: s).length - rest.length
      [(c :: s).take n, g1, g2] :: scan (n - 1) s
    | none => scan 0 s

/-- Go `hostMatcher.FindAllStringSubmatch(s, -1)`: every successive non-overlapping match. -/
def FindAllStringSubmatch (s : GoString) : List (List GoString) := scan 0 s

/-- The text of a hostname declaration in a rule: `Host` or `HostSNI` (`g1` is
empty or `SNI`), an opening parenthesis, the literal `h` between two backticks,
a closing parenthesis. -/
def declaration (g1 h : GoString) : GoString :=
  ['H', 'o', 's', 't'] ++ g1 ++ ['(', backtick] ++ h ++ [backtick, ')']

end hostMatcher

/-! ## Data model -/

/-- One mapping entry. -/
structure TraefikConfigEntry where
  ttl : Nat
  deriving DecidableEq, Repr

/-- The mapping store: hostname to entry. -/
abbrev TraefikConfigEntryMap := AList (fun _ : GoString => TraefikConfigEntry)

/-- The configuration read by the core (`hostMatcher` is the fixed pattern above). -/
structure TraefikConfig where
  baseUrl : GoString
  interfaceName : GoString
  ttl : Nat
  refreshInterval : Nat
  apiHostname : GoString
  deriving DecidableEq, Repr

/-- One router record returned by the Traefik API. -/
structure TraefikHttpRouter where
  Rule : GoString
  deriving DecidableEq, Repr

/-! ## DNS messages (`github.com/miekg/dns`) -/

/-- A 4- or 16-byte address `net.IP`; the nil address is the empty list. -/
abbrev IP := List Nat

/-- Go `dns.ClassINET`. -/
def ClassINET : Nat := 1
/-- Go `dns.TypeA`. -/
def TypeA : Nat := 1
/-- Go `dns.TypeAAAA`. -/
def TypeAAAA : Nat := 28
/-- Go `dns.RcodeSuccess`. -/
def RcodeSuccess : Int := 0
/-- Go `dns.RcodeServerFailure`. -/
def RcodeServerFailure : Int := 2
/-- Go `dns.RcodeNameError` (NXDOMAIN). -/
def RcodeNameError : Int := 3
/-- Go `dns.OpcodeQuery`. -/
def OpcodeQuery : Nat := 0

/-- One entry of the question section. -/
structure Question where
  Name : GoString
  Qtype : Nat
  Qclass : Nat
  deriving DecidableEq, Repr

/-- The header common to all resource records. -/
structure RR_Header where
  Name : GoString
  Rrtype : Nat
  Class : Nat
  Ttl : Nat
  deriving DecidableEq, Repr

/-- The two resource records the plugin builds: `dns.A` and `dns.AAAA`. -/
inductive RR where
  | A (Hdr : RR_Header) (A : IP)
  | AAAA (Hdr : RR_Header) (AAAA : IP)
  deriving DecidableEq, Repr

/-- The fields of `dns.Msg` that the plugin reads or sets. -/
structure Msg where
  Id : Nat
  Response : Bool
  Opcode : Nat
  Authoritative : Bool
  RecursionDesired : Bool
  CheckingDisabled : Bool
  Rcode : Int
  Question : List Question
  Answer : List RR
  deriving DecidableEq, Repr

/-- Go `new(dns.Msg)`: the zero message. -/
def Msg.new : Msg :=
  { Id := 0, Response := false, Opcode := 0, Authoritative := false,
    RecursionDesired := false, CheckingDisabled := false, Rcode := 0,
    Question := [], Answer := [] }

/-- Go `(*dns.Msg).SetReply`. -/
def Msg.SetReply (m : Msg) (request : Msg) : Msg :=
  let m1 := { m with Id := request.Id, Response := true, Opcode := request.Opcode }
  let m2 :=
    if m1.Opcode = OpcodeQuery then
      { m1 with RecursionDesired := request.RecursionDesired,
                CheckingDisabled := request.CheckingDisabled }
    else m1
  let m3 := { m2 with Rcode := RcodeSuccess }
  match request.Question with
  | q :: _ => { m3 with Question := [q] }
  | [] => m3

/-- Go `(*dns.Msg).SetQuestion`, with the fresh message id as an argument. -/
def Msg.SetQuestion (m : Msg) (id : Nat) (z : GoString) (t : Nat) : Msg :=
  { m with Id := id, RecursionDesired := true,
           Question := [{ Name := z, Qtype := t, Qclass := ClassINET }] }

/-- CoreDNS `request.Request.QName`: the name of the first question as it was
sent (not lowercased), the root when there is none.  The presentation escaping of
`dns.Name.String` is left out. -/
def QName (r : Msg) : GoString :=
  match r.Question with
  | q :: _ => q.Name
  | [] => ['.']

/-- CoreDNS `request.Request.QType`: the type of the first question, 0 when there is none. -/
def QType (r : Msg) : Nat :=
  match r.Question with
  | q :: _ => q.Qtype
  | [] => 0

/-- CoreDNS `request.Request.QClass`: the class of the first question, 0 when there is none. -/
def QClass (r : Msg) : Nat :=
  match r.Question with
  | q :: _ => q.Qclass
  | [] => 0

/-- A `dns.ResponseWriter`, by the messages written to it so far. -/
abbrev ResponseWriter := List Msg

/-- Go `w.WriteMsg(m)`. -/
def WriteMsg (w : ResponseWriter) (m : Msg) : ResponseWriter := w ++ [m]

/-- What a handler's `ServeDNS` leaves behind: the writer, the return code and the error. -/
abbrev Served := ResponseWriter × Int × Option GoError

/-- A `plugin.Handler`, by its `ServeDNS`. -/
abbrev Handler := ResponseWriter → Msg → Served

/-- CoreDNS `plugin.NextOrFailure`. -/
def NextOrFailure (name : String) (next : Option Handler) (w : ResponseWriter) (r : Msg) : Served :=
  match next with
  | some h => h w r
  | none => (w, RcodeServerFailure, some ("plugin/" ++ name ++ ": no next plugin found"))

namespace fall

/-- CoreDNS `fall.F`, by its method `Through`: whether a name falls under one of
the configured fallthrough zones. -/
structure F where
  Through : GoString → Bool

/-- The zero value of `fall.F`: no zone, nothing falls through. -/
def F.zero : F := ⟨fun _ => false⟩

end fall

/-- The plugin (`TraefikClient` is represented by what its `GetHttpRouters` returns). -/
structure Traefik where
  Next : Option Handler
  Config : TraefikConfig
  mappings : TraefikConfigEntryMap
  ready : Bool
  Fall : fall.F

/-- Go `(*Traefik).Name`. -/
def Traefik.Name (_t : Traefik) : String := "traefik"

/-! ## Interface address resolver -/

/-- Go `net.IP.To4`. -/
def IP.To4 (ip : IP) : Option IP :=
  if ip.length = 4 then some ip
  else if ip.length = 16 ∧ (ip.take 10).all (· == 0) ∧ ip.getD 10 0 = 255 ∧ ip.getD 11 0 = 255 then
    some (ip.drop 12)
  else none

/-- Go `net.IP.To16`. -/
def IP.To16 (ip : IP) : Option IP :=
  if ip.length = 4 then some ([0, 0, 0, 0, 0, 0, 0, 0, 0, 0, 255, 255] ++ ip)
  else if ip.length = 16 then some ip
  else none

/-- Go `net.IPv6loopback`. -/
def IPv6loopback : IP := [0, 0, 0, 0, 0, 0, 0, 0, 0, 0, 0, 0, 0, 0, 0, 1]

/-- The 12-byte lead of an IPv4-mapped IPv6 address. -/
def v4InV6Prefix : IP := [0, 0, 0, 0, 0, 0, 0, 0, 0, 0, 255, 255]

/-- Go `net.IP.Equal`. -/
def IP.Equal (ip x : IP) : Bool :=
  if ip.length = x.length then decide (ip = x)
  else if ip.length = 4 ∧ x.length = 16 then
    decide (x.take 12 = v4InV6Prefix) && decide (ip = x.drop 12)
  else if ip.length = 16 ∧ x.length = 4 then
    decide (ip.take 12 = v4InV6Prefix) && decide (ip.drop 12 = x)
  else false

/-- Go `net.IP.IsLoopback`. -/
def IP.IsLoopback (ip : IP) : Bool :=
  match ip.To4 with
  | some ip4 => decide (ip4.getD 0 0 = 127)
  | none => ip.Equal IPv6loopback

/-- A `net.Addr` as returned by `Interface.Addrs`: either a `*net.IPNet` or an
address of another dynamic type, of which the interface shows only its text. -/
inductive Addr where
  | IPNet (ip : IP) (mask : IP)
  | other (network : GoString) (text : GoString)
  deriving DecidableEq, Repr

/-- A network interface, by what `Addrs` returns for it. -/
structure Interface where
  Addrs : Except GoError (List Addr)

/-- The operating system's interface table: `net.InterfaceByName`. -/
structure Net where
  InterfaceByName : GoString → Except GoError Interface

/-- The address the loop of `getIPsFromInterface` looks at: the `IP` of a
`*net.IPNet`, the nil address for anything else. -/
def getIPsFromInterface.ipOf : Addr → IP
  | Addr.IPNet ip _ => ip
  | Addr.other _ _ => []

/-- One iteration of the loop of `getIPsFromInterface`. -/
def getIPsFromInterface.step (acc : List IP × List IP) (addr : Addr) : List IP × List IP :=
  let ip := getIPsFromInterface.ipOf addr
  if ip.To4 ≠ none ∧ ip.IsLoopback = false then (acc.1 ++ [ip], acc.2)
  else if ip.To16 ≠ none ∧ ip.IsLoopback = false ∧ ip.To4 = none then (acc.1, acc.2 ++ [ip])
  else acc

/-- Go `getIPsFromInterface`: the IPv4 and IPv6 addresses of the named interface. -/
def getIPsFromInterface (os : Net) (ifaceName : GoString) : List IP × List IP :=
  match os.InterfaceByName ifaceName with
  | Except.error _ => ([], [])
  | Except.ok iface =>
    match iface.Addrs with
    | Except.error _ => ([], [])
    | Except.ok addrs => addrs.foldl getIPsFromInterface.step ([], [])

/-! ## Synchronisation engine -/

/-- Go `(*Traefik).getEntry`: a point read of the mapping store. -/
def Traefik.getEntry (t : Traefik) (host : GoString) : Option TraefikConfigEntry :=
  t.mappings.lookup host

/-- The variables the first loop of `refresh` updates. -/
structure refresh.Locals where
  mappings : TraefikConfigEntryMap
  fromTraefik : List GoString
  adds : Nat

/-- The body of the inner loop of `refresh` once `host` is known: record it as
observed and add a mapping entry if there is none. -/
def refresh.observe (ttl : Nat) (st : refresh.Locals) (host : GoString) : refresh.Locals :=
  let fromTraefik := st.fromTraefik.insert host
  match st.mappings.lookup host with
  | some _ => { st with fromTraefik := fromTraefik }
  | none =>
    { mappings := st.mappings.insert host { ttl := ttl },
      fromTraefik := fromTraefik,
      adds := st.adds + 1 }

/-- The inner loop body of `refresh` for one submatch `s`: only a submatch of
length 3 is used, and its third element is the hostname. -/
def refresh.perMatch (lower : Char → Char) (ttl : Nat) (st : refresh.Locals)
    (s : List GoString) : refresh.Locals :=
  match s with
  | [_, _, host] => refresh.observe ttl st (ToLower lower host)
  | _ => st

/-- The outer loop body of `refresh` for one router. -/
def refresh.perRouter (lower : Char → Char) (ttl : Nat) (st : refresh.Locals)
    (s : TraefikHttpRouter) : refresh.Locals :=
  (hostMatcher.FindAllStringSubmatch s.Rule).foldl (refresh.perMatch lower ttl) st

/-- The body of the second loop of `refresh`: a cached host that was not
observed is marked for deletion and counted. -/
def refresh.stale (fromTraefik : List GoString) (acc : List GoString × Nat)
    (cachedHost : GoString) : List GoString × Nat :=
  if cachedHost ∈ fromTraefik then acc else (acc.1.insert cachedHost, acc.2 + 1)

/-- What one call of `refresh` leaves: the plugin, the returned error, and the
two counters it reports. -/
structure refresh.Result where
  t : Traefik
  err : Option GoError
  adds : Nat
  deletes : Nat

/-- Go `(*Traefik).refresh`; `GetHttpRouters` is what the Traefik client returned. -/
def refresh (lower : Char → Char) (t : Traefik)
    (GetHttpRouters : Except GoError (List TraefikHttpRouter)) (_first : Bool) : refresh.Result :=
  match GetHttpRouters with
  | Except.error err => { t := t, err := some err, adds := 0, deletes := 0 }
  | Except.ok routers =>
    let st := routers.foldl (refresh.perRouter lower t.Config.ttl)
      { mappings := t.mappings, fromTraefik := [], adds := 0 }
    let marked := st.mappings.keys.foldl (refresh.stale st.fromTraefik) ([], 0)
    let mappings := marked.1.foldl (fun m del => m.erase del) st.mappings
    { t := { t with mappings := mappings, ready := true },
      err := none, adds := st.adds, deletes := marked.2 }

/-! ## Query responder -/

/-- Go `strings.HasSuffix`. -/
def HasSuffix (s suffix : GoString) : Bool := suffix.isSuffixOf s

/-- The key `ServeDNS` looks up for a queried name (the variable `find`). -/
def ServeDNS.find (lower : Char → Char) (qname : GoString) : GoString :=
  let find := ToLower lower qname
  if HasSuffix find ['.'] then find.take (find.length - 1) else find

/-- Go `a`: one A record per address. -/
def a (zone : GoString) (ttl : Nat) (ips : List IP) : List RR :=
  ips.map fun ip => RR.A { Name := zone, Rrtype := TypeA, Class := ClassINET, Ttl := ttl } ip

/-- Go `aaaa`: one AAAA record per address. -/
def aaaa (zone : GoString) (ttl : Nat) (ips : List IP) : List RR :=
  ips.map fun ip => RR.AAAA { Name := zone, Rrtype := TypeAAAA, Class := ClassINET, Ttl := ttl } ip

/-- The answer set `ServeDNS` builds for an in-scope query (the variable `answers`). -/
def ServeDNS.answers (lower : Char → Char) (os : Net) (t : Traefik) (r : Msg) : List RR :=
  let qname := QName r
  match t.getEntry (ServeDNS.find lower qname) with
  | none => []
  | some _ =>
    let ips := getIPsFromInterface os t.Config.interfaceName
    if QType r = TypeA then
      if ips.1.length > 0 then a qname t.Config.ttl ips.1 else []
    else if QType r = TypeAAAA then
      if ips.2.length > 0 then aaaa qname t.Config.ttl ips.2 else []
    else []

/-- The two ways `ServeDNS` returns: through `plugin.NextOrFailure`, or after
writing its own message `m` with `RcodeSuccess` and no error. -/
inductive ServeDNS.Return where
  | next
  | reply (m : Msg)
  deriving DecidableEq, Repr

/-- Which return `ServeDNS` takes for the request `r`. -/
def ServeDNS.ret (lower : Char → Char) (os : Net) (t : Traefik) (r : Msg) : ServeDNS.Return :=
  if QClass r ≠ ClassINET ∨ (QType r ≠ TypeA ∧ QType r ≠ TypeAAAA) then ServeDNS.Return.next
  else
    let qname := QName r
    let answers := ServeDNS.answers lower os t r
    let m := { Msg.new.SetReply r with Authoritative := true, Answer := answers }
    if answers.length = 0 then
      if t.Fall.Through qname && t.Next.isSome then ServeDNS.Return.next
      else ServeDNS.Return.reply { m with Rcode := RcodeNameError }
    else ServeDNS.Return.reply m

/-- Go `(*Traefik).ServeDNS`. -/
def ServeDNS (lower : Char → Char) (os : Net) (t : Traefik) (w : ResponseWriter) (r : Msg) :
    Served :=
  match ServeDNS.ret lower os t r with
  | ServeDNS.Return.next => NextOrFailure t.Name t.Next w r
  | ServeDNS.Return.reply m => (WriteMsg w m, RcodeSuccess, none)

/-! ## Configuration (`setup.go`)

`createPlugin` reads its configuration from a `caddy.Controller`, which is a
`caddyfile.Dispenser` over the tokens of the directive; the dispenser and
`strconv.ParseUint` follow the Go packages they come from.  The two `for` loops
of `createPlugin` are bounded by a fuel argument: `none` means that the fuel ran
out before the loops ended. -/

/-- Go `defaultTraefikApiEndpoint`. -/
def defaultTraefikApiEndpoint : GoString := "https://traefik.example.com/api".toList
/-- Go `defaultTtl`. -/
def defaultTtl : Nat := 30
/-- Go `defaultRefreshInterval`. -/
def defaultRefreshInterval : Nat := 30

namespace strconv

/-- The largest value of 32 bits, the bound `ParseUint(s, 10, 32)` checks against. -/
def maxVal : Nat := 2 ^ 32 - 1

/-- The loop of `strconv.ParseUint(s, 10, 32)` over the bytes of `s`: `n` is the
value read so far. -/
def ParseUint.loop : GoString → Nat → Except GoError Nat
  | [], n => Except.ok n
  | c :: s, n =>
    if '0' ≤ c ∧ c ≤ '9' then
      let n1 := n * 10 + (c.toNat - '0'.toNat)
      if n1 > maxVal then Except.error "strconv.ParseUint: value out of range"
      else ParseUint.loop s n1
    else Except.error "strconv.ParseUint: invalid syntax"

/-- Go `strconv.ParseUint(s, 10, 32)`. -/
def ParseUint (s : GoString) : Except GoError Nat :=
  if s = [] then Except.error "strconv.ParseUint: invalid syntax"
  else ParseUint.loop s 0

end strconv

namespace caddyfile

/-- A token of the configuration text. -/
structure Token where
  File : GoString
  Line : Nat
  Text : GoString
  deriving DecidableEq, Repr

/-- The `caddyfile.Dispenser` behind a `caddy.Controller`. -/
structure Dispenser where
  tokens : List Token
  cursor : Int
  nesting : Nat
  deriving DecidableEq, Repr

/-- Go `caddyfile.NewDispenserTokens`: nothing is loaded yet. -/
def NewDispenserTokens (tokens : List Token) : Dispenser :=
  { tokens := tokens, cursor := -1, nesting := 0 }

/-- The token `d.tokens[i]`, when `i` is a valid index. -/
def Dispenser.token (d : Dispenser) (i : Int) : Option Token :=
  if 0 ≤ i then d.tokens[i.toNat]? else none

/-- Go `(*Dispenser).Val`: the text of the current token, empty when none is loaded. -/
def Dispenser.Val (d : Dispenser) : GoString :=
  match d.token d.cursor with
  | some t => t.Text
  | none => []

/-- Go `(*Dispenser).numLineBreaks`. -/
def Dispenser.numLineBreaks (d : Dispenser) (tknIdx : Int) : Nat :=
  match d.token tknIdx with
  | some t => t.Text.count (Char.ofNat 10)
  | none => 0

/-- Go `(*Dispenser).Next`. -/
def Dispenser.Next (d : Dispenser) : Bool × Dispenser :=
  if d.cursor < (d.tokens.length : Int) - 1 then (true, { d with cursor := d.cursor + 1 })
  else (false, d)

/-- Go `(*Dispenser).NextArg`: loads the next token if it is on the same line. -/
def Dispenser.NextArg (d : Dispenser) : Bool × Dispenser :=
  if d.cursor < 0 then (true, { d with cursor := d.cursor + 1 })
  else if d.cursor ≥ (d.tokens.length : Int) then (false, d)
  else
    match d.token d.cursor, d.token (d.cursor + 1) with
    | some t, some u =>
      if d.cursor < (d.tokens.length : Int) - 1 ∧ t.File = u.File ∧
          t.Line + d.numLineBreaks d.cursor = u.Line then
        (true, { d with cursor := d.cursor + 1 })
      else (false, d)
    | _, _ => (false, d)

/-- Go `(*Dispenser).NextBlock`. -/
def Dispenser.NextBlock (d : Dispenser) : Bool × Dispenser :=
  if d.nesting > 0 then
    let d1 := d.Next.2
    if d1.Val = ['}'] then (false, { d1 with nesting := d1.nesting - 1 })
    else (true, d1)
  else
    let r := d.NextArg
    if r.1 = false then (false, r.2)
    else if r.2.Val ≠ ['{'] then (false, { r.2 with cursor := r.2.cursor - 1 })
    else
      let d2 := r.2.Next.2
      if d2.Val = ['}'] then (false, d2)
      else (true, { d2 with nesting := d2.nesting + 1 })

/-- The loop of `RemainingArgs`; it runs at most once per token, which bounds `fuel`. -/
def Dispenser.RemainingArgs.loop : Nat → Dispenser → List GoString → List GoString × Dispenser
  | 0, d, args => (args, d)
  | fuel + 1, d, args =>
    let r := d.NextArg
    if r.1 = false then (args, r.2)
    else if r.2.Val = ['{'] then (args, { r.2 with cursor := r.2.cursor - 1 })
    else Dispenser.RemainingArgs.loop fuel r.2 (args ++ [r.2.Val])

/-- Go `(*Dispenser).RemainingArgs`: the tokens left on the line, up to an opening brace. -/
def Dispenser.RemainingArgs (d : Dispenser) : List GoString × Dispenser :=
  Dispenser.RemainingArgs.loop (d.tokens.length + 1) d []

end caddyfile

/-- The functions of other packages that `createPlugin` calls.  A `*url.URL` is
represented by its text. -/
structure createPlugin.Deps where
  urlParse : GoString → Except GoError GoString
  Hostname : GoString → GoString
  SetZonesFromArgs : List GoString → fall.F
  NewTraefikClient : TraefikConfig → Except GoError Unit

/-- The variables of `createPlugin` that its loops change. -/
structure createPlugin.State where
  c : caddyfile.Dispenser
  cfg : TraefikConfig
  Fall : fall.F
  mode : Int

/-- Go `c.ArgErr()`. -/
def ArgErr : GoError := "Wrong argument count or unexpected line ending"

/-- The body of the loop over the block: the `switch` on the property name. -/
def createPlugin.property (deps : createPlugin.Deps) (st : createPlugin.State) :
    Except GoError createPlugin.State :=
  let value := st.c.Val
  if value = "interface".toList then
    let r := st.c.NextArg
    if r.1 = false then Except.error ArgErr
    else Except.ok { st with c := r.2, cfg := { st.cfg with interfaceName := r.2.Val }, mode := 1 }
  else if value = "refreshinterval".toList then
    let r := st.c.NextArg
    if r.1 = false then Except.error ArgErr
    else
      match strconv.ParseUint r.2.Val with
      | Except.error err => Except.error err
      | Except.ok refreshInterval =>
        if refreshInterval > 0 then
          Except.ok { st with c := r.2, cfg := { st.cfg with refreshInterval := refreshInterval } }
        else Except.ok { st with c := r.2 }
  else if value = "ttl".toList then
    let r := st.c.NextArg
    if r.1 = false then Except.error ArgErr
    else
      match strconv.ParseUint r.2.Val with
      | Except.error err => Except.error err
      | Except.ok ttl =>
        if ttl > 0 then Except.ok { st with c := r.2, cfg := { st.cfg with ttl := ttl } }
        else Except.ok { st with c := r.2 }
  else if value = "fallthrough".toList then
    let r := st.c.RemainingArgs
    Except.ok { st with c := r.2, Fall := deps.SetZonesFromArgs r.1 }
  else Except.error "unknown property"

/-- The loop `for c.NextBlock()` of `createPlugin`. -/
def createPlugin.block (deps : createPlugin.Deps) :
    Nat → createPlugin.State → Option (Except GoError createPlugin.State)
  | 0, _ => none
  | fuel + 1, st =>
    let r := st.c.NextBlock
    if r.1 = false then some (Except.ok { st with c := r.2 })
    else
      match createPlugin.property deps { st with c := r.2 } with
      | Except.error err => some (Except.error err)
      | Except.ok st1 => createPlugin.block deps fuel st1

/-- The part of the body of the loop `for c.Next()` that precedes the block:
the optional base address. -/
def createPlugin.address (deps : createPlugin.Deps) (st : createPlugin.State) :
    Except GoError createPlugin.State :=
  let r := st.c.RemainingArgs
  let parsed : Except GoError TraefikConfig :=
    match r.1 with
    | [arg] =>
      match deps.urlParse arg with
      | Except.error err => Except.error err
      | Except.ok baseUrl => Except.ok { st.cfg with baseUrl := baseUrl }
    | _ => Except.ok st.cfg
  match parsed with
  | Except.error err => Except.error err
  | Except.ok cfg =>
    let cfg1 := { cfg with apiHostname := deps.Hostname cfg.baseUrl }
    if r.1.length > 1 then Except.error ArgErr
    else Except.ok { st with c := r.2, cfg := cfg1 }

/-- The loop `for c.Next()` of `createPlugin`. -/
def createPlugin.servers (deps : createPlugin.Deps) :
    Nat → createPlugin.State → Option (Except GoError createPlugin.State)
  | 0, _ => none
  | fuel + 1, st =>
    let r := st.c.Next
    if r.1 = false then some (Except.ok st)
    else
      match createPlugin.address deps { st with c := r.2 } with
      | Except.error err => some (Except.error err)
      | Except.ok st1 =>
        match createPlugin.block deps fuel st1 with
        | none => none
        | some (Except.error err) => some (Except.error err)
        | some (Except.ok st2) => createPlugin.servers deps fuel st2

/-- Go `createPlugin`, for the controller `c`. -/
def createPlugin (deps : createPlugin.Deps) (fuel : Nat) (c : caddyfile.Dispenser) :
    Option (Except GoError Traefik) :=
  let cfg : TraefikConfig :=
    { baseUrl := [], interfaceName := [], ttl := defaultTtl,
      refreshInterval := defaultRefreshInterval, apiHostname := [] }
  match deps.urlParse defaultTraefikApiEndpoint with
  | Except.error err => some (Except.error err)
  | Except.ok defaultBaseUrl =>
    match createPlugin.servers deps fuel
      { c := c, cfg := { cfg with baseUrl := defaultBaseUrl }, Fall := fall.F.zero, mode := -1 } with
    | none => none
    | some (Except.error err) => some (Except.error err)
    | some (Except.ok st) =>
      if st.mode = -1 then some (Except.error "traefik config requires an interface")
      else
        match deps.NewTraefikClient st.cfg with
        | Except.error err => some (Except.error err)
        | Except.ok _ =>
          some (Except.ok
            { Next := none, Config := st.cfg, mappings := ∅, ready := false, Fall := st.Fall })

/-- The tokens hold an `interface` property followed, on the same line of the
same file, by the argument `name`. -/
def InterfaceGiven (tokens : List caddyfile.Token) (name : GoString) : Prop :=
  ∃ (i : Nat) (p arg : caddyfile.Token),
    tokens[i]? = some p ∧ tokens[i + 1]? = some arg ∧ p.Text = "interface".toList ∧
      p.File = arg.File ∧ p.Line = arg.Line ∧ arg.Text = name

/-- The tokens hold the property `key` followed, on the same line of the same
file, by an argument that `strconv.ParseUint` reads as `n`. -/
def DurationGiven (tokens : List caddyfile.Token) (key : GoString) (n : Nat) : Prop :=
  ∃ (i : Nat) (p arg : caddyfile.Token),
    tokens[i]? = some p ∧ tokens[i + 1]? = some arg ∧ p.Text = key ∧
      p.File = arg.File ∧ p.Line = arg.Line ∧ strconv.ParseUint arg.Text = Except.ok n

/-- What the loops of `createPlugin` maintain for a controller over `tokens`:
`mode` is -1 or 1, it is 1 only after an `interface` property was read, and each
of the two durations is a positive value of 32 bits, which is the default
unless it is the value read from the argument of the property that sets it. -/
def createPlugin.Inv (tokens : List caddyfile.Token) (st : createPlugin.State) : Prop :=
  st.c.tokens = tokens ∧ (st.mode = -1 ∨ st.mode = 1) ∧
    (st.mode = 1 → InterfaceGiven tokens st.cfg.interfaceName) ∧
    (0 < st.cfg.ttl ∧ st.cfg.ttl ≤ strconv.maxVal ∧
      (st.cfg.ttl = defaultTtl ∨ DurationGiven tokens "ttl".toList st.cfg.ttl)) ∧
    (0 < st.cfg.refreshInterval ∧ st.cfg.refreshInterval ≤ strconv.maxVal ∧
      (st.cfg.refreshInterval = defaultRefreshInterval ∨
        DurationGiven tokens "refreshinterval".toList st.cfg.refreshInterval))

/-- What `setup` leaves when it returns no error: the plugin whose `start` runs in
the background and which is added to the server. -/
structure setup.Started where
  traefik : Traefik

/-- Go `setup`: the plugin is started and registered only when `createPlugin`
returned no error. -/
def setup (deps : createPlugin.Deps) (fuel : Nat) (c : caddyfile.Dispenser) :
    Option (Except GoError setup.Started) :=
  match createPlugin deps fuel c with
  | none => none
  | some (Except.error err) => some (Except.error err)
  | some (Except.ok traefik) => some (Except.ok { traefik := traefik })

/-! ## The hostnames a refresh observes -/

/-- The hostnames the inner loop of `refresh` reads off one rule, in match order. -/
def ruleHosts (lower : Char → Char) (rule : GoString) : List GoString :=
  (hostMatcher.FindAllStringSubmatch rule).filterMap fun s =>
    match s with
    | [_, _, host] => some (ToLower lower host)
    | _ => none

/-- The hostnames the loops of `refresh` read off a rule list, in visiting order. -/
def observedHosts (lower : Char → Char) (routers : List TraefikHttpRouter) : List GoString :=
  routers.flatMap fun s => ruleHosts lower s.Rule

/-- Go `(dns.RR).Header`. -/
def RR.Header : RR → RR_Header
  | RR.A hdr _ => hdr
  | RR.AAAA hdr _ => hdr

/-- The plugin after a sequence of calls of `refresh`, each given with what the
Traefik client returned and with its `first` flag. -/
def refreshAll (lower : Char → Char) (t : Traefik)
    (calls : List (Except GoError (List TraefikHttpRouter) × Bool)) : Traefik :=
  calls.foldl (fun t call => (refresh lower t call.1 call.2).t) t

/-! ## Example values -/

/-- A configuration as `createPlugin` builds it for `interface eth0`. -/
def exampleConfig : TraefikConfig :=
  { baseUrl := "http://localhost:8080/api".toList, interfaceName := "eth0".toList,
    ttl := 30, refreshInterval := 30, apiHostname := "localhost".toList }

/-- The address 2001:db8::1. -/
def exampleV6 : IP := [32, 1, 13, 184, 0, 0, 0, 0, 0, 0, 0, 0, 0, 0, 0, 1]

/-- The addresses of `eth0` in `exampleNet`: two loopback addresses, two IPv4
addresses, one IPv6 address and one address that is not a `*net.IPNet`. -/
def exampleAddrs : List Addr :=
  [Addr.IPNet [127, 0, 0, 1] [255, 0, 0, 0],
   Addr.IPNet [10, 0, 0, 1] [255, 255, 255, 0],
   Addr.IPNet IPv6loopback [],
   Addr.other "ip".toList "10.0.0.9".toList,
   Addr.IPNet exampleV6 [],
   Addr.IPNet [10, 0, 0, 2] [255, 255, 255, 0]]

/-- An interface table: `eth0` carries `exampleAddrs`, the addresses of `eth1`
cannot be read, and there is no other interface. -/
def exampleNet : Net :=
  { InterfaceByName := fun name =>
      if name = "eth0".toList then Except.ok (Interface.mk (Except.ok exampleAddrs))
      else if name = "eth1".toList then
        Except.ok (Interface.mk (Except.error "address list unavailable"))
      else Except.error "no such network interface" }

/-- A store with the single key `example.org`. -/
def exampleStore : TraefikConfigEntryMap :=
  AList.insert "example.org".toList { ttl := 30 } ∅

/-- CoreDNS `test.ErrorHandler`: writes a SERVFAIL reply and returns that code. -/
def test.ErrorHandler : Handler := fun w r =>
  (WriteMsg w { Msg.new.SetReply r with Rcode := RcodeServerFailure }, RcodeServerFailure, none)

/-- A plugin with a next handler and the fallthrough zone `test.`. -/
def examplePlugin : Traefik :=
  { Next := some test.ErrorHandler, Config := exampleConfig, mappings := exampleStore,
    ready := true, Fall := { Through := fun qname => HasSuffix qname "test.".toList } }

/-- A query message with one question of class Internet. -/
def exampleQuery (name : String) (qtype : Nat) : Msg :=
  Msg.new.SetQuestion 7 name.toList qtype

/-- The plugin `x` of `TestExample` in `traefik_test.go`. -/
def TestExample.x : Traefik :=
  { Next := some test.ErrorHandler,
    Config := { baseUrl := [], interfaceName := "eth0".toList, ttl := 30,
                refreshInterval := 0, apiHostname := [] },
    mappings := ∅, ready := false, Fall := fall.F.zero }

/-- The request `r` of `TestExample`: an A question for `example.org.`. -/
def TestExample.r : Msg := Msg.new.SetQuestion 1 "example.org.".toList TypeA

/-- A store with the keys `a`, `b` and `c`. -/
def exampleStoreABC : TraefikConfigEntryMap :=
  AList.insert ['a'] { ttl := 30 } (AList.insert ['b'] { ttl := 30 }
    (AList.insert ['c'] { ttl := 30 } ∅))

/-- A rule list that declares `b` twice, `c` and `d`, in mixed case. -/
def exampleRouters : List TraefikHttpRouter :=
  [{ Rule := "Host(`B`) && PathPrefix(`/x`)".toList },
   { Rule := "HostSNI(`c`) || Host(`D`)".toList },
   { Rule := "Host(`b`)".toList },
   { Rule := "PathPrefix(`/y`)".toList }]

/-- The tokens of a test input, all from `Testfile`, given by line and text. -/
def testTokens (tokens : List (Nat × String)) : List caddyfile.Token :=
  tokens.map fun t => { File := "Testfile".toList, Line := t.1, Text := t.2.toList }

/-- Go `caddy.NewTestController`, on the tokens of its input. -/
def NewTestController (tokens : List (Nat × String)) : caddyfile.Dispenser :=
  caddyfile.NewDispenserTokens (testTokens tokens)

/-- Stand-ins for the other packages in the examples: every address parses to
itself, and the client is always created. -/
def exampleDeps : createPlugin.Deps :=
  { urlParse := fun s => Except.ok s,
    Hostname := fun s => s,
    SetZonesFromArgs := fun zones =>
      { Through := fun qname => zones.any fun z => HasSuffix qname z },
    NewTraefikClient := fun _ => Except.ok () }

/-- The first input of `TestSetup`: a block with `interface eth0`. -/
def TestSetup.input1 : List (Nat × String) :=
  [(1, "traefik"), (1, "http://localhost:8080/api"), (1, "\x7b"),
   (2, "interface"), (2, "eth0"), (3, "\x7d")]

/-- The second input of `TestSetup`: no block. -/
def TestSetup.input2 : List (Nat × String) :=
  [(1, "traefik"), (1, "http://localhost:8080/api")]

/-- A block whose interface name is the empty quoted token. -/
def exampleEmptyInterface : List (Nat × String) :=
  [(1, "traefik"), (1, "\x7b"), (2, "interface"), (2, ""), (3, "\x7d")]

/-- The directive with the single argument `fallthrough` and no block. -/
def exampleBareFallthrough : List (Nat × String) :=
  [(1, "traefik"), (1, "fallthrough")]

/-- A block whose `interface` property has no argument on its line. -/
def exampleNoName : List (Nat × String) :=
  [(1, "traefik"), (1, "\x7b"), (2, "interface"), (3, "\x7d")]

/-- A block with the properties `interface eth0`, `ttl` and `refreshinterval`. -/
def exampleBlock (ttl refreshinterval : GoString) : caddyfile.Dispenser :=
  caddyfile.NewDispenserTokens
    [{ File := [], Line := 1, Text := "traefik".toList },
     { File := [], Line := 1, Text := "\x7b".toList },
     { File := [], Line := 2, Text := "interface".toList },
     { File := [], Line := 2, Text := "eth0".toList },
     { File := [], Line := 3, Text := "ttl".toList },
     { File := [], Line := 3, Text := ttl },
     { File := [], Line := 4, Text := "refreshinterval".toList },
     { File := [], Line := 4, Text := refreshinterval },
     { File := [], Line := 5, Text := "\x7d".toList }]

/-- A sequence of calls of `refresh`: a successful first run, then a failed fetch. -/
def exampleCalls : List (Except GoError (List TraefikHttpRouter) × Bool) :=
  [(Except.ok exampleRouters, true), (Except.error "connection refused", false)]

/-- The state in which the block loop of `createPlugin` stays on the input
`traefik`, opening brace, `fallthrough`: the cursor is on the last token. -/
def exampleStuck : createPlugin.State :=
  { c := { tokens := testTokens [(1, "traefik"), (1, "\x7b"), (2, "fallthrough")],
           cursor := 2, nesting := 1 },
    cfg := { baseUrl := defaultTraefikApiEndpoint, interfaceName := [], ttl := defaultTtl,
             refreshInterval := defaultRefreshInterval,
             apiHostname := defaultTraefikApiEndpoint },
    Fall := exampleDeps.SetZonesFromArgs [], mode := -1 }

/-! ## Lemmas on the loops of `refresh` -/

/-- The inner loop of `refresh` over the submatches of one rule visits the hosts of that rule. -/
theorem perMatch_foldl (lower : Char → Char) (ttl : Nat) (ms : List (List GoString))
    (st : refresh.Locals) :
    ms.foldl (refresh.perMatch lower ttl) st =
      (ms.filterMap fun s =>
        match s with
        | [_, _, host] => some (ToLower lower host)
        | _ => none).foldl (refresh.observe ttl) st := by
  induction ms generalizing st with
  | nil => rfl
  | cons s ms ih =>
    rw [List.foldl_cons, ih]
    match s with
    | [] => rfl
    | [_] => rfl
    | [_, _] => rfl
    | [_, _, _] => rfl
    | _ :: _ :: _ :: _ :: _ => rfl

/-- The two nested loops of `refresh` visit the observed hosts one after the other. -/
theorem perRouter_foldl (lower : Char → Char) (ttl : Nat) (routers : List TraefikHttpRouter)
    (st : refresh.Locals) :
    routers.foldl (refresh.perRouter lower ttl) st =
      (observedHosts lower routers).foldl (refresh.observe ttl) st := by
  induction routers generalizing st with
  | nil => rfl
  | cons s routers ih =>
    simp only [List.foldl_cons, observedHosts, List.flatMap_cons, List.foldl_append]
    rw [ih]
    simp only [refresh.perRouter, perMatch_foldl, ruleHosts, observedHosts]

/-- After one loop body the store has the visited host and the keys it had. -/
theorem observe_mappings_keys (ttl : Nat) (st : refresh.Locals) (host : GoString) :
    (refresh.observe ttl st host).mappings.keys.toFinset =
      insert host st.mappings.keys.toFinset := by
  unfold refresh.observe
  cases h : st.mappings.lookup host with
  | none =>
    ext k
    simp only [List.mem_toFinset, Finset.mem_insert, ← AList.mem_keys, AList.mem_insert]
  | some e =>
    have hmem : host ∈ st.mappings := AList.lookup_isSome.mp (by simp [h])
    ext k
    simp only [List.mem_toFinset, Finset.mem_insert, ← AList.mem_keys]
    constructor
    · exact Or.inr
    · rintro (rfl | hk)
      · exact hmem
      · exact hk

/-- One loop body records the visited host as observed. -/
theorem observe_fromTraefik (ttl : Nat) (st : refresh.Locals) (host : GoString) :
    (refresh.observe ttl st host).fromTraefik = st.fromTraefik.insert host := by
  unfold refresh.observe
  cases st.mappings.lookup host <;> rfl

/-- One loop body counts an addition exactly when the visited host was not mapped. -/
theorem observe_adds (ttl : Nat) (st : refresh.Locals) (host : GoString) :
    (refresh.observe ttl st host).adds =
      st.adds + (if host ∈ st.mappings then 0 else 1) := by
  unfold refresh.observe
  cases h : st.mappings.lookup host with
  | none =>
    have : host ∉ st.mappings := AList.lookup_eq_none.mp h
    simp [this]
  | some e =>
    have hmem : host ∈ st.mappings := AList.lookup_isSome.mp (by simp [h])
    simp [hmem]

/-- The first loop of `refresh`, run over the hosts `hs`: the store gains exactly
the hosts of `hs`, all of them are recorded as observed, and the counter grows
by the number of distinct hosts that were not in the store. -/
theorem observe_foldl (ttl : Nat) (hs : List GoString) (st : refresh.Locals) :
    (hs.foldl (refresh.observe ttl) st).mappings.keys.toFinset =
        st.mappings.keys.toFinset ∪ hs.toFinset ∧
      (hs.foldl (refresh.observe ttl) st).fromTraefik.toFinset =
        st.fromTraefik.toFinset ∪ hs.toFinset ∧
      (hs.foldl (refresh.observe ttl) st).adds =
        st.adds + (hs.toFinset \ st.mappings.keys.toFinset).card := by
  induction hs generalizing st with
  | nil => simp
  | cons h hs ih =>
    obtain ⟨ih1, ih2, ih3⟩ := ih (refresh.observe ttl st h)
    rw [List.foldl_cons]
    refine ⟨?_, ?_, ?_⟩
    · rw [ih1, observe_mappings_keys]
      ext k
      simp only [Finset.mem_union, Finset.mem_insert, List.mem_toFinset, List.mem_cons]
      tauto
    · rw [ih2, observe_fromTraefik]
      ext k
      simp only [Finset.mem_union, List.mem_toFinset, List.mem_insert_iff, List.mem_cons]
      tauto
    · rw [ih3, observe_adds, observe_mappings_keys, List.toFinset_cons]
      by_cases hm : h ∈ st.mappings
      · have hk : h ∈ st.mappings.keys.toFinset := List.mem_toFinset.mpr hm
        rw [if_pos hm, Finset.insert_eq_of_mem hk, Finset.insert_sdiff_of_mem _ hk]
        rfl
      · have hk : h ∉ st.mappings.keys.toFinset := fun hc => hm (List.mem_toFinset.mp hc)
        rw [if_neg hm, Finset.insert_sdiff_of_not_mem _ hk]
        have e1 : hs.toFinset \ insert h st.mappings.keys.toFinset =
            (hs.toFinset \ st.mappings.keys.toFinset).erase h := by
          ext k
          simp only [Finset.mem_sdiff, Finset.mem_insert, Finset.mem_erase]
          tauto
        have e2 : insert h (hs.toFinset \ st.mappings.keys.toFinset) =
            insert h ((hs.toFinset \ st.mappings.keys.toFinset).erase h) := by
          ext k
          simp only [Finset.mem_insert, Finset.mem_erase]
          tauto
        rw [e1, e2, Finset.card_insert_of_not_mem (Finset.not_mem_erase h _)]
        omega

/-- The second loop of `refresh` over the cached hosts `ks`: exactly the hosts
not observed are marked, and each of them is counted once. -/
theorem stale_foldl (F : List GoString) (ks : List GoString) (acc : List GoString × Nat) :
    (ks.foldl (refresh.stale F) acc).1.toFinset = acc.1.toFinset ∪ (ks.toFinset \ F.toFinset) ∧
      (ks.foldl (refresh.stale F) acc).2 = acc.2 + (ks.filter fun k => k ∉ F).length := by
  induction ks generalizing acc with
  | nil => simp
  | cons k ks ih =>
    obtain ⟨ih1, ih2⟩ := ih (refresh.stale F acc k)
    rw [List.foldl_cons]
    by_cases hk : k ∈ F
    · have hs : refresh.stale F acc k = acc := by simp [refresh.stale, hk]
      rw [hs] at ih1 ih2 ⊢
      refine ⟨?_, ?_⟩
      · rw [ih1]
        ext x
        simp only [Finset.mem_union, Finset.mem_sdiff, List.mem_toFinset, List.mem_cons]
        constructor
        · rintro (hx | ⟨hx, hn⟩)
          · exact Or.inl hx
          · exact Or.inr ⟨Or.inr hx, hn⟩
        · rintro (hx | ⟨rfl | hx, hn⟩)
          · exact Or.inl hx
          · exact absurd hk hn
          · exact Or.inr ⟨hx, hn⟩
      · rw [ih2]
        simp [List.filter_cons, hk]
    · have hs : refresh.stale F acc k = (acc.1.insert k, acc.2 + 1) := by
        simp [refresh.stale, hk]
      rw [hs] at ih1 ih2 ⊢
      refine ⟨?_, ?_⟩
      · rw [ih1]
        ext x
        simp only [Finset.mem_union, Finset.mem_sdiff, List.mem_toFinset, List.mem_cons,
          List.mem_insert_iff]
        constructor
        · rintro ((rfl | hx) | ⟨hx, hn⟩)
          · exact Or.inr ⟨Or.inl rfl, hk⟩
          · exact Or.inl hx
          · exact Or.inr ⟨Or.inr hx, hn⟩
        · rintro (hx | ⟨rfl | hx, hn⟩)
          · exact Or.inl (Or.inr hx)
          · exact Or.inl (Or.inl rfl)
          · exact Or.inr ⟨hx, hn⟩
      · rw [ih2]
        simp [List.filter_cons, hk]
        omega

/-- For a duplicate-free key list, the hosts counted by the second loop are the
set difference of the keys and the observed hosts. -/
theorem filter_not_mem_length (F : List GoString) (ks : List GoString) (hnd : ks.Nodup) :
    (ks.filter fun k => k ∉ F).length = (ks.toFinset \ F.toFinset).card := by
  have hnd2 : (ks.filter fun k => k ∉ F).Nodup := hnd.filter _
  rw [← List.toFinset_card_of_nodup hnd2]
  congr 1
  ext x
  simp only [List.mem_toFinset, List.mem_filter, Finset.mem_sdiff, decide_eq_true_eq]

/-- The third loop of `refresh`: deleting the hosts `ds` leaves the keys outside `ds`. -/
theorem erase_foldl (ds : List GoString) (m : TraefikConfigEntryMap) :
    (ds.foldl (fun m del => m.erase del) m).keys.toFinset = m.keys.toFinset \ ds.toFinset := by
  induction ds generalizing m with
  | nil => simp
  | cons d ds ih =>
    rw [List.foldl_cons, ih]
    ext x
    simp only [Finset.mem_sdiff, List.mem_toFinset, List.mem_cons, ← AList.mem_keys,
      AList.mem_erase]
    tauto

/-- The outcome of a successful `refresh` in terms of the prior keys and the
observed hosts. -/
theorem refresh_ok_spec (lower : Char → Char) (t : Traefik)
    (routers : List TraefikHttpRouter) (first : Bool) :
    (refresh lower t (Except.ok routers) first).err = none ∧
      (refresh lower t (Except.ok routers) first).t.mappings.keys.toFinset =
        (observedHosts lower routers).toFinset ∧
      (refresh lower t (Except.ok routers) first).adds =
        ((observedHosts lower routers).toFinset \ t.mappings.keys.toFinset).card ∧
      (refresh lower t (Except.ok routers) first).deletes =
        (t.mappings.keys.toFinset \ (observedHosts lower routers).toFinset).card := by
  obtain ⟨h1, h2, h3⟩ := observe_foldl t.Config.ttl (observedHosts lower routers)
    { mappings := t.mappings, fromTraefik := [], adds := 0 }
  simp only [List.toFinset_nil, Finset.empty_union, Nat.zero_add] at h1 h2 h3
  simp only [refresh, perRouter_foldl]
  generalize List.foldl (refresh.observe t.Config.ttl)
    { mappings := t.mappings, fromTraefik := [], adds := 0 } (observedHosts lower routers) = st
    at h1 h2 h3
  obtain ⟨s1, s2⟩ := stale_foldl st.fromTraefik st.mappings.keys ([], 0)
  simp only [List.toFinset_nil, Finset.empty_union, Nat.zero_add] at s1 s2
  refine ⟨trivial, ?_, h3, ?_⟩
  · rw [erase_foldl, s1, h1, h2]
    ext x
    simp only [Finset.mem_sdiff, Finset.mem_union]
    tauto
  · rw [s2, filter_not_mem_length _ _ st.mappings.keys_nodup, h1, h2]
    congr 1
    ext x
    simp only [Finset.mem_sdiff, Finset.mem_union]
    tauto

/-- The first loop of `refresh` changes neither the store nor the counter when
every visited host is already mapped. -/
theorem observe_foldl_of_mem (ttl : Nat) (hs : List GoString) (st : refresh.Locals)
    (hall : ∀ h ∈ hs, h ∈ st.mappings) :
    (hs.foldl (refresh.observe ttl) st).mappings = st.mappings ∧
      (hs.foldl (refresh.observe ttl) st).adds = st.adds := by
  induction hs generalizing st with
  | nil => exact ⟨rfl, rfl⟩
  | cons h hs ih =>
    have hm : h ∈ st.mappings := hall h (List.mem_cons_self h hs)
    obtain ⟨e, he⟩ : ∃ e, st.mappings.lookup h = some e :=
      Option.isSome_iff_exists.mp (AList.lookup_isSome.mpr hm)
    have hstep : refresh.observe ttl st h = { st with fromTraefik := st.fromTraefik.insert h } := by
      simp [refresh.observe, he]
    rw [List.foldl_cons, hstep]
    exact ih _ (fun x hx => hall x (List.mem_cons_of_mem h hx))

/-- The second loop of `refresh` marks nothing when every cached host was observed. -/
theorem stale_foldl_of_mem (F : List GoString) (ks : List GoString) (acc : List GoString × Nat)
    (hall : ∀ k ∈ ks, k ∈ F) : ks.foldl (refresh.stale F) acc = acc := by
  induction ks generalizing acc with
  | nil => rfl
  | cons k ks ih =>
    have hk : k ∈ F := hall k (List.mem_cons_self k ks)
    have hs : refresh.stale F acc k = acc := by simp [refresh.stale, hk]
    rw [List.foldl_cons, hs]
    exact ih acc (fun x hx => hall x (List.mem_cons_of_mem k hx))

/-- C1. Set-diff correctness of `refresh`: after a successful fetch whose rules
declare the hostnames `O` (lowercased), the key set of the mapping store is
exactly `O`, the additions counted are `|O \ P|` and the deletions counted are
`|P \ O|`, where `P` is the key set of the prior store; duplicates in the rule
list do not matter since `O` is a set. -/
theorem refresh_set_diff (lower : Char → Char) (t : Traefik)
    (routers : List TraefikHttpRouter) (first : Bool) :
    (refresh lower t (Except.ok routers) first).err = none ∧
      (refresh lower t (Except.ok routers) first).t.mappings.keys.toFinset =
        (observedHosts lower routers).toFinset ∧
      (refresh lower t (Except.ok routers) first).adds =
        ((observedHosts lower routers).toFinset \ t.mappings.keys.toFinset).card ∧
      (refresh lower t (Except.ok routers) first).deletes =
        (t.mappings.keys.toFinset \ (observedHosts lower routers).toFinset).card :=
  refresh_ok_spec lower t routers first

/-- C2. Idempotence of `refresh`: a second run with the same successfully fetched
rule list counts zero additions and zero deletions and leaves the plugin, and in
particular its mapping store, as the first run left it. -/
theorem refresh_idempotent (lower : Char → Char) (t : Traefik)
    (routers : List TraefikHttpRouter) (first second : Bool) :
    (refresh lower (refresh lower t (Except.ok routers) first).t
        (Except.ok routers) second).adds = 0 ∧
      (refresh lower (refresh lower t (Except.ok routers) first).t
        (Except.ok routers) second).deletes = 0 ∧
      (refresh lower (refresh lower t (Except.ok routers) first).t
        (Except.ok routers) second).t.mappings =
        (refresh lower t (Except.ok routers) first).t.mappings ∧
      (refresh lower (refresh lower t (Except.ok routers) first).t
        (Except.ok routers) second).t =
        (refresh lower t (Except.ok routers) first).t := by
  obtain ⟨-, hkeys, -, -⟩ := refresh_ok_spec lower t routers first
  have hready : (refresh lower t (Except.ok routers) first).t.ready = true := rfl
  have hcfg : (refresh lower t (Except.ok routers) first).t.Config = t.Config := rfl
  generalize (refresh lower t (Except.ok routers) first).t = t1 at hkeys hready hcfg
  have hall : ∀ h ∈ observedHosts lower routers, h ∈ t1.mappings := by
    intro h hh
    have : h ∈ t1.mappings.keys.toFinset := by rw [hkeys]; exact List.mem_toFinset.mpr hh
    exact List.mem_toFinset.mp this
  obtain ⟨o1, o2⟩ := observe_foldl_of_mem t1.Config.ttl (observedHosts lower routers)
    { mappings := t1.mappings, fromTraefik := [], adds := 0 } hall
  obtain ⟨-, f2, -⟩ := observe_foldl t1.Config.ttl (observedHosts lower routers)
    { mappings := t1.mappings, fromTraefik := [], adds := 0 }
  simp only [List.toFinset_nil, Finset.empty_union] at o1 o2 f2
  simp only [refresh, perRouter_foldl]
  generalize List.foldl (refresh.observe t1.Config.ttl)
    { mappings := t1.mappings, fromTraefik := [], adds := 0 } (observedHosts lower routers) = st
    at o1 o2 f2
  have hst : ∀ k ∈ st.mappings.keys, k ∈ st.fromTraefik := by
    intro k hk
    rw [o1] at hk
    have : k ∈ st.fromTraefik.toFinset := by
      rw [f2, ← hkeys]; exact List.mem_toFinset.mpr hk
    exact List.mem_toFinset.mp this
  rw [stale_foldl_of_mem st.fromTraefik st.mappings.keys ([], 0) hst]
  simp only [List.foldl_nil]
  refine ⟨o2, trivial, o1, ?_⟩
  rw [o1]
  cases t1
  simp only at hready
  subst hready
  rfl

/-- C3. When the fetch fails, `refresh` returns that error and leaves the plugin
(so its mapping store and its ready flag) exactly as it was, on the first run and
on every later one. -/
theorem refresh_fetch_error (lower : Char → Char) (t : Traefik) (err : GoError) (first : Bool) :
    (refresh lower t (Except.error err) first).err = some err ∧
      (refresh lower t (Except.error err) first).t = t ∧
      (refresh lower t (Except.error err) first).t.mappings = t.mappings ∧
      (refresh lower t (Except.error err) first).t.ready = t.ready :=
  ⟨rfl, rfl, rfl, rfl⟩

/-! ## Query responder -/

/-- An out-of-scope request takes the delegating return. -/
theorem ret_out_of_scope (lower : Char → Char) (os : Net) (t : Traefik) (r : Msg)
    (h : QClass r ≠ ClassINET ∨ (QType r ≠ TypeA ∧ QType r ≠ TypeAAAA)) :
    ServeDNS.ret lower os t r = ServeDNS.Return.next := by
  unfold ServeDNS.ret
  rw [if_pos h]

/-- The return of an in-scope request, by its answer set. -/
theorem ret_in_scope (lower : Char → Char) (os : Net) (t : Traefik) (r : Msg)
    (hc : QClass r = ClassINET) (ht : QType r = TypeA ∨ QType r = TypeAAAA) :
    ServeDNS.ret lower os t r =
      if (ServeDNS.answers lower os t r).length = 0 then
        if t.Fall.Through (QName r) && t.Next.isSome then ServeDNS.Return.next
        else ServeDNS.Return.reply
          { Msg.new.SetReply r with
            Authoritative := true, Answer := ServeDNS.answers lower os t r,
            Rcode := RcodeNameError }
      else ServeDNS.Return.reply
        { Msg.new.SetReply r with
          Authoritative := true, Answer := ServeDNS.answers lower os t r } := by
  unfold ServeDNS.ret
  have hn : ¬(QClass r ≠ ClassINET ∨ (QType r ≠ TypeA ∧ QType r ≠ TypeAAAA)) := by
    rintro (h | ⟨h1, h2⟩)
    · exact h hc
    · rcases ht with ht | ht
      · exact h1 ht
      · exact h2 ht
  rw [if_neg hn]

/-- The fields `SetReply` fixes, whatever the request. -/
theorem SetReply_fields (m request : Msg) :
    (m.SetReply request).Id = request.Id ∧ (m.SetReply request).Response = true ∧
      (m.SetReply request).Rcode = RcodeSuccess ∧ (m.SetReply request).Answer = m.Answer := by
  unfold Msg.SetReply
  cases request.Question <;> by_cases h : request.Opcode = OpcodeQuery <;> simp [h]

/-- The answer set is empty when the name is not mapped or the resolver has no
address of the requested family. -/
theorem answers_eq_nil (lower : Char → Char) (os : Net) (t : Traefik) (r : Msg)
    (hempty : t.getEntry (ServeDNS.find lower (QName r)) = none ∨
      (QType r = TypeA ∧ (getIPsFromInterface os t.Config.interfaceName).1 = []) ∨
      (QType r = TypeAAAA ∧ (getIPsFromInterface os t.Config.interfaceName).2 = [])) :
    ServeDNS.answers lower os t r = [] := by
  have hne : ¬ TypeAAAA = TypeA := by decide
  cases he : t.getEntry (ServeDNS.find lower (QName r)) with
  | none => simp only [ServeDNS.answers, he]
  | some e =>
    rcases hempty with h | ⟨hq, h⟩ | ⟨hq, h⟩
    · rw [he] at h; cases h
    · simp [ServeDNS.answers, he, hq, h]
    · simp [ServeDNS.answers, he, hq, h, hne]

/-- The answer set of an A query for a mapped name. -/
theorem answers_A (lower : Char → Char) (os : Net) (t : Traefik) (r : Msg)
    (hq : QType r = TypeA) (hmapped : t.getEntry (ServeDNS.find lower (QName r)) ≠ none) :
    ServeDNS.answers lower os t r =
      a (QName r) t.Config.ttl (getIPsFromInterface os t.Config.interfaceName).1 := by
  cases he : t.getEntry (ServeDNS.find lower (QName r)) with
  | none => exact absurd he hmapped
  | some e =>
    cases hips : (getIPsFromInterface os t.Config.interfaceName).1 with
    | nil => simp [ServeDNS.answers, he, hq, hips, a]
    | cons ip ips => simp [ServeDNS.answers, he, hq, hips]

/-- The answer set of an AAAA query for a mapped name. -/
theorem answers_AAAA (lower : Char → Char) (os : Net) (t : Traefik) (r : Msg)
    (hq : QType r = TypeAAAA) (hmapped : t.getEntry (ServeDNS.find lower (QName r)) ≠ none) :
    ServeDNS.answers lower os t r =
      aaaa (QName r) t.Config.ttl (getIPsFromInterface os t.Config.interfaceName).2 := by
  have hne : ¬ TypeAAAA = TypeA := by decide
  cases he : t.getEntry (ServeDNS.find lower (QName r)) with
  | none => exact absurd he hmapped
  | some e =>
    cases hips : (getIPsFromInterface os t.Config.interfaceName).2 with
    | nil => simp [ServeDNS.answers, he, hq, hne, hips, aaaa]
    | cons ip ips => simp [ServeDNS.answers, he, hq, hne, hips]

/-- C4. A query whose class is not Internet, or whose type is neither A nor AAAA,
is not answered by the plugin: `ServeDNS` takes the delegating return and its
result is exactly that of `plugin.NextOrFailure` on the next handler, whatever the
mapping store and whatever the interface resolver would return. -/
theorem ServeDNS_out_of_scope (lower : Char → Char) (os : Net) (t : Traefik)
    (w : ResponseWriter) (r : Msg)
    (h : QClass r ≠ ClassINET ∨ (QType r ≠ TypeA ∧ QType r ≠ TypeAAAA)) :
    ServeDNS.ret lower os t r = ServeDNS.Return.next ∧
      ServeDNS lower os t w r = NextOrFailure t.Name t.Next w r ∧
      ∀ (os2 : Net) (mappings : TraefikConfigEntryMap),
        ServeDNS lower os2 { t with mappings := mappings } w r =
          NextOrFailure t.Name t.Next w r := by
  refine ⟨ret_out_of_scope lower os t r h, ?_, ?_⟩
  · unfold ServeDNS
    rw [ret_out_of_scope lower os t r h]
  · intro os2 mappings
    unfold ServeDNS
    rw [ret_out_of_scope lower os2 _ r h]
    rfl

/-- C5. An in-scope query with an empty answer set (name not mapped, or mapped
with no address of the requested family) whose name is under no fallthrough zone
gets an authoritative reply with status NXDOMAIN and no answer record, and
`ServeDNS` returns `RcodeSuccess` with a nil error. -/
theorem ServeDNS_nxdomain (lower : Char → Char) (os : Net) (t : Traefik)
    (w : ResponseWriter) (r : Msg)
    (hc : QClass r = ClassINET) (ht : QType r = TypeA ∨ QType r = TypeAAAA)
    (hempty : t.getEntry (ServeDNS.find lower (QName r)) = none ∨
      (QType r = TypeA ∧ (getIPsFromInterface os t.Config.interfaceName).1 = []) ∨
      (QType r = TypeAAAA ∧ (getIPsFromInterface os t.Config.interfaceName).2 = []))
    (hfall : t.Fall.Through (QName r) = false) :
    ∃ m : Msg, ServeDNS lower os t w r = (w ++ [m], RcodeSuccess, none) ∧
      m.Response = true ∧ m.Authoritative = true ∧ m.Rcode = RcodeNameError ∧
      m.Answer = [] ∧ m.Id = r.Id := by
  have hans := answers_eq_nil lower os t r hempty
  obtain ⟨hid, hresp, -, -⟩ := SetReply_fields Msg.new r
  refine ⟨{ Msg.new.SetReply r with
    Authoritative := true, Answer := [], Rcode := RcodeNameError }, ?_, hresp, rfl, rfl, rfl, hid⟩
  unfold ServeDNS
  rw [ret_in_scope lower os t r hc ht, hans]
  simp [hfall, WriteMsg]

/-- A non-empty answer set is written with success status. -/
theorem ServeDNS_of_answers (lower : Char → Char) (os : Net) (t : Traefik)
    (w : ResponseWriter) (r : Msg)
    (hc : QClass r = ClassINET) (ht : QType r = TypeA ∨ QType r = TypeAAAA)
    (hne : ServeDNS.answers lower os t r ≠ []) :
    ServeDNS.ret lower os t r = ServeDNS.Return.reply
        { Msg.new.SetReply r with
          Authoritative := true, Answer := ServeDNS.answers lower os t r } ∧
      ServeDNS lower os t w r =
        (w ++ [{ Msg.new.SetReply r with
          Authoritative := true, Answer := ServeDNS.answers lower os t r }],
          RcodeSuccess, none) := by
  have hlen : ¬ (ServeDNS.answers lower os t r).length = 0 := fun h =>
    hne (List.length_eq_zero.mp h)
  have hret := ret_in_scope lower os t r hc ht
  rw [if_neg hlen] at hret
  refine ⟨hret, ?_⟩
  unfold ServeDNS
  rw [hret]
  rfl

/-- C6. For a mapped name, an A query answered from a non-empty IPv4 list
`ips` gets a success reply whose answer section is, in resolver order, one
class-INET A record per address, each with the configured TTL and the queried name
as it was sent; the same holds for an AAAA query and the IPv6 list. -/
theorem ServeDNS_address_records (lower : Char → Char) (os : Net) (t : Traefik)
    (w : ResponseWriter) (r : Msg) (ips : List IP)
    (hc : QClass r = ClassINET)
    (hmapped : t.getEntry (ServeDNS.find lower (QName r)) ≠ none)
    (hips : ips ≠ []) :
    (QType r = TypeA → (getIPsFromInterface os t.Config.interfaceName).1 = ips →
      ∃ m : Msg, ServeDNS lower os t w r = (w ++ [m], RcodeSuccess, none) ∧
        m.Rcode = RcodeSuccess ∧ m.Answer.length = ips.length ∧
        m.Answer = ips.map fun ip =>
          RR.A { Name := QName r, Rrtype := TypeA, Class := ClassINET, Ttl := t.Config.ttl } ip) ∧
    (QType r = TypeAAAA → (getIPsFromInterface os t.Config.interfaceName).2 = ips →
      ∃ m : Msg, ServeDNS lower os t w r = (w ++ [m], RcodeSuccess, none) ∧
        m.Rcode = RcodeSuccess ∧ m.Answer.length = ips.length ∧
        m.Answer = ips.map fun ip =>
          RR.AAAA
            { Name := QName r, Rrtype := TypeAAAA, Class := ClassINET, Ttl := t.Config.ttl } ip) := by
  obtain ⟨-, -, hrcode, -⟩ := SetReply_fields Msg.new r
  constructor
  · intro hq hres
    have hans : ServeDNS.answers lower os t r = a (QName r) t.Config.ttl ips := by
      rw [answers_A lower os t r hq hmapped, hres]
    have hne : ServeDNS.answers lower os t r ≠ [] := by
      rw [hans]; cases ips with
      | nil => exact absurd rfl hips
      | cons ip ips => simp [a]
    obtain ⟨-, hserve⟩ := ServeDNS_of_answers lower os t w r hc (Or.inl hq) hne
    refine ⟨_, hserve, hrcode, ?_, ?_⟩
    · show (ServeDNS.answers lower os t r).length = ips.length
      rw [hans]; simp [a]
    · show ServeDNS.answers lower os t r = _
      rw [hans]; rfl
  · intro hq hres
    have hans : ServeDNS.answers lower os t r = aaaa (QName r) t.Config.ttl ips := by
      rw [answers_AAAA lower os t r hq hmapped, hres]
    have hne : ServeDNS.answers lower os t r ≠ [] := by
      rw [hans]; cases ips with
      | nil => exact absurd rfl hips
      | cons ip ips => simp [aaaa]
    obtain ⟨-, hserve⟩ := ServeDNS_of_answers lower os t w r hc (Or.inr hq) hne
    refine ⟨_, hserve, hrcode, ?_, ?_⟩
    · show (ServeDNS.answers lower os t r).length = ips.length
      rw [hans]; simp [aaaa]
    · show ServeDNS.answers lower os t r = _
      rw [hans]; rfl

/-- C7. Fallthrough policy for an in-scope query.  With an empty answer set
`ServeDNS` takes the delegating return exactly when the queried name falls under
a fallthrough zone and a next handler is present, and its result is then that
handler's; otherwise it writes an authoritative NXDOMAIN reply without answers
and returns `RcodeSuccess`.  With a non-empty answer set it never delegates: it
writes the answers with success status. -/
theorem ServeDNS_fallthrough (lower : Char → Char) (os : Net) (t : Traefik)
    (w : ResponseWriter) (r : Msg)
    (hc : QClass r = ClassINET) (ht : QType r = TypeA ∨ QType r = TypeAAAA) :
    (ServeDNS.answers lower os t r = [] →
      (ServeDNS.ret lower os t r = ServeDNS.Return.next ↔
        (t.Fall.Through (QName r) = true ∧ t.Next ≠ none)) ∧
      (t.Fall.Through (QName r) = true → ∀ next : Handler, t.Next = some next →
        ServeDNS lower os t w r = next w r) ∧
      (¬(t.Fall.Through (QName r) = true ∧ t.Next ≠ none) →
        ∃ m : Msg, ServeDNS.ret lower os t r = ServeDNS.Return.reply m ∧
          ServeDNS lower os t w r = (w ++ [m], RcodeSuccess, none) ∧
          m.Authoritative = true ∧ m.Rcode = RcodeNameError ∧ m.Answer = [])) ∧
    (ServeDNS.answers lower os t r ≠ [] →
      ∃ m : Msg, ServeDNS.ret lower os t r = ServeDNS.Return.reply m ∧
        ServeDNS lower os t w r = (w ++ [m], RcodeSuccess, none) ∧
        m.Authoritative = true ∧ m.Rcode = RcodeSuccess ∧
        m.Answer = ServeDNS.answers lower os t r) := by
  obtain ⟨-, -, hrcode, -⟩ := SetReply_fields Msg.new r
  have hret := ret_in_scope lower os t r hc ht
  constructor
  · intro hnil
    rw [hnil] at hret
    simp only [List.length_nil, if_true] at hret
    refine ⟨?_, ?_, ?_⟩
    · rw [hret]
      cases hT : t.Fall.Through (QName r) <;> cases hN : t.Next <;> simp
    · intro hT next hN
      unfold ServeDNS
      rw [hret, hT, hN]
      rfl
    · intro hnot
      have hcond : (t.Fall.Through (QName r) && t.Next.isSome) = false := by
        cases hT : t.Fall.Through (QName r) <;> cases hN : t.Next <;> simp
        exact hnot ⟨hT, by simp [hN]⟩
      rw [hcond] at hret
      refine ⟨_, hret, ?_, rfl, rfl, rfl⟩
      unfold ServeDNS
      rw [hret]
      rfl
  · intro hne
    obtain ⟨h1, h2⟩ := ServeDNS_of_answers lower os t w r hc ht hne
    exact ⟨_, h1, h2, rfl, hrcode, rfl⟩

/-! ## Query name normalisation -/

/-- The lowering of the Go library on ASCII, `Char.toLower`, sends only the dot to the dot. -/
theorem toLower_eq_dot (c : Char) : Char.toLower c = '.' ↔ c = '.' := by
  constructor
  · intro h
    unfold Char.toLower at h
    simp only at h
    split at h
    · rename_i hr
      obtain ⟨h1, h2⟩ := hr
      generalize c.toNat = n at h h1 h2
      exfalso
      interval_cases n <;> revert h <;> decide
    · exact h
  · rintro rfl
    decide

/-- A queried name that ends in a dot is looked up without that dot. -/
theorem find_append_dot (lower : Char → Char) (hdot : lower '.' = '.') (q : GoString) :
    ServeDNS.find lower (q ++ ['.']) = ToLower lower q := by
  have hs : HasSuffix (ToLower lower (q ++ ['.'])) ['.'] = true := by
    simp [HasSuffix, ToLower, hdot]
  simp only [ServeDNS.find, hs, if_true]
  simp [ToLower, hdot]

/-- A queried name whose lowercase form has no final dot is looked up by that form. -/
theorem find_of_no_dot (lower : Char → Char) (q : GoString)
    (h : HasSuffix (ToLower lower q) ['.'] = false) :
    ServeDNS.find lower q = ToLower lower q := by
  simp [ServeDNS.find, h]

/-- Lowering does not create a final dot. -/
theorem ToLower_no_dot (lower : Char → Char) (hdot : ∀ c, lower c = '.' ↔ c = '.')
    (n : GoString) (hn : HasSuffix n ['.'] = false) :
    HasSuffix (ToLower lower n) ['.'] = false := by
  cases hs : HasSuffix (ToLower lower n) ['.'] with
  | false => rfl
  | true =>
    exfalso
    simp only [HasSuffix, List.isSuffixOf_iff_suffix] at hs
    obtain ⟨pre, hpre⟩ := hs
    simp only [ToLower] at hpre
    obtain ⟨n1, n2, hn12, -, h2⟩ := List.map_eq_append_iff.mp hpre.symm
    cases n2 with
    | nil => simp at h2
    | cons c n2 =>
      cases n2 with
      | cons d n3 => simp at h2
      | nil =>
        simp only [List.map_cons, List.map_nil, List.cons.injEq, and_true] at h2
        have hc : c = '.' := (hdot c).mp h2
        subst hc
        have : HasSuffix n ['.'] = true := by
          simp [HasSuffix, hn12]
        rw [hn] at this
        cases this

/-- C8. Query name normalisation.  The lowering is assumed to send the dot, and
only the dot, to the dot, as `strings.ToLower` does.  For a name `n` without a
final dot, every query name that is a case variant of `n` or of `n` followed by a
dot (in particular `n` and `n.` themselves) is looked up under the key
`lowercase(n)`, so all of them find the same entry or none; only one final dot
is removed. -/
theorem ServeDNS_find_normalizes (lower : Char → Char) (hdot : ∀ c, lower c = '.' ↔ c = '.')
    (n : GoString) (hn : HasSuffix n ['.'] = false) :
    ServeDNS.find lower n = ToLower lower n ∧
      ServeDNS.find lower (n ++ ['.']) = ToLower lower n ∧
      (∀ q : GoString,
        ToLower lower q = ToLower lower n ∨ ToLower lower q = ToLower lower (n ++ ['.']) →
          ServeDNS.find lower q = ToLower lower n ∧
          ∀ t : Traefik, t.getEntry (ServeDNS.find lower q) = t.getEntry (ToLower lower n)) ∧
      ServeDNS.find lower (n ++ ['.', '.']) = ToLower lower n ++ ['.'] := by
  have hd : lower '.' = '.' := (hdot '.').mpr rfl
  have hnd := ToLower_no_dot lower hdot n hn
  have h1 : ServeDNS.find lower n = ToLower lower n := find_of_no_dot lower n hnd
  have h2 : ServeDNS.find lower (n ++ ['.']) = ToLower lower n := find_append_dot lower hd n
  have hq : ∀ q : GoString,
      ToLower lower q = ToLower lower n ∨ ToLower lower q = ToLower lower (n ++ ['.']) →
        ServeDNS.find lower q = ToLower lower n := by
    intro q hq
    rcases hq with hq | hq
    · have : ServeDNS.find lower q = ServeDNS.find lower n := by
        simp only [ServeDNS.find, hq]
      rw [this, h1]
    · have : ServeDNS.find lower q = ServeDNS.find lower (n ++ ['.']) := by
        simp only [ServeDNS.find, hq]
      rw [this, h2]
  refine ⟨h1, h2, fun q hv => ⟨hq q hv, fun t => by rw [hq q hv]⟩, ?_⟩
  have : n ++ ['.', '.'] = (n ++ ['.']) ++ ['.'] := by simp
  rw [this, find_append_dot lower hd (n ++ ['.'])]
  simp [ToLower, hd]

/-! ## Interface address resolver -/

/-- The loop of `getIPsFromInterface` appends to each list the addresses that
pass its test, in order. -/
theorem getIPs_foldl (addrs : List Addr) (acc : List IP × List IP) :
    addrs.foldl getIPsFromInterface.step acc =
      (acc.1 ++ (addrs.map getIPsFromInterface.ipOf).filter
          (fun ip => decide (ip.To4 ≠ none ∧ ip.IsLoopback = false)),
        acc.2 ++ (addrs.map getIPsFromInterface.ipOf).filter
          (fun ip => decide (ip.To16 ≠ none ∧ ip.IsLoopback = false ∧ ip.To4 = none))) := by
  induction addrs generalizing acc with
  | nil => simp
  | cons addr addrs ih =>
    rw [List.foldl_cons, ih]
    unfold getIPsFromInterface.step
    by_cases h4 : (getIPsFromInterface.ipOf addr).To4 ≠ none ∧
        (getIPsFromInterface.ipOf addr).IsLoopback = false
    · have h6 : ¬((getIPsFromInterface.ipOf addr).To16 ≠ none ∧
          (getIPsFromInterface.ipOf addr).IsLoopback = false ∧
          (getIPsFromInterface.ipOf addr).To4 = none) := fun h => h4.1 h.2.2
      simp [h4, h6, List.filter_cons]
    · by_cases h6 : (getIPsFromInterface.ipOf addr).To16 ≠ none ∧
          (getIPsFromInterface.ipOf addr).IsLoopback = false ∧
          (getIPsFromInterface.ipOf addr).To4 = none
      · simp [h4, h6, List.filter_cons]
      · simp [h4, h6, List.filter_cons]

/-- Whatever the interface table, the IPv4 result holds only non-loopback
addresses with a 4-byte form and the IPv6 result only non-loopback addresses
with a 16-byte form and no 4-byte form. -/
theorem getIPs_sound (os : Net) (ifaceName : GoString) :
    (∀ ip ∈ (getIPsFromInterface os ifaceName).1, ip.To4 ≠ none ∧ ip.IsLoopback = false) ∧
      (∀ ip ∈ (getIPsFromInterface os ifaceName).2,
        ip.To16 ≠ none ∧ ip.IsLoopback = false ∧ ip.To4 = none) := by
  unfold getIPsFromInterface
  cases os.InterfaceByName ifaceName with
  | error e => simp
  | ok iface =>
    obtain ⟨res⟩ := iface
    cases res with
    | error e => simp
    | ok addrs =>
      simp only [getIPs_foldl, List.nil_append]
      constructor
      · intro ip hip
        have := (List.mem_filter.mp hip).2
        simpa using this
      · intro ip hip
        have := (List.mem_filter.mp hip).2
        simpa using this

/-- C10. Interface address partition.  When the interface exists and its
addresses can be read, the IPv4 result is the sub-sequence, in the order given
by the operating system, of the addresses that have a 4-byte form and are not
loopback, and the IPv6 result the sub-sequence of those that have a 16-byte
form, are not loopback and have no 4-byte form.  Neither result contains a
loopback address and no address is in both.  When the interface does not exist
or its addresses cannot be read, both results are empty. -/
theorem getIPsFromInterface_partition (os : Net) (ifaceName : GoString) :
    (∀ (iface : Interface) (addrs : List Addr),
      os.InterfaceByName ifaceName = Except.ok iface → iface.Addrs = Except.ok addrs →
        (getIPsFromInterface os ifaceName).1 =
            (addrs.map getIPsFromInterface.ipOf).filter
              (fun ip => decide (ip.To4 ≠ none ∧ ip.IsLoopback = false)) ∧
          (getIPsFromInterface os ifaceName).2 =
            (addrs.map getIPsFromInterface.ipOf).filter
              (fun ip => decide (ip.To16 ≠ none ∧ ip.IsLoopback = false ∧ ip.To4 = none))) ∧
      (∀ ip ∈ (getIPsFromInterface os ifaceName).1, ip.IsLoopback = false) ∧
      (∀ ip ∈ (getIPsFromInterface os ifaceName).2, ip.IsLoopback = false) ∧
      (∀ ip ∈ (getIPsFromInterface os ifaceName).1, ip ∉ (getIPsFromInterface os ifaceName).2) ∧
      (∀ e : GoError, os.InterfaceByName ifaceName = Except.error e →
        getIPsFromInterface os ifaceName = ([], [])) ∧
      (∀ (iface : Interface) (e : GoError),
        os.InterfaceByName ifaceName = Except.ok iface → iface.Addrs = Except.error e →
          getIPsFromInterface os ifaceName = ([], [])) := by
  obtain ⟨s4, s6⟩ := getIPs_sound os ifaceName
  refine ⟨?_, fun ip h => (s4 ip h).2, fun ip h => (s6 ip h).2.1,
    fun ip h h2 => (s4 ip h).1 (s6 ip h2).2.2, ?_, ?_⟩
  · intro iface addrs hi ha
    simp only [getIPsFromInterface, hi, ha, getIPs_foldl, List.nil_append, and_self]
  · intro e hi
    simp only [getIPsFromInterface, hi]
  · intro iface e hi ha
    simp only [getIPsFromInterface, hi, ha]

/-! ## Host extraction -/

namespace hostMatcher

/-- A literal is read off the front of a text that starts with it. -/
theorem lit_append (p rest : GoString) : lit p (p ++ rest) = some rest := by
  induction p with
  | nil => cases rest <;> rfl
  | cons c p ih => simp [lit, ih]

/-- A literal is read only off a text that starts with it. -/
theorem lit_eq_some {p s rest : GoString} (h : lit p s = some rest) : s = p ++ rest := by
  induction p generalizing s with
  | nil =>
    cases s <;> simp [lit] at h <;> simp [h]
  | cons c p ih =>
    cases s with
    | nil => simp [lit] at h
    | cons d s =>
      simp only [lit] at h
      split at h
      · rename_i hcd
        rw [hcd, ih h]
        rfl
      · cases h

/-- A run of runes other than the backtick, closed by a backtick and a
parenthesis, is captured whole. -/
theorem hostRun_append (h rest : GoString) (hne : h ≠ []) (hbt : backtick ∉ h) :
    hostRun (h ++ [backtick, ')'] ++ rest) = some (h, rest) := by
  induction h with
  | nil => exact absurd rfl hne
  | cons c h ih =>
    have hc : c ≠ backtick := fun e => hbt (e ▸ List.mem_cons_self _ _)
    have hh : backtick ∉ h := fun e => hbt (List.mem_cons_of_mem _ e)
    cases h with
    | nil =>
      simp [hostRun, hc, lit]
    | cons d h =>
      have := ih (by simp) hh
      simp only [List.cons_append] at this ⊢
      rw [hostRun, if_neg hc, this]

/-- What `hostRun` captures is a non-empty run without backtick, and the text
had the closing backtick and parenthesis right after it. -/
theorem hostRun_eq_some {s h rest : GoString} (hs : hostRun s = some (h, rest)) :
    h ≠ [] ∧ backtick ∉ h ∧ s = h ++ [backtick, ')'] ++ rest := by
  induction s generalizing h rest with
  | nil => simp [hostRun] at hs
  | cons c s ih =>
    rw [hostRun] at hs
    split at hs
    · cases hs
    · rename_i hc
      cases hr : hostRun s with
      | some p =>
        obtain ⟨h1, rest1⟩ := p
        rw [hr] at hs
        simp only [Option.some.injEq, Prod.mk.injEq] at hs
        obtain ⟨rfl, rfl⟩ := hs
        obtain ⟨-, i2, i3⟩ := ih hr
        refine ⟨by simp, ?_, by rw [i3]; simp⟩
        intro hm
        rcases List.mem_cons.mp hm with e | e
        · exact hc e.symm
        · exact i2 e
      | none =>
        rw [hr] at hs
        cases hl : lit [backtick, ')'] s with
        | none => rw [hl] at hs; cases hs
        | some r =>
          rw [hl] at hs
          simp only [Option.some.injEq, Prod.mk.injEq] at hs
          obtain ⟨rfl, rfl⟩ := hs
          refine ⟨by simp, ?_, by rw [lit_eq_some hl]; simp⟩
          intro hm
          rcases List.mem_cons.mp hm with e | e
          · exact hc e.symm
          · cases e

/-- The parenthesised, backtick-quoted literal is matched after the optional group. -/
theorem afterGroup_append (g1 h rest : GoString) (hne : h ≠ []) (hbt : backtick ∉ h) :
    afterGroup g1 (['(', backtick] ++ h ++ [backtick, ')'] ++ rest) = some (g1, h, rest) := by
  have h1 : lit ['(', backtick] (['(', backtick] ++ h ++ [backtick, ')'] ++ rest) =
      some (h ++ [backtick, ')'] ++ rest) := by
    have := lit_append ['(', backtick] (h ++ [backtick, ')'] ++ rest)
    simpa using this
  simp only [afterGroup, h1, hostRun_append h rest hne hbt]

/-- What is matched after the optional group is a parenthesised, backtick-quoted literal. -/
theorem afterGroup_eq_some {g1 s g h rest : GoString} (hs : afterGroup g1 s = some (g, h, rest)) :
    g = g1 ∧ h ≠ [] ∧ backtick ∉ h ∧ s = ['(', backtick] ++ h ++ [backtick, ')'] ++ rest := by
  unfold afterGroup at hs
  cases hl : lit ['(', backtick] s with
  | none => simp [hl] at hs
  | some s2 =>
    cases hr : hostRun s2 with
    | none => simp [hl, hr] at hs
    | some p =>
      obtain ⟨h1, rest1⟩ := p
      simp only [hl, hr, Option.some.injEq, Prod.mk.injEq] at hs
      obtain ⟨rfl, rfl, rfl⟩ := hs
      obtain ⟨i1, i2, i3⟩ := hostRun_eq_some hr
      refine ⟨rfl, i1, i2, ?_⟩
      rw [lit_eq_some hl, i3]
      simp

/-- A declaration at the front of the text is matched, with its two groups. -/
theorem matchAt_declaration (g1 h rest : GoString) (hg : g1 = [] ∨ g1 = ['S', 'N', 'I'])
    (hne : h ≠ []) (hbt : backtick ∉ h) :
    matchAt (declaration g1 h ++ rest) = some (g1, h, rest) := by
  have hag := afterGroup_append g1 h rest hne hbt
  rcases hg with rfl | rfl
  · have e : declaration [] h ++ rest =
        ['H', 'o', 's', 't'] ++ (['(', backtick] ++ h ++ [backtick, ')'] ++ rest) := by
      simp [declaration]
    have hsni : lit ['S', 'N', 'I'] (['(', backtick] ++ h ++ [backtick, ')'] ++ rest) = none := by
      simp [lit]
    rw [e]
    simp only [matchAt, lit_append, hsni, hag]
  · have e : declaration ['S', 'N', 'I'] h ++ rest =
        ['H', 'o', 's', 't'] ++ (['S', 'N', 'I'] ++ (['(', backtick] ++ h ++ [backtick, ')'] ++ rest)) := by
      simp [declaration]
    rw [e]
    simp only [matchAt, lit_append, hag]

/-- A match at the front of the text is a declaration. -/
theorem matchAt_eq_some {s g h rest : GoString} (hs : matchAt s = some (g, h, rest)) :
    (g = [] ∨ g = ['S', 'N', 'I']) ∧ h ≠ [] ∧ backtick ∉ h ∧ s = declaration g h ++ rest := by
  unfold matchAt at hs
  cases hl : lit ['H', 'o', 's', 't'] s with
  | none => simp [hl] at hs
  | some s1 =>
    simp only [hl] at hs
    have hs0 := lit_eq_some hl
    cases hl2 : lit ['S', 'N', 'I'] s1 with
    | none =>
      simp only [hl2] at hs
      obtain ⟨rfl, i1, i2, i3⟩ := afterGroup_eq_some hs
      refine ⟨Or.inl rfl, i1, i2, ?_⟩
      rw [hs0, i3]
      simp [declaration]
    | some s2 =>
      simp only [hl2] at hs
      have hs1 := lit_eq_some hl2
      cases ha : afterGroup ['S', 'N', 'I'] s2 with
      | some m =>
        simp only [ha, Option.some.injEq] at hs
        subst hs
        obtain ⟨rfl, i1, i2, i3⟩ := afterGroup_eq_some ha
        refine ⟨Or.inr rfl, i1, i2, ?_⟩
        rw [hs0, hs1, i3]
        simp [declaration]
      | none =>
        simp only [ha] at hs
        obtain ⟨-, -, -, i3⟩ := afterGroup_eq_some hs
        rw [hs1] at i3
        simp at i3

/-- A declaration contains a backtick. -/
theorem backtick_mem_declaration (g1 h : GoString) : backtick ∈ declaration g1 h := by
  simp [declaration]

/-- The text before the first backtick is determined. -/
theorem eq_of_append_backtick {l1 l2 r1 r2 : GoString} (h1 : backtick ∉ l1) (h2 : backtick ∉ l2)
    (e : l1 ++ backtick :: r1 = l2 ++ backtick :: r2) : l1 = l2 := by
  induction l1 generalizing l2 with
  | nil =>
    cases l2 with
    | nil => rfl
    | cons d l2 =>
      simp only [List.nil_append, List.cons_append, List.cons.injEq] at e
      exact absurd (e.1 ▸ List.mem_cons_self _ _) h2
  | cons c l1 ih =>
    cases l2 with
    | nil =>
      simp only [List.nil_append, List.cons_append, List.cons.injEq] at e
      exact absurd (e.1 ▸ List.mem_cons_self _ _) h1
    | cons d l2 =>
      simp only [List.cons_append, List.cons.injEq] at e
      rw [e.1, ih (fun m => h1 (List.mem_cons_of_mem _ m)) (fun m => h2 (List.mem_cons_of_mem _ m)) e.2]

/-- Runes that are passed over because they belong to the previous match. -/
theorem scan_skip (xs ys : GoString) : scan xs.length (xs ++ ys) = scan 0 ys := by
  induction xs with
  | nil => rfl
  | cons x xs ih => simpa [scan] using ih

/-- A text without backtick has no match. -/
theorem scan_of_no_backtick (s : GoString) (k : Nat) (hs : backtick ∉ s) : scan k s = [] := by
  induction s generalizing k with
  | nil => cases k <;> rfl
  | cons c s ih =>
    have hs2 : backtick ∉ s := fun m => hs (List.mem_cons_of_mem _ m)
    cases k with
    | succ k => simpa [scan] using ih k hs2
    | zero =>
      cases hm : matchAt (c :: s) with
      | none => simpa [scan, hm] using ih 0 hs2
      | some m =>
        obtain ⟨g, h, rest⟩ := m
        obtain ⟨-, -, -, e⟩ := matchAt_eq_some hm
        exact absurd (e ▸ List.mem_append_left _ (backtick_mem_declaration g h)) hs

/-- No match starts inside a backtick-free text that precedes a declaration. -/
theorem matchAt_before_declaration (c : Char) (pre g1 h post : GoString)
    (hpre : backtick ∉ c :: pre) (hg : g1 = [] ∨ g1 = ['S', 'N', 'I']) :
    matchAt (c :: pre ++ declaration g1 h ++ post) = none := by
  cases hm : matchAt (c :: pre ++ declaration g1 h ++ post) with
  | none => rfl
  | some m =>
    exfalso
    obtain ⟨g, x, rest⟩ := m
    obtain ⟨hg2, -, -, e⟩ := matchAt_eq_some hm
    have e2 : (c :: pre ++ (['H', 'o', 's', 't'] ++ g1 ++ ['('])) ++
          backtick :: (h ++ [backtick, ')'] ++ post) =
        (['H', 'o', 's', 't'] ++ g ++ ['(']) ++ backtick :: (x ++ [backtick, ')'] ++ rest) := by
      simpa [declaration] using e
    have n1 : backtick ∉ (['H', 'o', 's', 't'] ++ g1 ++ ['(']) := by
      rcases hg with rfl | rfl <;> decide
    have n2 : backtick ∉ (['H', 'o', 's', 't'] ++ g ++ ['(']) := by
      rcases hg2 with rfl | rfl <;> decide
    have n3 : backtick ∉ c :: pre ++ (['H', 'o', 's', 't'] ++ g1 ++ ['(']) := by
      intro m
      rcases List.mem_append.mp m with m | m
      · exact hpre m
      · exact n1 m
    have e3 := eq_of_append_backtick n3 n2 e2
    have hl := congrArg List.length e3
    rcases hg with rfl | rfl <;> rcases hg2 with rfl | rfl
    · simp at hl
    · simp only [List.length_append, List.length_cons, List.length_nil] at hl
      have hp : pre.length = 2 := by omega
      obtain ⟨a, b, rfl⟩ := List.length_eq_two.mp hp
      simp at e3
    · simp only [List.length_append, List.length_cons, List.length_nil] at hl
      omega
    · simp only [List.length_append, List.length_cons, List.length_nil] at hl
      omega

/-- The search passes over a backtick-free text that precedes a declaration. -/
theorem scan_before_declaration (pre g1 h post : GoString)
    (hpre : backtick ∉ pre) (hg : g1 = [] ∨ g1 = ['S', 'N', 'I']) :
    scan 0 (pre ++ declaration g1 h ++ post) = scan 0 (declaration g1 h ++ post) := by
  induction pre with
  | nil => rfl
  | cons c pre ih =>
    have hm := matchAt_before_declaration c pre g1 h post hpre hg
    have hpre2 : backtick ∉ pre := fun m => hpre (List.mem_cons_of_mem _ m)
    have step : scan 0 (c :: pre ++ declaration g1 h ++ post) =
        scan 0 (pre ++ declaration g1 h ++ post) := by
      simp only [List.cons_append] at hm ⊢
      simp only [scan, hm]
    rw [step, ih hpre2]

/-- The search reports a declaration that follows a backtick-free text, and
goes on after it. -/
theorem FindAllStringSubmatch_declaration (pre g1 h post : GoString)
    (hpre : backtick ∉ pre) (hg : g1 = [] ∨ g1 = ['S', 'N', 'I'])
    (hne : h ≠ []) (hbt : backtick ∉ h) :
    FindAllStringSubmatch (pre ++ declaration g1 h ++ post) =
      [declaration g1 h, g1, h] :: FindAllStringSubmatch post := by
  unfold FindAllStringSubmatch
  rw [scan_before_declaration pre g1 h post hpre hg]
  have hm := matchAt_declaration g1 h post hg hne hbt
  obtain ⟨T, hT⟩ : ∃ T, declaration g1 h = 'H' :: T := ⟨_, rfl⟩
  rw [hT] at hm ⊢
  simp only [List.cons_append] at hm ⊢
  simp only [scan, hm]
  have hn : ('H' :: (T ++ post)).length - post.length = T.length + 1 := by
    simp only [List.length_cons, List.length_append]; omega
  rw [hn]
  have ht : List.take (T.length + 1) ('H' :: (T ++ post)) = 'H' :: T := by
    simp
  rw [ht]
  simp only [Nat.add_sub_cancel, scan_skip]

/-- Every reported match comes from a declaration in the text. -/
theorem scan_ne_nil (s : GoString) (k : Nat) (hs : scan k s ≠ []) :
    ∃ pre g1 h post, (g1 = [] ∨ g1 = ['S', 'N', 'I']) ∧ h ≠ [] ∧ backtick ∉ h ∧
      s = pre ++ declaration g1 h ++ post := by
  induction s generalizing k with
  | nil => cases k <;> exact absurd rfl hs
  | cons c s ih =>
    have lift : (∃ j, scan j s ≠ []) → ∃ pre g1 h post,
        (g1 = [] ∨ g1 = ['S', 'N', 'I']) ∧ h ≠ [] ∧ backtick ∉ h ∧
          c :: s = pre ++ declaration g1 h ++ post := by
      rintro ⟨j, hj⟩
      obtain ⟨pre, g1, h, post, i1, i2, i3, i4⟩ := ih j hj
      exact ⟨c :: pre, g1, h, post, i1, i2, i3, by rw [i4]; rfl⟩
    cases k with
    | succ k => exact lift ⟨k, by simpa [scan] using hs⟩
    | zero =>
      cases hm : matchAt (c :: s) with
      | none => exact lift ⟨0, by simpa [scan, hm] using hs⟩
      | some m =>
        obtain ⟨g, h, rest⟩ := m
        obtain ⟨i1, i2, i3, i4⟩ := matchAt_eq_some hm
        exact ⟨[], g, h, rest, i1, i2, i3, by rw [i4]; rfl⟩

/-- A match at the front of a text is a match at the front of every longer text. -/
theorem matchAt_append {s g x rest : GoString} (t : GoString)
    (hs : matchAt s = some (g, x, rest)) : matchAt (s ++ t) = some (g, x, rest ++ t) := by
  obtain ⟨hg, hne, hbt, e⟩ := matchAt_eq_some hs
  rw [e, List.append_assoc]
  exact matchAt_declaration g x (rest ++ t) hg hne hbt

/-- The search reports a declaration at the front of the text and goes on after it. -/
theorem scan_declaration (g1 h rest : GoString) (hg : g1 = [] ∨ g1 = ['S', 'N', 'I'])
    (hne : h ≠ []) (hbt : backtick ∉ h) :
    scan 0 (declaration g1 h ++ rest) = [declaration g1 h, g1, h] :: scan 0 rest :=
  FindAllStringSubmatch_declaration [] g1 h rest (by simp) hg hne hbt

/-- A match that starts before a declaration ends before it, unless the literal
of the declaration begins with a closing parenthesis and the text before it ends
inside the literal of an opened declaration. -/
theorem matchAt_within (pre g1 h post g x rest : GoString) (hpne : pre ≠ [])
    (hg : g1 = [] ∨ g1 = ['S', 'N', 'I'])
    (hsafe : h.head? ≠ some ')' ∨
      ¬∃ p g0 r, (g0 = [] ∨ g0 = ['S', 'N', 'I']) ∧ backtick ∉ r ∧
        pre = p ++ (['H', 'o', 's', 't'] ++ g0 ++ ['(', backtick]) ++ r)
    (hm : matchAt (pre ++ declaration g1 h ++ post) = some (g, x, rest)) :
    ∃ r, pre = declaration g x ++ r ∧ rest = r ++ declaration g1 h ++ post := by
  obtain ⟨hg2, hxne, hxbt, e⟩ := matchAt_eq_some hm
  by_cases hb : backtick ∈ pre
  · obtain ⟨a, b, hab, hna⟩ := List.eq_append_cons_of_mem hb
    have n2 : backtick ∉ (['H', 'o', 's', 't'] ++ g ++ ['(']) := by
      rcases hg2 with rfl | rfl <;> decide
    have e2 : a ++ backtick :: (b ++ declaration g1 h ++ post) =
        (['H', 'o', 's', 't'] ++ g ++ ['(']) ++ backtick :: (x ++ backtick :: ')' :: rest) := by
      rw [hab] at e
      simpa [declaration] using e
    have ea := eq_of_append_backtick hna n2 e2
    rw [ea] at e2
    have e3 : b ++ declaration g1 h ++ post = x ++ backtick :: ')' :: rest :=
      List.cons_injective (List.append_cancel_left e2)
    by_cases hb2 : backtick ∈ b
    · obtain ⟨b1, b2, hb12, hnb1⟩ := List.eq_append_cons_of_mem hb2
      have e4 : b1 ++ backtick :: (b2 ++ declaration g1 h ++ post) =
          x ++ backtick :: (')' :: rest) := by
        rw [hb12] at e3
        simpa using e3
      have eb := eq_of_append_backtick hnb1 hxbt e4
      rw [eb] at e4
      have e5 : b2 ++ declaration g1 h ++ post = ')' :: rest :=
        List.cons_injective (List.append_cancel_left e4)
      cases b2 with
      | nil =>
        exfalso
        simp [declaration] at e5
      | cons d b2 =>
        simp only [List.cons_append, List.cons.injEq] at e5
        obtain ⟨rfl, e6⟩ := e5
        refine ⟨b2, ?_, e6.symm⟩
        rw [hab, ea, hb12, eb]
        simp [declaration]
    · exfalso
      have n1 : backtick ∉ (['H', 'o', 's', 't'] ++ g1 ++ ['(']) := by
        rcases hg with rfl | rfl <;> decide
      have n3 : backtick ∉ b ++ (['H', 'o', 's', 't'] ++ g1 ++ ['(']) := by
        intro m
        rcases List.mem_append.mp m with m | m
        · exact hb2 m
        · exact n1 m
      have e4 : (b ++ (['H', 'o', 's', 't'] ++ g1 ++ ['('])) ++
            backtick :: (h ++ [backtick, ')'] ++ post) =
          x ++ backtick :: (')' :: rest) := by
        simpa [declaration] using e3
      have eb := eq_of_append_backtick n3 hxbt e4
      rw [eb] at e4
      have e5 : h ++ [backtick, ')'] ++ post = ')' :: rest :=
        List.cons_injective (List.append_cancel_left e4)
      rcases hsafe with hs | hs
      · cases h with
        | nil =>
          simp only [List.nil_append, List.cons_append, List.cons.injEq] at e5
          exact absurd e5.1 (by decide)
        | cons d h =>
          simp only [List.cons_append, List.cons.injEq] at e5
          apply hs
          rw [e5.1]
          rfl
      · apply hs
        refine ⟨[], g, b, hg2, hb2, ?_⟩
        rw [hab, ea]
        simp
  · exfalso
    cases pre with
    | nil => exact hpne rfl
    | cons c pre =>
      rw [matchAt_before_declaration c pre g1 h post hb hg] at hm
      cases hm

/-- The search over a text that holds a declaration: the matches before the
declaration are those of the text before it, then comes the declaration, then
the matches of the text after it. -/
theorem scan_append_declaration (pre g1 h post : GoString) (k : Nat) (hk : k ≤ pre.length)
    (hg : g1 = [] ∨ g1 = ['S', 'N', 'I'])
    (hsafe : h.head? ≠ some ')' ∨
      ¬∃ p g0 r, (g0 = [] ∨ g0 = ['S', 'N', 'I']) ∧ backtick ∉ r ∧
        pre = p ++ (['H', 'o', 's', 't'] ++ g0 ++ ['(', backtick]) ++ r) :
    scan k (pre ++ declaration g1 h ++ post) =
      scan k pre ++ scan 0 (declaration g1 h ++ post) := by
  induction pre generalizing k with
  | nil =>
    have hk0 : k = 0 := by simpa using hk
    subst hk0
    simp [scan]
  | cons c pre ih =>
    have hsafe2 : h.head? ≠ some ')' ∨
        ¬∃ p g0 r, (g0 = [] ∨ g0 = ['S', 'N', 'I']) ∧ backtick ∉ r ∧
          pre = p ++ (['H', 'o', 's', 't'] ++ g0 ++ ['(', backtick]) ++ r := by
      rcases hsafe with hs | hs
      · exact Or.inl hs
      · right
        rintro ⟨p, g0, r, h1, h2, h3⟩
        exact hs ⟨c :: p, g0, r, h1, h2, by rw [h3]; simp⟩
    cases k with
    | succ k =>
      have := ih k (by simpa using hk) hsafe2
      simpa [scan] using this
    | zero =>
      cases hm : matchAt (c :: pre ++ declaration g1 h ++ post) with
      | none =>
        have hm2 : matchAt (c :: pre) = none := by
          cases hm3 : matchAt (c :: pre) with
          | none => rfl
          | some m =>
            obtain ⟨g, x, r⟩ := m
            have := matchAt_append (declaration g1 h ++ post) hm3
            rw [← List.append_assoc, hm] at this
            cases this
        have := ih 0 (Nat.zero_le _) hsafe2
        generalize scan 0 (declaration g1 h ++ post) = X at this ⊢
        simp only [List.cons_append] at hm ⊢
        simp only [scan, hm, hm2]
        exact this
      | some m =>
        obtain ⟨g, x, rest⟩ := m
        obtain ⟨hg2, hxne, hxbt, -⟩ := matchAt_eq_some hm
        obtain ⟨r, hpre, -⟩ := matchAt_within (c :: pre) g1 h post g x rest (by simp) hg hsafe hm
        obtain ⟨T, hT⟩ : ∃ T, declaration g x = 'H' :: T := ⟨_, rfl⟩
        have hpre2 : pre = T ++ r := by
          rw [hT] at hpre
          simp only [List.cons_append, List.cons.injEq] at hpre
          exact hpre.2
        have i1 := ih T.length (by rw [hpre2]; simp) hsafe2
        rw [hpre2, List.append_assoc, List.append_assoc, scan_skip, scan_skip] at i1
        rw [hpre, List.append_assoc, List.append_assoc, scan_declaration g x _ hg2 hxne hxbt,
          scan_declaration g x _ hg2 hxne hxbt, i1]
        simp

end hostMatcher

/-- The hosts of a rule that holds a declaration: those of the text before it,
the host of the declaration, those of the text after it. -/
theorem ruleHosts_append_declaration (lower : Char → Char) (pre g1 h post : GoString)
    (hg : g1 = [] ∨ g1 = ['S', 'N', 'I']) (hne : h ≠ []) (hbt : backtick ∉ h)
    (hsafe : h.head? ≠ some ')' ∨
      ¬∃ p g0 r, (g0 = [] ∨ g0 = ['S', 'N', 'I']) ∧ backtick ∉ r ∧
        pre = p ++ (['H', 'o', 's', 't'] ++ g0 ++ ['(', backtick]) ++ r) :
    ruleHosts lower (pre ++ hostMatcher.declaration g1 h ++ post) =
      ruleHosts lower pre ++ ToLower lower h :: ruleHosts lower post := by
  unfold ruleHosts hostMatcher.FindAllStringSubmatch
  rw [hostMatcher.scan_append_declaration pre g1 h post 0 (Nat.zero_le _) hg hsafe,
    hostMatcher.scan_declaration g1 h post hg hne hbt, List.filterMap_append]
  rfl

/-- A rule without declaration yields no host. -/
theorem ruleHosts_of_no_declaration (lower : Char → Char) (rule : GoString)
    (hno : ¬∃ pre g1 h post, (g1 = [] ∨ g1 = ['S', 'N', 'I']) ∧ h ≠ [] ∧ backtick ∉ h ∧
      rule = pre ++ hostMatcher.declaration g1 h ++ post) :
    ruleHosts lower rule = [] := by
  have hs : hostMatcher.FindAllStringSubmatch rule = [] := by
    by_contra hc
    exact hno (hostMatcher.scan_ne_nil rule 0 hc)
  simp [ruleHosts, hs]

/-- C9 (amended). Host extraction.  Take a rule made of a text `pre`, then
`Host(B h B)` or `HostSNI(B h B)` (`B` the backtick) with `h` non-empty and
without backtick, then a text `post`, where `h` does not begin with a closing
parenthesis or `pre` does not end inside the literal of an opened declaration
(`Host(B` or `HostSNI(B` followed by runes other than the backtick).  The
hostnames `refresh` reads off the rule are those of `pre`, then `lowercase(h)`,
then those of `post`, the same for both forms and whatever the casing of `h`.
So a refresh on that rule leaves exactly the key set `{lowercase(h)}` if and only
if `pre` and `post` yield no other hostname, and in particular when they yield
none.  A rule that contains no declaration yields no hostname. -/
theorem refresh_host_extraction (lower : Char → Char) (pre h post : GoString)
    (hne : h ≠ []) (hbt : backtick ∉ h)
    (hsafe : h.head? ≠ some ')' ∨
      ¬∃ p g0 r, (g0 = [] ∨ g0 = ['S', 'N', 'I']) ∧ backtick ∉ r ∧
        pre = p ++ (['H', 'o', 's', 't'] ++ g0 ++ ['(', backtick]) ++ r) :
    (∀ g1 : GoString, g1 = [] ∨ g1 = ['S', 'N', 'I'] →
      ruleHosts lower (pre ++ hostMatcher.declaration g1 h ++ post) =
        ruleHosts lower pre ++ ToLower lower h :: ruleHosts lower post) ∧
    (∀ g1 : GoString, g1 = [] ∨ g1 = ['S', 'N', 'I'] → ∀ (t : Traefik) (first : Bool),
      ((refresh lower t
          (Except.ok [{ Rule := pre ++ hostMatcher.declaration g1 h ++ post }])
          first).t.mappings.keys.toFinset = {ToLower lower h} ↔
        ∀ y, y ∈ ruleHosts lower pre ∨ y ∈ ruleHosts lower post → y = ToLower lower h)) ∧
    (ruleHosts lower pre = [] → ruleHosts lower post = [] →
      ∀ g1 : GoString, g1 = [] ∨ g1 = ['S', 'N', 'I'] →
        ruleHosts lower (pre ++ hostMatcher.declaration g1 h ++ post) = [ToLower lower h] ∧
        ∀ (t : Traefik) (first : Bool),
          (refresh lower t
            (Except.ok [{ Rule := pre ++ hostMatcher.declaration g1 h ++ post }])
            first).t.mappings.keys.toFinset = {ToLower lower h}) ∧
    (∀ rule : GoString,
      (¬∃ p g1 x q, (g1 = [] ∨ g1 = ['S', 'N', 'I']) ∧ x ≠ [] ∧ backtick ∉ x ∧
        rule = p ++ hostMatcher.declaration g1 x ++ q) →
      ruleHosts lower rule = []) := by
  have hr : ∀ g1 : GoString, g1 = [] ∨ g1 = ['S', 'N', 'I'] →
      ruleHosts lower (pre ++ hostMatcher.declaration g1 h ++ post) =
        ruleHosts lower pre ++ ToLower lower h :: ruleHosts lower post :=
    fun g1 hg => ruleHosts_append_declaration lower pre g1 h post hg hne hbt hsafe
  have hkeys : ∀ (g1 : GoString) (t : Traefik) (first : Bool),
      g1 = [] ∨ g1 = ['S', 'N', 'I'] →
      (refresh lower t
        (Except.ok [{ Rule := pre ++ hostMatcher.declaration g1 h ++ post }])
        first).t.mappings.keys.toFinset =
        (ruleHosts lower pre ++ ToLower lower h :: ruleHosts lower post).toFinset := by
    intro g1 t first hg
    obtain ⟨-, hk, -, -⟩ := refresh_ok_spec lower t
      [{ Rule := pre ++ hostMatcher.declaration g1 h ++ post }] first
    rw [hk, ← hr g1 hg]
    simp [observedHosts]
  refine ⟨hr, ?_, ?_, fun rule hno => ruleHosts_of_no_declaration lower rule hno⟩
  · intro g1 hg t first
    rw [hkeys g1 t first hg]
    constructor
    · intro he y hy
      have hy2 : y ∈ (ruleHosts lower pre ++ ToLower lower h :: ruleHosts lower post).toFinset := by
        rw [List.mem_toFinset, List.mem_append, List.mem_cons]
        rcases hy with hy | hy
        · exact Or.inl hy
        · exact Or.inr (Or.inr hy)
      rw [he] at hy2
      exact Finset.mem_singleton.mp hy2
    · intro hall
      ext y
      rw [List.mem_toFinset, List.mem_append, List.mem_cons, Finset.mem_singleton]
      constructor
      · rintro (hy | hy | hy)
        · exact hall y (Or.inl hy)
        · exact hy
        · exact hall y (Or.inr hy)
      · intro hy
        exact Or.inr (Or.inl hy)
  · intro hpre hpost g1 hg
    refine ⟨by rw [hr g1 hg, hpre, hpost]; rfl, fun t first => ?_⟩
    rw [hkeys g1 t first hg, hpre, hpost]
    rfl

/-! ## Configuration -/

namespace caddyfile

/-- `Next` leaves the tokens alone and moves the cursor by one, if at all. -/
theorem Next_spec (d : Dispenser) :
    (d.Next.1 = true ∧ d.cursor < (d.tokens.length : Int) - 1 ∧
        d.Next.2 = { d with cursor := d.cursor + 1 }) ∨
      (d.Next.1 = false ∧ ¬ d.cursor < (d.tokens.length : Int) - 1 ∧ d.Next.2 = d) := by
  unfold Dispenser.Next
  by_cases h : d.cursor < (d.tokens.length : Int) - 1
  · left; simp [h]
  · right; simp [h]

/-- `NextArg` either loads the following token, or fails and changes nothing.
From a loaded token it only moves to a token on the same line of the same file. -/
theorem NextArg_spec (d : Dispenser) :
    (d.NextArg.1 = true ∧ d.NextArg.2 = { d with cursor := d.cursor + 1 } ∧
        (d.cursor < 0 ∨ (d.cursor < (d.tokens.length : Int) - 1 ∧
          ∃ t u, d.token d.cursor = some t ∧ d.token (d.cursor + 1) = some u ∧
            t.File = u.File ∧ t.Line + d.numLineBreaks d.cursor = u.Line))) ∨
      (d.NextArg.1 = false ∧ d.NextArg.2 = d ∧ 0 ≤ d.cursor) := by
  unfold Dispenser.NextArg
  by_cases h0 : d.cursor < 0
  · left; simp [h0]
  · by_cases h1 : d.cursor ≥ (d.tokens.length : Int)
    · right; simp [h0, h1]; omega
    · simp only [h0, h1, if_false]
      cases ht : d.token d.cursor with
      | none => right; simp; omega
      | some t =>
        cases hu : d.token (d.cursor + 1) with
        | none => right; simp; omega
        | some u =>
          simp only
          split
          · rename_i hc
            left
            exact ⟨rfl, rfl, Or.inr ⟨hc.1, t, u, rfl, rfl, hc.2.1, hc.2.2⟩⟩
          · right; exact ⟨rfl, rfl, by omega⟩

/-- The loop of `RemainingArgs` keeps the tokens and the nesting, and leaves the
cursor at or after where it was, on a token. -/
theorem RemainingArgs_loop_spec (fuel : Nat) (d : Dispenser) (args : List GoString)
    (h0 : 0 ≤ d.cursor) (h1 : d.cursor ≤ (d.tokens.length : Int) - 1) :
    (Dispenser.RemainingArgs.loop fuel d args).2.tokens = d.tokens ∧
      (Dispenser.RemainingArgs.loop fuel d args).2.nesting = d.nesting ∧
      d.cursor ≤ (Dispenser.RemainingArgs.loop fuel d args).2.cursor ∧
      (Dispenser.RemainingArgs.loop fuel d args).2.cursor ≤ (d.tokens.length : Int) - 1 := by
  induction fuel generalizing d args with
  | zero => exact ⟨rfl, rfl, le_refl _, h1⟩
  | succ fuel ih =>
    unfold Dispenser.RemainingArgs.loop
    simp only []
    rcases NextArg_spec d with ⟨ht, he, hc⟩ | ⟨hf, he, -⟩
    · have hlt : d.cursor < (d.tokens.length : Int) - 1 := by
        rcases hc with hc | hc
        · omega
        · exact hc.1
      rw [if_neg (by rw [ht]; decide), he]
      split
      · refine ⟨rfl, rfl, ?_, ?_⟩ <;> dsimp only <;> omega
      · obtain ⟨i1, i2, i3, i4⟩ := ih { d with cursor := d.cursor + 1 }
          (args ++ [({ d with cursor := d.cursor + 1 } : Dispenser).Val])
          (by dsimp only; omega) (by dsimp only; omega)
        dsimp only at i1 i2 i3 i4
        exact ⟨i1, i2, by omega, i4⟩
    · rw [if_pos hf, he]
      exact ⟨rfl, rfl, le_refl _, h1⟩

/-- Once the fuel exceeds the number of tokens after the cursor, more fuel does
not change what the loop of `RemainingArgs` returns. -/
theorem RemainingArgs_loop_mono (fuel : Nat) (d : Dispenser) (args : List GoString)
    (hfuel : (d.tokens.length : Int) - 1 - d.cursor < fuel) :
    Dispenser.RemainingArgs.loop (fuel + 1) d args = Dispenser.RemainingArgs.loop fuel d args := by
  induction fuel generalizing d args with
  | zero =>
    rcases NextArg_spec d with ⟨-, -, hc⟩ | ⟨hf, he, -⟩
    · exfalso
      rcases hc with hc | hc
      · omega
      · omega
    · simp only [Dispenser.RemainingArgs.loop, hf, he, if_true]
  | succ fuel ih =>
    rcases NextArg_spec d with ⟨ht, he, -⟩ | ⟨hf, he, -⟩
    · have e1 : ∀ f, Dispenser.RemainingArgs.loop (f + 1) d args =
          if ({ d with cursor := d.cursor + 1 } : Dispenser).Val = ['{'] then
            (args, { ({ d with cursor := d.cursor + 1 } : Dispenser) with
              cursor := ({ d with cursor := d.cursor + 1 } : Dispenser).cursor - 1 })
          else Dispenser.RemainingArgs.loop f { d with cursor := d.cursor + 1 }
            (args ++ [({ d with cursor := d.cursor + 1 } : Dispenser).Val]) := by
        intro f
        rw [Dispenser.RemainingArgs.loop]
        dsimp only
        rw [if_neg (by rw [ht]; decide), he]
      rw [e1 (fuel + 1), e1 fuel]
      split
      · rfl
      · exact ih _ _ (by dsimp only; omega)
    · have e1 : ∀ f, Dispenser.RemainingArgs.loop (f + 1) d args = (args, d) := by
        intro f
        rw [Dispenser.RemainingArgs.loop]
        dsimp only
        rw [if_pos hf, he]
      rw [e1 (fuel + 1), e1 fuel]

/-- The fuel of `RemainingArgs` is enough: with any larger fuel its loop returns
the same arguments and the same controller. -/
theorem RemainingArgs_fuel (d : Dispenser) (hc : -1 ≤ d.cursor) (k : Nat) :
    Dispenser.RemainingArgs.loop (d.tokens.length + 1 + k) d [] = d.RemainingArgs := by
  induction k with
  | zero => rfl
  | succ k ih =>
    rw [← Nat.add_assoc, RemainingArgs_loop_mono _ d [] (by push_cast; omega)]
    exact ih

/-- `RemainingArgs` keeps the tokens and leaves the cursor at or after where it
was, on a token. -/
theorem RemainingArgs_spec (d : Dispenser)
    (h0 : 0 ≤ d.cursor) (h1 : d.cursor ≤ (d.tokens.length : Int) - 1) :
    d.RemainingArgs.2.tokens = d.tokens ∧ d.RemainingArgs.2.nesting = d.nesting ∧
      d.cursor ≤ d.RemainingArgs.2.cursor ∧
      d.RemainingArgs.2.cursor ≤ (d.tokens.length : Int) - 1 :=
  RemainingArgs_loop_spec _ d [] h0 h1

/-- `NextBlock` keeps the tokens and never moves the cursor back; when it
reports a property, the cursor has advanced unless it was on the last token. -/
theorem NextBlock_spec (d : Dispenser)
    (h0 : 0 ≤ d.cursor) (h1 : d.cursor ≤ (d.tokens.length : Int) - 1) :
    d.NextBlock.2.tokens = d.tokens ∧ d.cursor ≤ d.NextBlock.2.cursor ∧
      d.NextBlock.2.cursor ≤ (d.tokens.length : Int) - 1 ∧
      (d.NextBlock.1 = true →
        d.cursor < d.NextBlock.2.cursor ∨ d.cursor = (d.tokens.length : Int) - 1) := by
  have nx : ∀ e : Dispenser, e.Next.2.tokens = e.tokens ∧ e.Next.2.nesting = e.nesting ∧
      e.cursor ≤ e.Next.2.cursor ∧
      (e.cursor ≤ (e.tokens.length : Int) - 1 → e.Next.2.cursor ≤ (e.tokens.length : Int) - 1) ∧
      (e.cursor < (e.tokens.length : Int) - 1 → e.cursor < e.Next.2.cursor) := by
    intro e
    rcases Next_spec e with ⟨-, hlt, he⟩ | ⟨-, hge, he⟩
    · rw [he]; refine ⟨rfl, rfl, ?_, ?_, ?_⟩ <;> first | omega | (simp; omega) | simp
    · rw [he]; exact ⟨rfl, rfl, le_refl _, fun h => h, fun h => absurd h hge⟩
  unfold Dispenser.NextBlock
  simp only []
  by_cases hn : d.nesting > 0
  · rw [if_pos hn]
    obtain ⟨n1, -, n3, n4, n5⟩ := nx d
    split
    · exact ⟨n1, n3, n4 h1, fun h => by cases h⟩
    · refine ⟨n1, n3, n4 h1, fun _ => ?_⟩
      by_cases hlt : d.cursor < (d.tokens.length : Int) - 1
      · exact Or.inl (n5 hlt)
      · exact Or.inr (by omega)
  · rw [if_neg hn]
    rcases NextArg_spec d with ⟨ht, he, hc⟩ | ⟨hf, he, -⟩
    · have hlt : d.cursor < (d.tokens.length : Int) - 1 := by
        rcases hc with hc | hc
        · omega
        · exact hc.1
      rw [if_neg (by rw [ht]; decide), he]
      obtain ⟨n1, -, n3, n4, -⟩ := nx { d with cursor := d.cursor + 1 }
      dsimp only at n1 n3 n4
      split
      · refine ⟨rfl, ?_, ?_, fun h => by cases h⟩ <;> dsimp only <;> omega
      · split
        · exact ⟨n1, by dsimp only; omega, by dsimp only; exact n4 (by omega),
            fun h => by cases h⟩
        · exact ⟨n1, by dsimp only; omega, by dsimp only; exact n4 (by omega),
            fun _ => Or.inl (by dsimp only; omega)⟩
    · rw [if_pos hf, he]
      exact ⟨rfl, le_refl _, h1, fun h => by cases h⟩

/-- A non-empty `Val` is the text of the token under the cursor. -/
theorem token_of_Val (d : Dispenser) (v : GoString) (hv : d.Val = v) (hne : v ≠ []) :
    ∃ t, d.token d.cursor = some t ∧ t.Text = v := by
  unfold Dispenser.Val at hv
  cases ht : d.token d.cursor with
  | none => rw [ht] at hv; exact absurd hv.symm hne
  | some t => rw [ht] at hv; exact ⟨t, rfl, hv⟩

/-- A token that `Dispenser.token` finds is an element of the token list. -/
theorem token_eq_some (d : Dispenser) (i : Int) (t : Token) (h : d.token i = some t) :
    0 ≤ i ∧ d.tokens[i.toNat]? = some t := by
  unfold Dispenser.token at h
  by_cases h0 : 0 ≤ i
  · rw [if_pos h0] at h; exact ⟨h0, h⟩
  · rw [if_neg h0] at h; cases h

/-- `NextBlock` raises the nesting only on an opening brace. -/
theorem NextBlock_nesting (d : Dispenser)
    (h : d.nesting > 0 → ∃ tok ∈ d.tokens, tok.Text = ['{']) :
    d.NextBlock.2.nesting > 0 → ∃ tok ∈ d.tokens, tok.Text = ['{'] := by
  unfold Dispenser.NextBlock
  simp only []
  by_cases hn : d.nesting > 0
  · intro _
    exact h hn
  · rw [if_neg hn]
    rcases NextArg_spec d with ⟨ht, he, -⟩ | ⟨hf, he, -⟩
    · rw [if_neg (by rw [ht]; decide), he]
      split
      · intro h2
        dsimp only at h2
        omega
      · rename_i hval
        have hv : ({ d with cursor := d.cursor + 1 } : Dispenser).Val = ['{'] := not_not.mp hval
        obtain ⟨t, ht2, htx⟩ := token_of_Val _ _ hv (by decide)
        obtain ⟨-, hti⟩ := token_eq_some _ _ t ht2
        intro _
        exact ⟨t, List.getElem?_mem hti, htx⟩
    · rw [if_pos hf, he]
      intro h2
      omega

/-- On the last token `NextBlock` reports a property only inside a block, and
then leaves the controller as it is. -/
theorem NextBlock_last (d : Dispenser) (h0 : 0 ≤ d.cursor)
    (hc : d.cursor = (d.tokens.length : Int) - 1) (ht : d.NextBlock.1 = true) :
    d.nesting > 0 ∧ d.NextBlock.2 = d := by
  have hnext : d.Next.2 = d := by
    rcases Next_spec d with ⟨-, hlt, -⟩ | ⟨-, -, he⟩
    · omega
    · exact he
  unfold Dispenser.NextBlock at ht ⊢
  simp only [] at ht ⊢
  by_cases hn : d.nesting > 0
  · rw [if_pos hn] at ht ⊢
    rw [hnext] at ht ⊢
    split at ht
    · cases ht
    · rename_i hv
      rw [if_neg hv]
      exact ⟨hn, rfl⟩
  · rw [if_neg hn] at ht
    rcases NextArg_spec d with ⟨-, -, hc2⟩ | ⟨hf, -, -⟩
    · rcases hc2 with hc2 | hc2 <;> omega
    · rw [if_pos hf] at ht
      cases ht

/-- On the last token no argument remains. -/
theorem RemainingArgs_last (d : Dispenser) (h0 : 0 ≤ d.cursor)
    (hc : d.cursor = (d.tokens.length : Int) - 1) : d.RemainingArgs = ([], d) := by
  rcases NextArg_spec d with ⟨-, -, hc2⟩ | ⟨hf, he, -⟩
  · rcases hc2 with hc2 | hc2 <;> omega
  · unfold Dispenser.RemainingArgs
    rw [Dispenser.RemainingArgs.loop]
    dsimp only
    rw [if_pos hf, he]

end caddyfile

namespace strconv

/-- The loop of `ParseUint` never returns more than 32 bits hold. -/
theorem ParseUint_loop_le (s : GoString) (n m : Nat) (hn : n ≤ maxVal)
    (h : ParseUint.loop s n = Except.ok m) : m ≤ maxVal := by
  induction s generalizing n with
  | nil =>
    simp only [ParseUint.loop, Except.ok.injEq] at h
    omega
  | cons c s ih =>
    unfold ParseUint.loop at h
    simp only [] at h
    split at h
    · split at h
      · cases h
      · rename_i hle
        exact ih _ (by omega) h
    · cases h

/-- A value that `ParseUint` returns fits in 32 bits. -/
theorem ParseUint_le (s : GoString) (m : Nat) (h : ParseUint s = Except.ok m) : m ≤ maxVal := by
  unfold ParseUint at h
  split at h
  · cases h
  · exact ParseUint_loop_le s 0 m (Nat.zero_le _) h

/-- A decimal digit is a rune between `0` and `9`, and is read as its value. -/
theorem digitChar_spec (d : Nat) (hd : d < 10) :
    ('0' ≤ Nat.digitChar d ∧ Nat.digitChar d ≤ '9') ∧
      (Nat.digitChar d).toNat - '0'.toNat = d := by
  interval_cases d <;> exact ⟨by decide, by decide⟩

/-- The loop of `ParseUint` over the decimal digits of `n`, followed by the text
`ds`: it goes on over `ds` with the value `n`, unless `n` is out of range. -/
theorem ParseUint_loop_toDigitsCore (fuel n : Nat) (hf : n < fuel) (ds : GoString) :
    ParseUint.loop (Nat.toDigitsCore 10 fuel n ds) 0 =
      if n ≤ maxVal then ParseUint.loop ds n
      else Except.error "strconv.ParseUint: value out of range" := by
  induction fuel generalizing n ds with
  | zero => omega
  | succ fuel ih =>
    obtain ⟨⟨h0, h9⟩, hv⟩ := digitChar_spec (n % 10) (Nat.mod_lt _ (by decide))
    unfold Nat.toDigitsCore
    dsimp only
    have e : n / 10 * 10 + n % 10 = n := by omega
    by_cases hq : n / 10 = 0
    · rw [if_pos hq]
      have hn : n % 10 = n := by omega
      have hle : n ≤ maxVal := by unfold maxVal; omega
      rw [if_pos hle]
      conv_lhs => unfold ParseUint.loop
      rw [if_pos ⟨h0, h9⟩]
      dsimp only
      rw [hv, hn, if_neg (by omega)]
      simp
    · rw [if_neg hq]
      rw [ih (n / 10) (by omega)]
      by_cases hle : n ≤ maxVal
      · have hle1 : n / 10 ≤ maxVal := by omega
        rw [if_pos hle, if_pos hle1]
        conv_lhs => unfold ParseUint.loop
        rw [if_pos ⟨h0, h9⟩]
        dsimp only
        rw [hv, e, if_neg (by omega)]
      · rw [if_neg hle]
        by_cases hle1 : n / 10 ≤ maxVal
        · rw [if_pos hle1]
          conv_lhs => unfold ParseUint.loop
          rw [if_pos ⟨h0, h9⟩]
          dsimp only
          rw [hv, e, if_pos (by omega)]
        · rw [if_neg hle1]

/-- The decimal text of `n` is read as `n` when `n` fits 32 bits, and is out of
range otherwise. -/
theorem ParseUint_toDigits (n : Nat) :
    ParseUint (Nat.toDigits 10 n) =
      if n < 2 ^ 32 then Except.ok n
      else Except.error "strconv.ParseUint: value out of range" := by
  have hne : Nat.toDigits 10 n ≠ [] := by
    unfold Nat.toDigits Nat.toDigitsCore
    dsimp only
    split
    · simp
    · intro h
      have := congrArg List.length h
      rw [Nat.toDigitsCore_lens_eq] at this
      simp at this
  unfold ParseUint
  rw [if_neg hne]
  unfold Nat.toDigits
  rw [ParseUint_loop_toDigitsCore _ _ (Nat.lt_succ_self n)]
  unfold maxVal
  by_cases h : n < 2 ^ 32
  · rw [if_pos h, if_pos (by omega)]
    rfl
  · rw [if_neg h, if_neg (by omega)]

/-- The loop of `ParseUint` fails on a text that holds a rune other than a
decimal digit. -/
theorem ParseUint_loop_not_digit (s : GoString) (n : Nat)
    (h : ∃ c ∈ s, ¬('0' ≤ c ∧ c ≤ '9')) : ∃ err, ParseUint.loop s n = Except.error err := by
  induction s generalizing n with
  | nil => obtain ⟨c, hc, _⟩ := h; simp at hc
  | cons c s ih =>
    unfold ParseUint.loop
    by_cases hd : '0' ≤ c ∧ c ≤ '9'
    · rw [if_pos hd]
      dsimp only
      split
      · exact ⟨_, rfl⟩
      · apply ih
        obtain ⟨x, hx, hnx⟩ := h
        rcases List.mem_cons.mp hx with rfl | hx
        · exact absurd hd hnx
        · exact ⟨x, hx, hnx⟩
    · rw [if_neg hd]
      exact ⟨_, rfl⟩

/-- `ParseUint` fails on the empty text and on a text that holds a rune other than
a decimal digit. -/
theorem ParseUint_not_digit (s : GoString)
    (h : s = [] ∨ ∃ c ∈ s, ¬('0' ≤ c ∧ c ≤ '9')) : ∃ err, ParseUint s = Except.error err := by
  unfold ParseUint
  split
  · exact ⟨_, rfl⟩
  · rename_i hne
    rcases h with h | h
    · exact absurd h hne
    · exact ParseUint_loop_not_digit s 0 h

end strconv

/-- An `interface` property with its argument establishes `InterfaceGiven`. -/
theorem InterfaceGiven_of_NextArg (d : caddyfile.Dispenser)
    (hv : d.Val = "interface".toList) (ha : d.NextArg.1 = true) :
    InterfaceGiven d.tokens d.NextArg.2.Val := by
  obtain ⟨t, ht, htx⟩ := caddyfile.token_of_Val d _ hv (by decide)
  obtain ⟨h0, hti⟩ := caddyfile.token_eq_some d _ t ht
  rcases caddyfile.NextArg_spec d with ⟨-, he, hc⟩ | ⟨hf, -, -⟩
  · rcases hc with hc | ⟨-, t2, u, ht2, hu, hfile, hline⟩
    · omega
    · rw [ht] at ht2
      cases ht2
      obtain ⟨-, hui⟩ := caddyfile.token_eq_some d _ u hu
      have hidx : (d.cursor + 1).toNat = d.cursor.toNat + 1 := by omega
      rw [hidx] at hui
      have hnl : d.numLineBreaks d.cursor = 0 := by
        unfold caddyfile.Dispenser.numLineBreaks
        rw [ht]
        simp only [htx]
        decide
      have hval : d.NextArg.2.Val = u.Text := by
        rw [he]
        unfold caddyfile.Dispenser.Val
        dsimp only
        have : ({ d with cursor := d.cursor + 1 } : caddyfile.Dispenser).token (d.cursor + 1) =
            d.token (d.cursor + 1) := rfl
        rw [this, hu]
      exact ⟨d.cursor.toNat, t, u, hti, hui, htx, hfile, by omega, hval.symm⟩
  · rw [hf] at ha; cases ha

/-- A duration property whose argument is read as `n` establishes `DurationGiven`. -/
theorem DurationGiven_of_NextArg (d : caddyfile.Dispenser) (key : GoString) (n : Nat)
    (hne : key ≠ []) (hnl : key.count (Char.ofNat 10) = 0)
    (hv : d.Val = key) (ha : d.NextArg.1 = true)
    (hp : strconv.ParseUint d.NextArg.2.Val = Except.ok n) :
    DurationGiven d.tokens key n := by
  obtain ⟨t, ht, htx⟩ := caddyfile.token_of_Val d _ hv hne
  obtain ⟨h0, hti⟩ := caddyfile.token_eq_some d _ t ht
  rcases caddyfile.NextArg_spec d with ⟨-, he, hc⟩ | ⟨hf, -, -⟩
  · rcases hc with hc | ⟨-, t2, u, ht2, hu, hfile, hline⟩
    · omega
    · rw [ht] at ht2
      cases ht2
      obtain ⟨-, hui⟩ := caddyfile.token_eq_some d _ u hu
      have hidx : (d.cursor + 1).toNat = d.cursor.toNat + 1 := by omega
      rw [hidx] at hui
      have hnl2 : d.numLineBreaks d.cursor = 0 := by
        unfold caddyfile.Dispenser.numLineBreaks
        rw [ht]
        simp only [htx]
        exact hnl
      have hval : d.NextArg.2.Val = u.Text := by
        rw [he]
        unfold caddyfile.Dispenser.Val
        dsimp only
        have : ({ d with cursor := d.cursor + 1 } : caddyfile.Dispenser).token (d.cursor + 1) =
            d.token (d.cursor + 1) := rfl
        rw [this, hu]
      rw [hval] at hp
      exact ⟨d.cursor.toNat, t, u, hti, hui, htx, hfile, by omega, hp⟩
  · rw [hf] at ha; cases ha

/-- The four ways in which the `switch` of `createPlugin` goes on without error. -/
theorem property_ok (deps : createPlugin.Deps) (st st1 : createPlugin.State)
    (h : createPlugin.property deps st = Except.ok st1) :
    (st.c.Val = "interface".toList ∧ st.c.NextArg.1 = true ∧
        st1 = { st with c := st.c.NextArg.2,
                        cfg := { st.cfg with interfaceName := st.c.NextArg.2.Val }, mode := 1 }) ∨
      (st.c.Val = "refreshinterval".toList ∧ st.c.NextArg.1 = true ∧
        ∃ n, strconv.ParseUint st.c.NextArg.2.Val = Except.ok n ∧
          st1 = { st with c := st.c.NextArg.2,
                          cfg := { st.cfg with
                            refreshInterval := if n > 0 then n else st.cfg.refreshInterval } }) ∨
      (st.c.Val = "ttl".toList ∧ st.c.NextArg.1 = true ∧
        ∃ n, strconv.ParseUint st.c.NextArg.2.Val = Except.ok n ∧
          st1 = { st with c := st.c.NextArg.2,
                          cfg := { st.cfg with ttl := if n > 0 then n else st.cfg.ttl } }) ∨
      (st.c.Val = "fallthrough".toList ∧
        st1 = { st with c := st.c.RemainingArgs.2,
                        Fall := deps.SetZonesFromArgs st.c.RemainingArgs.1 }) := by
  unfold createPlugin.property at h
  simp only [] at h
  by_cases h1 : st.c.Val = "interface".toList
  · rw [if_pos h1] at h
    left
    cases ha : st.c.NextArg.1 with
    | false => rw [if_pos ha] at h; cases h
    | true =>
      rw [if_neg (by rw [ha]; decide)] at h
      exact ⟨h1, rfl, (Except.ok.inj h).symm⟩
  · rw [if_neg h1] at h
    by_cases h2 : st.c.Val = "refreshinterval".toList
    · rw [if_pos h2] at h
      right; left
      cases ha : st.c.NextArg.1 with
      | false => rw [if_pos ha] at h; cases h
      | true =>
        rw [if_neg (by rw [ha]; decide)] at h
        cases hp : strconv.ParseUint st.c.NextArg.2.Val with
        | error e => rw [hp] at h; cases h
        | ok n =>
          rw [hp] at h
          refine ⟨h2, rfl, n, rfl, ?_⟩
          by_cases hn : n > 0
          · simp only [hn, if_true] at h ⊢
            exact (Except.ok.inj h).symm
          · simp only [hn, if_false] at h ⊢
            exact (Except.ok.inj h).symm
    · rw [if_neg h2] at h
      by_cases h3 : st.c.Val = "ttl".toList
      · rw [if_pos h3] at h
        right; right; left
        cases ha : st.c.NextArg.1 with
        | false => rw [if_pos ha] at h; cases h
        | true =>
          rw [if_neg (by rw [ha]; decide)] at h
          cases hp : strconv.ParseUint st.c.NextArg.2.Val with
          | error e => rw [hp] at h; cases h
          | ok n =>
            rw [hp] at h
            refine ⟨h3, rfl, n, rfl, ?_⟩
            by_cases hn : n > 0
            · simp only [hn, if_true] at h ⊢
              exact (Except.ok.inj h).symm
            · simp only [hn, if_false] at h ⊢
              exact (Except.ok.inj h).symm
      · rw [if_neg h3] at h
        by_cases h4 : st.c.Val = "fallthrough".toList
        · rw [if_pos h4] at h
          right; right; right
          exact ⟨h4, (Except.ok.inj h).symm⟩
        · rw [if_neg h4] at h
          cases h

/-- One property of the block keeps the invariant of `createPlugin`, does not move
the cursor back, and can be read off the last token only if it is `fallthrough`. -/
theorem property_inv (deps : createPlugin.Deps) (tokens : List caddyfile.Token)
    (st st1 : createPlugin.State) (hinv : createPlugin.Inv tokens st)
    (h0 : 0 ≤ st.c.cursor) (h1 : st.c.cursor ≤ (tokens.length : Int) - 1)
    (h : createPlugin.property deps st = Except.ok st1) :
    createPlugin.Inv tokens st1 ∧ st.c.cursor ≤ st1.c.cursor ∧
      st1.c.cursor ≤ (tokens.length : Int) - 1 ∧
      (st.c.cursor = (tokens.length : Int) - 1 → st.c.Val = "fallthrough".toList) := by
  obtain ⟨htok, hmode, hif, httl, hri⟩ := hinv
  have hna : st.c.NextArg.1 = true →
      st.c.NextArg.2.tokens = tokens ∧ st.c.cursor ≤ st.c.NextArg.2.cursor ∧
        st.c.NextArg.2.cursor ≤ (tokens.length : Int) - 1 ∧
        st.c.cursor ≠ (tokens.length : Int) - 1 := by
    intro ha
    rcases caddyfile.NextArg_spec st.c with ⟨-, he, hc⟩ | ⟨hf, -, -⟩
    · have hlt : st.c.cursor < (tokens.length : Int) - 1 := by
        rcases hc with hc | hc
        · omega
        · rw [← htok]; exact hc.1
      rw [he]
      exact ⟨htok, by dsimp only; omega, by dsimp only; omega, by omega⟩
    · rw [hf] at ha; cases ha
  rcases property_ok deps st st1 h with ⟨hv, ha, rfl⟩ | ⟨hv, ha, n, hp, rfl⟩ |
    ⟨hv, ha, n, hp, rfl⟩ | ⟨hv, rfl⟩
  · obtain ⟨a1, a2, a3, a4⟩ := hna ha
    refine ⟨⟨a1, Or.inr rfl, fun _ => ?_, httl, hri⟩, a2, a3, fun e => absurd e a4⟩
    have := InterfaceGiven_of_NextArg st.c hv ha
    rw [htok] at this
    exact this
  · obtain ⟨a1, a2, a3, a4⟩ := hna ha
    have hle := strconv.ParseUint_le _ n hp
    refine ⟨⟨a1, hmode, hif, httl, ?_⟩, a2, a3, fun e => absurd e a4⟩
    dsimp only
    by_cases hn : n > 0
    · rw [if_pos hn]
      have hg := DurationGiven_of_NextArg st.c _ n (by decide) (by decide) hv ha hp
      rw [htok] at hg
      exact ⟨hn, hle, Or.inr hg⟩
    · rw [if_neg hn]; exact hri
  · obtain ⟨a1, a2, a3, a4⟩ := hna ha
    have hle := strconv.ParseUint_le _ n hp
    refine ⟨⟨a1, hmode, hif, ?_, hri⟩, a2, a3, fun e => absurd e a4⟩
    dsimp only
    by_cases hn : n > 0
    · rw [if_pos hn]
      have hg := DurationGiven_of_NextArg st.c _ n (by decide) (by decide) hv ha hp
      rw [htok] at hg
      exact ⟨hn, hle, Or.inr hg⟩
    · rw [if_neg hn]; exact httl
  · obtain ⟨r1, -, r3, r4⟩ := caddyfile.RemainingArgs_spec st.c h0 (by rw [htok]; exact h1)
    rw [htok] at r1 r4
    exact ⟨⟨r1, hmode, hif, httl, hri⟩, r3, r4, fun _ => hv⟩

/-- The loop over the block keeps the invariant of `createPlugin` and does not
move the cursor back. -/
theorem block_inv (deps : createPlugin.Deps) (tokens : List caddyfile.Token) (fuel : Nat)
    (st st1 : createPlugin.State) (hinv : createPlugin.Inv tokens st)
    (h0 : 0 ≤ st.c.cursor) (h1 : st.c.cursor ≤ (tokens.length : Int) - 1)
    (h : createPlugin.block deps fuel st = some (Except.ok st1)) :
    createPlugin.Inv tokens st1 ∧ st.c.cursor ≤ st1.c.cursor ∧
      st1.c.cursor ≤ (tokens.length : Int) - 1 := by
  induction fuel generalizing st with
  | zero => simp [createPlugin.block] at h
  | succ fuel ih =>
    have htok := hinv.1
    obtain ⟨b1, b2, b3, -⟩ := caddyfile.NextBlock_spec st.c h0 (by rw [htok]; exact h1)
    rw [htok] at b1 b3
    have hinv2 : createPlugin.Inv tokens { st with c := st.c.NextBlock.2 } :=
      ⟨b1, hinv.2.1, hinv.2.2.1, hinv.2.2.2.1, hinv.2.2.2.2⟩
    unfold createPlugin.block at h
    simp only [] at h
    split at h
    · cases Except.ok.inj (Option.some.inj h)
      exact ⟨hinv2, b2, b3⟩
    · cases hp : createPlugin.property deps { st with c := st.c.NextBlock.2 } with
      | error e => rw [hp] at h; cases h
      | ok st2 =>
        rw [hp] at h
        obtain ⟨p1, p2, p3, -⟩ := property_inv deps tokens _ st2 hinv2
          (by dsimp only; omega) b3 hp
        dsimp only at p2
        obtain ⟨i1, i2, i3⟩ := ih st2 p1 (by omega) p3 h
        exact ⟨i1, by omega, i3⟩

/-- The part before the block keeps the invariant of `createPlugin`. -/
theorem address_inv (deps : createPlugin.Deps) (tokens : List caddyfile.Token)
    (st st1 : createPlugin.State) (hinv : createPlugin.Inv tokens st)
    (h0 : 0 ≤ st.c.cursor) (h1 : st.c.cursor ≤ (tokens.length : Int) - 1)
    (h : createPlugin.address deps st = Except.ok st1) :
    createPlugin.Inv tokens st1 ∧ st.c.cursor ≤ st1.c.cursor ∧
      st1.c.cursor ≤ (tokens.length : Int) - 1 := by
  obtain ⟨htok, hmode, hif, httl, hri⟩ := hinv
  obtain ⟨r1, -, r3, r4⟩ := caddyfile.RemainingArgs_spec st.c h0 (by rw [htok]; exact h1)
  rw [htok] at r1 r4
  unfold createPlugin.address at h
  simp only [] at h
  split at h
  · cases h
  · rename_i cfg hcfg
    have hc : cfg.interfaceName = st.cfg.interfaceName ∧ cfg.ttl = st.cfg.ttl ∧
        cfg.refreshInterval = st.cfg.refreshInterval := by
      split at hcfg
      · split at hcfg
        · cases hcfg
        · cases Except.ok.inj hcfg
          exact ⟨rfl, rfl, rfl⟩
      · cases Except.ok.inj hcfg
        exact ⟨rfl, rfl, rfl⟩
    split at h
    · cases h
    · cases Except.ok.inj h
      refine ⟨⟨r1, hmode, ?_, ?_, ?_⟩, r3, r4⟩
      · dsimp only; rw [hc.1]; exact hif
      · dsimp only; rw [hc.2.1]; exact httl
      · dsimp only; rw [hc.2.2]; exact hri

/-- The outer loop keeps the invariant of `createPlugin`. -/
theorem servers_inv (deps : createPlugin.Deps) (tokens : List caddyfile.Token) (fuel : Nat)
    (st st1 : createPlugin.State) (hinv : createPlugin.Inv tokens st)
    (h0 : -1 ≤ st.c.cursor) (h1 : st.c.cursor ≤ (tokens.length : Int) - 1)
    (h : createPlugin.servers deps fuel st = some (Except.ok st1)) :
    createPlugin.Inv tokens st1 := by
  induction fuel generalizing st with
  | zero => simp [createPlugin.servers] at h
  | succ fuel ih =>
    have htok := hinv.1
    unfold createPlugin.servers at h
    simp only [] at h
    rcases caddyfile.Next_spec st.c with ⟨ht, hlt, he⟩ | ⟨hf, -, -⟩
    · rw [if_neg (by rw [ht]; decide), he] at h
      rw [htok] at hlt
      have hinv2 : createPlugin.Inv tokens
          { st with c := { st.c with cursor := st.c.cursor + 1 } } :=
        ⟨htok, hinv.2.1, hinv.2.2.1, hinv.2.2.2.1, hinv.2.2.2.2⟩
      cases ha : createPlugin.address deps
          { st with c := { st.c with cursor := st.c.cursor + 1 } } with
      | error e => rw [ha] at h; cases h
      | ok st2 =>
        rw [ha] at h
        dsimp only at h
        obtain ⟨a1, a2, a3⟩ := address_inv deps tokens _ st2 hinv2
          (by dsimp only; omega) (by dsimp only; omega) ha
        dsimp only at a2
        cases hb : createPlugin.block deps fuel st2 with
        | none => rw [hb] at h; cases h
        | some r =>
          cases r with
          | error e => rw [hb] at h; cases h
          | ok st3 =>
            rw [hb] at h
            obtain ⟨c1, c2, c3⟩ := block_inv deps tokens fuel st2 st3 a1 (by omega) a3 hb
            exact ih st3 c1 (by omega) c3 h
    · rw [if_pos hf] at h
      cases Except.ok.inj (Option.some.inj h)
      exact hinv

/-- What holds of every configuration that `createPlugin` accepts. -/
theorem createPlugin_accepts (deps : createPlugin.Deps) (fuel : Nat) (c : caddyfile.Dispenser)
    (t : Traefik) (hc : c.cursor = -1)
    (h : createPlugin deps fuel c = some (Except.ok t)) :
    InterfaceGiven c.tokens t.Config.interfaceName ∧
      (0 < t.Config.ttl ∧ t.Config.ttl ≤ strconv.maxVal ∧
        (t.Config.ttl = defaultTtl ∨ DurationGiven c.tokens "ttl".toList t.Config.ttl)) ∧
      (0 < t.Config.refreshInterval ∧ t.Config.refreshInterval ≤ strconv.maxVal ∧
        (t.Config.refreshInterval = defaultRefreshInterval ∨
          DurationGiven c.tokens "refreshinterval".toList t.Config.refreshInterval)) := by
  unfold createPlugin at h
  simp only [] at h
  split at h
  · cases h
  · rename_i defaultBaseUrl _
    split at h
    · cases h
    · cases h
    · rename_i st hs
      have d1 : 0 < defaultTtl ∧ defaultTtl ≤ strconv.maxVal ∧
          (defaultTtl = defaultTtl ∨ DurationGiven c.tokens "ttl".toList defaultTtl) :=
        ⟨by decide, by decide, Or.inl rfl⟩
      have d2 : 0 < defaultRefreshInterval ∧ defaultRefreshInterval ≤ strconv.maxVal ∧
          (defaultRefreshInterval = defaultRefreshInterval ∨
            DurationGiven c.tokens "refreshinterval".toList defaultRefreshInterval) :=
        ⟨by decide, by decide, Or.inl rfl⟩
      have hinv := servers_inv deps c.tokens fuel _ st
        ⟨rfl, Or.inl rfl, fun hm => by simp at hm, d1, d2⟩
        (by dsimp only; omega) (by dsimp only; omega) hs
      obtain ⟨-, hmode, hif, httl, hri⟩ := hinv
      split at h
      · cases h
      · rename_i hm
        split at h
        · cases h
        · cases Except.ok.inj (Option.some.inj h)
          have hm1 : st.mode = 1 := by
            rcases hmode with hm2 | hm2
            · exact absurd hm2 hm
            · exact hm2
          exact ⟨hif hm1, httl, hri⟩

/-- The text read on the last token is the text of the last element of the token list. -/
theorem getLast_of_Val (d : caddyfile.Dispenser) (v : GoString) (hv : d.Val = v)
    (hne : v ≠ []) (hc : d.cursor = (d.tokens.length : Int) - 1) :
    ∃ t, d.tokens.getLast? = some t ∧ t.Text = v := by
  obtain ⟨t, ht, htx⟩ := caddyfile.token_of_Val d v hv hne
  obtain ⟨h0, hti⟩ := caddyfile.token_eq_some d _ t ht
  refine ⟨t, ?_, htx⟩
  rw [List.getLast?_eq_getElem?]
  have : d.cursor.toNat = d.tokens.length - 1 := by omega
  rw [← this]
  exact hti

/-- More fuel does not change what the loop over the block returns. -/
theorem block_mono (deps : createPlugin.Deps) (fuel : Nat) (st : createPlugin.State)
    (r : Except GoError createPlugin.State) (h : createPlugin.block deps fuel st = some r) :
    createPlugin.block deps (fuel + 1) st = some r := by
  induction fuel generalizing st with
  | zero => simp [createPlugin.block] at h
  | succ fuel ih =>
    unfold createPlugin.block at h ⊢
    simp only [] at h ⊢
    split
    · rename_i hb
      rw [if_pos hb] at h
      exact h
    · rename_i hb
      rw [if_neg hb] at h
      cases hp : createPlugin.property deps { st with c := st.c.NextBlock.2 } with
      | error e => rw [hp] at h; exact h
      | ok st2 =>
        rw [hp] at h
        exact ih st2 h

/-- More fuel does not change what the outer loop returns. -/
theorem servers_mono (deps : createPlugin.Deps) (fuel : Nat) (st : createPlugin.State)
    (r : Except GoError createPlugin.State) (h : createPlugin.servers deps fuel st = some r) :
    createPlugin.servers deps (fuel + 1) st = some r := by
  induction fuel generalizing st with
  | zero => simp [createPlugin.servers] at h
  | succ fuel ih =>
    unfold createPlugin.servers at h ⊢
    simp only [] at h ⊢
    split
    · rename_i hb
      rw [if_pos hb] at h
      exact h
    · rename_i hb
      rw [if_neg hb] at h
      cases ha : createPlugin.address deps { st with c := st.c.Next.2 } with
      | error e => rw [ha] at h; exact h
      | ok st2 =>
        rw [ha] at h
        dsimp only at h ⊢
        cases hbl : createPlugin.block deps fuel st2 with
        | none => rw [hbl] at h; cases h
        | some rb =>
          rw [hbl] at h
          rw [block_mono deps fuel st2 rb hbl]
          cases rb with
          | error e => exact h
          | ok st3 => exact ih st3 h

/-- More fuel does not change what `createPlugin` returns. -/
theorem createPlugin_mono (deps : createPlugin.Deps) (fuel k : Nat) (c : caddyfile.Dispenser)
    (r : Except GoError Traefik) (h : createPlugin deps fuel c = some r) :
    createPlugin deps (fuel + k) c = some r := by
  induction k with
  | zero => exact h
  | succ k ih =>
    rw [← Nat.add_assoc]
    generalize fuel + k = f at ih
    unfold createPlugin at ih ⊢
    simp only [] at ih ⊢
    split
    · rename_i e he
      rw [he] at ih
      exact ih
    · rename_i u hu
      rw [hu] at ih
      dsimp only at ih ⊢
      cases hs : createPlugin.servers deps f
          { c := c, cfg := { baseUrl := u, interfaceName := [], ttl := defaultTtl,
                             refreshInterval := defaultRefreshInterval, apiHostname := [] },
            Fall := fall.F.zero, mode := -1 } with
      | none => rw [hs] at ih; cases ih
      | some rs =>
        rw [hs] at ih
        rw [servers_mono deps f _ rs hs]
        exact ih

/-- Whatever fuel the loop over the block returns with, it returns the same. -/
theorem block_det (deps : createPlugin.Deps) (f1 f2 : Nat) (st : createPlugin.State)
    (r1 r2 : Except GoError createPlugin.State) (h1 : createPlugin.block deps f1 st = some r1)
    (h2 : createPlugin.block deps f2 st = some r2) : r1 = r2 := by
  have hadd : ∀ (f k : Nat) (r : Except GoError createPlugin.State),
      createPlugin.block deps f st = some r → createPlugin.block deps (f + k) st = some r := by
    intro f k r h
    induction k with
    | zero => exact h
    | succ k ih => exact block_mono deps (f + k) st r ih
  rcases Nat.le_total f1 f2 with hle | hle
  · obtain ⟨k, rfl⟩ := Nat.exists_eq_add_of_le hle
    have := hadd f1 k r1 h1
    rw [h2] at this
    exact (Option.some.inj this).symm
  · obtain ⟨k, rfl⟩ := Nat.exists_eq_add_of_le hle
    have := hadd f2 k r2 h2
    rw [h1] at this
    exact Option.some.inj this

/-- A property of the block leaves the nesting as it is. -/
theorem property_nesting (deps : createPlugin.Deps) (st st1 : createPlugin.State)
    (h0 : 0 ≤ st.c.cursor) (h1 : st.c.cursor ≤ (st.c.tokens.length : Int) - 1)
    (h : createPlugin.property deps st = Except.ok st1) : st1.c.nesting = st.c.nesting := by
  have hna : st.c.NextArg.2.nesting = st.c.nesting := by
    rcases caddyfile.NextArg_spec st.c with ⟨-, he, -⟩ | ⟨-, he, -⟩ <;> rw [he]
  rcases property_ok deps st st1 h with ⟨-, -, rfl⟩ | ⟨-, -, n, -, rfl⟩ | ⟨-, -, n, -, rfl⟩ |
    ⟨-, rfl⟩
  · exact hna
  · exact hna
  · exact hna
  · exact (caddyfile.RemainingArgs_spec st.c h0 h1).2.1

/-- The part before the block leaves the nesting as it is. -/
theorem address_nesting (deps : createPlugin.Deps) (st st1 : createPlugin.State)
    (h0 : 0 ≤ st.c.cursor) (h1 : st.c.cursor ≤ (st.c.tokens.length : Int) - 1)
    (h : createPlugin.address deps st = Except.ok st1) : st1.c.nesting = st.c.nesting := by
  unfold createPlugin.address at h
  simp only [] at h
  split at h
  · cases h
  · split at h
    · cases h
    · cases Except.ok.inj h
      exact (caddyfile.RemainingArgs_spec st.c h0 h1).2.1

/-- The loop over the block is inside a block only if the tokens hold an opening
brace. -/
theorem block_nesting (deps : createPlugin.Deps) (tokens : List caddyfile.Token) (fuel : Nat)
    (st st1 : createPlugin.State) (hinv : createPlugin.Inv tokens st)
    (hnest : st.c.nesting > 0 → ∃ tok ∈ tokens, tok.Text = ['{'])
    (h0 : 0 ≤ st.c.cursor) (h1 : st.c.cursor ≤ (tokens.length : Int) - 1)
    (h : createPlugin.block deps fuel st = some (Except.ok st1)) :
    st1.c.nesting > 0 → ∃ tok ∈ tokens, tok.Text = ['{'] := by
  induction fuel generalizing st with
  | zero => simp [createPlugin.block] at h
  | succ fuel ih =>
    have htok := hinv.1
    obtain ⟨b1, b2, b3, -⟩ := caddyfile.NextBlock_spec st.c h0 (by rw [htok]; exact h1)
    rw [htok] at b1 b3
    have hinv2 : createPlugin.Inv tokens { st with c := st.c.NextBlock.2 } :=
      ⟨b1, hinv.2.1, hinv.2.2.1, hinv.2.2.2.1, hinv.2.2.2.2⟩
    have hnest2 : st.c.NextBlock.2.nesting > 0 → ∃ tok ∈ tokens, tok.Text = ['{'] := by
      have := caddyfile.NextBlock_nesting st.c (by rw [htok]; exact hnest)
      rw [htok] at this
      exact this
    unfold createPlugin.block at h
    simp only [] at h
    split at h
    · cases Except.ok.inj (Option.some.inj h)
      exact hnest2
    · cases hp : createPlugin.property deps { st with c := st.c.NextBlock.2 } with
      | error e => rw [hp] at h; cases h
      | ok st2 =>
        rw [hp] at h
        obtain ⟨p1, p2, p3, -⟩ := property_inv deps tokens _ st2 hinv2
          (by dsimp only; omega) b3 hp
        have pn := property_nesting deps _ st2 (by dsimp only; omega)
          (by dsimp only; rw [b1]; exact b3) hp
        dsimp only at p2 pn
        exact ih st2 p1 (by rw [pn]; exact hnest2) (by omega) p3 h

/-- Inside a block, on a last token `fallthrough`, the loop over the block never
ends: `NextBlock` stays on that token and reports it as the next property. -/
theorem block_stuck (deps : createPlugin.Deps) (fuel : Nat) (st : createPlugin.State)
    (hn : st.c.nesting > 0) (h0 : 0 ≤ st.c.cursor)
    (hc : st.c.cursor = (st.c.tokens.length : Int) - 1)
    (hv : st.c.Val = "fallthrough".toList) :
    createPlugin.block deps fuel st = none := by
  induction fuel generalizing st with
  | zero => rfl
  | succ fuel ih =>
    have hnext : st.c.Next.2 = st.c := by
      rcases caddyfile.Next_spec st.c with ⟨-, hlt, -⟩ | ⟨-, -, he⟩
      · omega
      · exact he
    have hnb : st.c.NextBlock = (true, st.c) := by
      unfold caddyfile.Dispenser.NextBlock
      simp only []
      rw [if_pos hn, hnext, if_neg (by rw [hv]; decide)]
    have hp : createPlugin.property deps { st with c := st.c } =
        Except.ok { st with c := st.c, Fall := deps.SetZonesFromArgs [] } := by
      unfold createPlugin.property
      simp only []
      rw [if_neg (by rw [hv]; decide), if_neg (by rw [hv]; decide),
        if_neg (by rw [hv]; decide), if_pos hv, caddyfile.RemainingArgs_last st.c h0 hc]
    rw [createPlugin.block]
    rw [hnb]
    dsimp only
    rw [if_neg (by decide), hp]
    exact ih _ hn h0 hc hv

/-- The loop over the block ends within the fuel that the remaining tokens
allow, or it never ends; it never ends only inside a block on a last token
`fallthrough`. -/
theorem block_returns (deps : createPlugin.Deps) (tokens : List caddyfile.Token) (fuel : Nat)
    (st : createPlugin.State) (hinv : createPlugin.Inv tokens st)
    (hnest : st.c.nesting > 0 → ∃ tok ∈ tokens, tok.Text = ['{'])
    (h0 : 0 ≤ st.c.cursor) (h1 : st.c.cursor ≤ (tokens.length : Int) - 1)
    (hfuel : (tokens.length : Int) - 1 - st.c.cursor + 2 ≤ fuel) :
    (∃ r, createPlugin.block deps fuel st = some r) ∨
      ((∀ f, createPlugin.block deps f st = none) ∧
        (∃ t, tokens.getLast? = some t ∧ t.Text = "fallthrough".toList) ∧
        ∃ tok ∈ tokens, tok.Text = ['{']) := by
  induction fuel generalizing st with
  | zero => exfalso; omega
  | succ fuel ih =>
    have htok := hinv.1
    obtain ⟨b1, b2, b3, b4⟩ := caddyfile.NextBlock_spec st.c h0 (by rw [htok]; exact h1)
    rw [htok] at b1 b3 b4
    have hinv2 : createPlugin.Inv tokens { st with c := st.c.NextBlock.2 } :=
      ⟨b1, hinv.2.1, hinv.2.2.1, hinv.2.2.2.1, hinv.2.2.2.2⟩
    have hnest2 : st.c.NextBlock.2.nesting > 0 → ∃ tok ∈ tokens, tok.Text = ['{'] := by
      have := caddyfile.NextBlock_nesting st.c (by rw [htok]; exact hnest)
      rw [htok] at this
      exact this
    cases hb : st.c.NextBlock.1 with
    | false =>
      left
      rw [createPlugin.block]
      rw [if_pos hb]
      exact ⟨_, rfl⟩
    | true =>
      have e1 : ∀ f, createPlugin.block deps (f + 1) st =
          match createPlugin.property deps { st with c := st.c.NextBlock.2 } with
          | Except.error err => some (Except.error err)
          | Except.ok st1 => createPlugin.block deps f st1 := by
        intro f
        rw [createPlugin.block]
        rw [if_neg (by rw [hb]; decide)]
      cases hp : createPlugin.property deps { st with c := st.c.NextBlock.2 } with
      | error e =>
        left
        rw [e1, hp]
        exact ⟨_, rfl⟩
      | ok st2 =>
        obtain ⟨p1, p2, p3, p4⟩ := property_inv deps tokens _ st2 hinv2
          (by dsimp only; omega) b3 hp
        have pn := property_nesting deps _ st2 (by dsimp only; omega)
          (by dsimp only; rw [b1]; exact b3) hp
        dsimp only at p2 p4 pn
        rcases b4 hb with hlt | heq
        · rcases ih st2 p1 (by rw [pn]; exact hnest2) (by omega) p3 (by omega) with
            ⟨r, hr⟩ | ⟨hnone, hlast, hbrace⟩
          · left
            rw [e1, hp]
            exact ⟨r, hr⟩
          · right
            refine ⟨fun f => ?_, hlast, hbrace⟩
            cases f with
            | zero => rfl
            | succ f =>
              rw [e1, hp]
              exact hnone f
        · have hc : st.c.cursor = (st.c.tokens.length : Int) - 1 := by rw [htok]; exact heq
          obtain ⟨hn, hsame⟩ := caddyfile.NextBlock_last st.c h0 hc hb
          have hval : st.c.Val = "fallthrough".toList := by
            have := p4 (by rw [hsame]; exact heq)
            rw [hsame] at this
            exact this
          obtain ⟨t, ht, htx⟩ := getLast_of_Val st.c _ hval (by decide) hc
          rw [htok] at ht
          right
          exact ⟨fun f => block_stuck deps f st hn h0 hc hval, ⟨t, ht, htx⟩, hnest hn⟩

/-- The outer loop ends within the fuel that the remaining tokens allow, or it
never ends; it never ends only when the tokens hold an opening brace and their
last token is `fallthrough`. -/
theorem servers_returns (deps : createPlugin.Deps) (tokens : List caddyfile.Token)
    (fuel : Nat) (st : createPlugin.State) (hinv : createPlugin.Inv tokens st)
    (hnest : st.c.nesting > 0 → ∃ tok ∈ tokens, tok.Text = ['{'])
    (h0 : -1 ≤ st.c.cursor) (h1 : st.c.cursor ≤ (tokens.length : Int) - 1)
    (hfuel : (tokens.length : Int) - 1 - st.c.cursor + 2 ≤ fuel) :
    (∃ r, createPlugin.servers deps fuel st = some r) ∨
      ((∀ f, createPlugin.servers deps f st = none) ∧
        (∃ t, tokens.getLast? = some t ∧ t.Text = "fallthrough".toList) ∧
        ∃ tok ∈ tokens, tok.Text = ['{']) := by
  induction fuel generalizing st with
  | zero => exfalso; omega
  | succ fuel ih =>
    have htok := hinv.1
    rcases caddyfile.Next_spec st.c with ⟨ht, hlt, he⟩ | ⟨hf, -, -⟩
    · rw [htok] at hlt
      have hinv2 : createPlugin.Inv tokens
          { st with c := { st.c with cursor := st.c.cursor + 1 } } :=
        ⟨htok, hinv.2.1, hinv.2.2.1, hinv.2.2.2.1, hinv.2.2.2.2⟩
      have e1 : ∀ f, createPlugin.servers deps (f + 1) st =
          match createPlugin.address deps
              { st with c := { st.c with cursor := st.c.cursor + 1 } } with
          | Except.error err => some (Except.error err)
          | Except.ok st1 =>
            match createPlugin.block deps f st1 with
            | none => none
            | some (Except.error err) => some (Except.error err)
            | some (Except.ok st2) => createPlugin.servers deps f st2 := by
        intro f
        rw [createPlugin.servers]
        dsimp only
        rw [if_neg (by rw [ht]; decide), he]
      cases ha : createPlugin.address deps
          { st with c := { st.c with cursor := st.c.cursor + 1 } } with
      | error e =>
        left
        rw [e1, ha]
        exact ⟨_, rfl⟩
      | ok st2 =>
        obtain ⟨a1, a2, a3⟩ := address_inv deps tokens _ st2 hinv2
          (by dsimp only; omega) (by dsimp only; omega) ha
        have an := address_nesting deps _ st2 (by dsimp only; omega)
          (by dsimp only; rw [htok]; omega) ha
        dsimp only at a2 an
        have hnest2 : st2.c.nesting > 0 → ∃ tok ∈ tokens, tok.Text = ['{'] := by
          rw [an]; exact hnest
        rcases block_returns deps tokens fuel st2 a1 hnest2 (by omega) a3 (by omega) with
          ⟨r, hb⟩ | ⟨hnone, hlast, hbrace⟩
        · cases r with
          | error e =>
            left
            rw [e1, ha]
            dsimp only
            rw [hb]
            exact ⟨_, rfl⟩
          | ok st3 =>
            obtain ⟨c1, c2, c3⟩ := block_inv deps tokens fuel st2 st3 a1 (by omega) a3 hb
            have cn := block_nesting deps tokens fuel st2 st3 a1 hnest2 (by omega) a3 hb
            rcases ih st3 c1 cn (by omega) c3 (by omega) with
              ⟨r, hr⟩ | ⟨hnone, hlast, hbrace⟩
            · left
              rw [e1, ha]
              dsimp only
              rw [hb]
              exact ⟨r, hr⟩
            · right
              refine ⟨fun f => ?_, hlast, hbrace⟩
              cases f with
              | zero => rfl
              | succ f =>
                rw [e1, ha]
                dsimp only
                cases hb2 : createPlugin.block deps f st2 with
                | none => rfl
                | some r2 =>
                  cases block_det deps f fuel st2 r2 _ hb2 hb
                  exact hnone f
        · right
          refine ⟨fun f => ?_, hlast, hbrace⟩
          cases f with
          | zero => rfl
          | succ f =>
            rw [e1, ha]
            dsimp only
            rw [hnone f]
    · left
      rw [createPlugin.servers]
      rw [if_pos hf]
      exact ⟨_, rfl⟩

/-- With one unit of fuel per token and two more, `createPlugin` returns, or it
never returns, whatever the fuel; it never returns only when the tokens hold an
opening brace and their last token is `fallthrough`. -/
theorem createPlugin_returns (deps : createPlugin.Deps) (c : caddyfile.Dispenser)
    (hc : c.cursor = -1) (hn : c.nesting = 0) :
    (∃ r, createPlugin deps (c.tokens.length + 2) c = some r) ∨
      ((∀ f, createPlugin deps f c = none) ∧
        (∃ t, c.tokens.getLast? = some t ∧ t.Text = "fallthrough".toList) ∧
        ∃ tok ∈ c.tokens, tok.Text = ['{']) := by
  cases hu : deps.urlParse defaultTraefikApiEndpoint with
  | error e =>
    left
    unfold createPlugin
    simp only []
    rw [hu]
    exact ⟨_, rfl⟩
  | ok u =>
    have e1 : ∀ f, createPlugin deps f c =
        match createPlugin.servers deps f
          { c := c, cfg := { baseUrl := u, interfaceName := [], ttl := defaultTtl,
                             refreshInterval := defaultRefreshInterval, apiHostname := [] },
            Fall := fall.F.zero, mode := -1 } with
        | none => none
        | some (Except.error err) => some (Except.error err)
        | some (Except.ok st) =>
          if st.mode = -1 then some (Except.error "traefik config requires an interface")
          else
            match deps.NewTraefikClient st.cfg with
            | Except.error err => some (Except.error err)
            | Except.ok _ =>
              some (Except.ok
                { Next := none, Config := st.cfg, mappings := ∅, ready := false,
                  Fall := st.Fall }) := by
      intro f
      unfold createPlugin
      simp only []
      rw [hu]
    have d1 : 0 < defaultTtl ∧ defaultTtl ≤ strconv.maxVal ∧
        (defaultTtl = defaultTtl ∨ DurationGiven c.tokens "ttl".toList defaultTtl) :=
      ⟨by decide, by decide, Or.inl rfl⟩
    have d2 : 0 < defaultRefreshInterval ∧ defaultRefreshInterval ≤ strconv.maxVal ∧
        (defaultRefreshInterval = defaultRefreshInterval ∨
          DurationGiven c.tokens "refreshinterval".toList defaultRefreshInterval) :=
      ⟨by decide, by decide, Or.inl rfl⟩
    rcases servers_returns deps c.tokens (c.tokens.length + 2)
      { c := c, cfg := { baseUrl := u, interfaceName := [], ttl := defaultTtl,
                         refreshInterval := defaultRefreshInterval, apiHostname := [] },
        Fall := fall.F.zero, mode := -1 }
      ⟨rfl, Or.inl rfl, fun hm => by simp at hm, d1, d2⟩
      (by dsimp only; omega)
      (by dsimp only; omega) (by dsimp only; omega)
      (by dsimp only; rw [hc]; push_cast; omega) with ⟨rs, hs⟩ | ⟨hnone, hlast, hbrace⟩
    · left
      rw [e1, hs]
      cases rs with
      | error e => exact ⟨_, rfl⟩
      | ok st =>
        dsimp only
        split
        · exact ⟨_, rfl⟩
        · split
          · exact ⟨_, rfl⟩
          · exact ⟨_, rfl⟩
    · right
      refine ⟨fun f => ?_, hlast, hbrace⟩
      rw [e1, hnone f]

/-- No name is given with `interface` when no token `interface` is followed by a
token on its line. -/
theorem not_InterfaceGiven (tokens : List caddyfile.Token)
    (h : ∀ i < tokens.length,
      ¬((tokens[i]?.map fun tok => tok.Text) = some "interface".toList ∧
        (tokens[i]?.map fun tok => (tok.File, tok.Line)) =
          (tokens[i + 1]?.map fun tok => (tok.File, tok.Line)))) :
    ¬∃ name, InterfaceGiven tokens name := by
  rintro ⟨name, i, p, arg, hp, harg, htx, hfile, hline, -⟩
  have hi : i < tokens.length := by
    by_contra hge
    rw [List.getElem?_eq_none (by omega)] at hp
    cases hp
  apply h i hi
  rw [hp, harg]
  simp only [Option.map_some', htx, hfile, hline, and_self]

/-- C11 (amended). Every configuration that `createPlugin` accepts holds an
`interface` property followed on the same line by an argument, and that argument
is the accepted interface name; the name is non-empty when no token of the
configuration is empty.  On a configuration in which no `interface` property is
followed by an argument on its line, `createPlugin` returns nothing but an error,
and `setup` returns that error without starting the plugin; it does return, with
one unit of fuel per token and two more, when the last token is not `fallthrough`
or no token is an opening brace.  On every configuration `createPlugin` either
returns with that fuel or never returns, whatever the fuel, and it never returns
only when the last token is `fallthrough` and some token is an opening brace. -/
theorem createPlugin_interface (deps : createPlugin.Deps) (tokens : List caddyfile.Token) :
    (∀ (fuel : Nat) (t : Traefik),
      createPlugin deps fuel (caddyfile.NewDispenserTokens tokens) = some (Except.ok t) →
        InterfaceGiven tokens t.Config.interfaceName ∧
        ((∀ tok ∈ tokens, tok.Text ≠ []) → t.Config.interfaceName ≠ [])) ∧
    ((¬∃ name, InterfaceGiven tokens name) →
      (∀ (fuel : Nat) (r : Except GoError Traefik),
        createPlugin deps fuel (caddyfile.NewDispenserTokens tokens) = some r →
          ∃ err : GoError, r = Except.error err ∧
            setup deps fuel (caddyfile.NewDispenserTokens tokens) = some (Except.error err)) ∧
      ((tokens.getLast?.map (fun tok => tok.Text) ≠ some "fallthrough".toList ∨
          ∀ tok ∈ tokens, tok.Text ≠ ['{']) →
        ∃ err : GoError,
          createPlugin deps (tokens.length + 2) (caddyfile.NewDispenserTokens tokens) =
            some (Except.error err) ∧
          setup deps (tokens.length + 2) (caddyfile.NewDispenserTokens tokens) =
            some (Except.error err))) ∧
    ((∃ r, createPlugin deps (tokens.length + 2) (caddyfile.NewDispenserTokens tokens) =
        some r) ∨
      ((∀ fuel, createPlugin deps fuel (caddyfile.NewDispenserTokens tokens) = none ∧
          setup deps fuel (caddyfile.NewDispenserTokens tokens) = none) ∧
        tokens.getLast?.map (fun tok => tok.Text) = some "fallthrough".toList ∧
        ∃ tok ∈ tokens, tok.Text = ['{'])) := by
  have hret := createPlugin_returns deps (caddyfile.NewDispenserTokens tokens) rfl rfl
  have hsetup : ∀ (fuel : Nat) (err : GoError),
      createPlugin deps fuel (caddyfile.NewDispenserTokens tokens) = some (Except.error err) →
        setup deps fuel (caddyfile.NewDispenserTokens tokens) = some (Except.error err) := by
    intro fuel err hr
    simp only [setup, hr]
  refine ⟨?_, fun hno => ⟨?_, ?_⟩, ?_⟩
  · intro fuel t h
    obtain ⟨hif, -, -⟩ := createPlugin_accepts deps fuel _ t rfl h
    refine ⟨hif, fun hne => ?_⟩
    obtain ⟨i, p, arg, -, harg, -, -, -, hname⟩ := hif
    rw [← hname]
    exact hne arg (List.getElem?_mem harg)
  · intro fuel r hr
    cases r with
    | ok t =>
      exfalso
      obtain ⟨hif, -, -⟩ := createPlugin_accepts deps fuel _ t rfl hr
      exact hno ⟨_, hif⟩
    | error err => exact ⟨err, rfl, hsetup fuel err hr⟩
  · intro hcond
    rcases hret with ⟨r, hr⟩ | ⟨-, ⟨t, ht, htx⟩, ⟨tok, hm, hb⟩⟩
    · cases r with
      | ok t =>
        exfalso
        obtain ⟨hif, -, -⟩ := createPlugin_accepts deps _ _ t rfl hr
        exact hno ⟨_, hif⟩
      | error err => exact ⟨err, hr, hsetup _ err hr⟩
    · exfalso
      rcases hcond with h | h
      · apply h
        have ht2 : tokens.getLast? = some t := ht
        rw [ht2, ← htx]
        rfl
      · exact h tok hm hb
  · rcases hret with ⟨r, hr⟩ | ⟨hnone, ⟨t, ht, htx⟩, hbrace⟩
    · exact Or.inl ⟨r, hr⟩
    · right
      refine ⟨fun fuel => ⟨hnone fuel, ?_⟩, ?_, hbrace⟩
      · simp only [setup, hnone fuel]
      · have ht2 : tokens.getLast? = some t := ht
        rw [ht2, ← htx]
        rfl

set_option maxRecDepth 4000 in
/-- The block `interface eth0`, `ttl v`, `refreshinterval u`: `createPlugin` fails
with the parse error of `v`, else with that of `u`; when both parse, it accepts
with each duration set to the parsed value if that is positive and to 30 otherwise. -/
theorem createPlugin_exampleBlock (v u : GoString) :
    (∀ err, strconv.ParseUint v = Except.error err →
      createPlugin exampleDeps 11 (exampleBlock v u) = some (Except.error err)) ∧
    (∀ n err, strconv.ParseUint v = Except.ok n → strconv.ParseUint u = Except.error err →
      createPlugin exampleDeps 11 (exampleBlock v u) = some (Except.error err)) ∧
    (∀ n m, strconv.ParseUint v = Except.ok n → strconv.ParseUint u = Except.ok m →
      ∃ t, createPlugin exampleDeps 11 (exampleBlock v u) = some (Except.ok t) ∧
        t.Config.interfaceName = "eth0".toList ∧
        t.Config.ttl = (if n > 0 then n else 30) ∧
        t.Config.refreshInterval = (if m > 0 then m else 30)) := by
  refine ⟨?_, ?_, ?_⟩
  · intro err hv
    simp [createPlugin, createPlugin.servers, createPlugin.block, createPlugin.property,
      createPlugin.address, exampleBlock, exampleDeps, caddyfile.NewDispenserTokens,
      caddyfile.Dispenser.Next, caddyfile.Dispenser.NextArg, caddyfile.Dispenser.NextBlock,
      caddyfile.Dispenser.RemainingArgs, caddyfile.Dispenser.RemainingArgs.loop,
      caddyfile.Dispenser.Val, caddyfile.Dispenser.token, caddyfile.Dispenser.numLineBreaks, hv]
  · intro n err hv hu
    by_cases hn : n > 0 <;>
    simp [createPlugin, createPlugin.servers, createPlugin.block, createPlugin.property,
      createPlugin.address, exampleBlock, exampleDeps, caddyfile.NewDispenserTokens,
      caddyfile.Dispenser.Next, caddyfile.Dispenser.NextArg, caddyfile.Dispenser.NextBlock,
      caddyfile.Dispenser.RemainingArgs, caddyfile.Dispenser.RemainingArgs.loop,
      caddyfile.Dispenser.Val, caddyfile.Dispenser.token, caddyfile.Dispenser.numLineBreaks,
      hv, hu, hn]
  · intro n m hv hu
    by_cases hn : n > 0 <;> by_cases hm : m > 0 <;>
    simp [createPlugin, createPlugin.servers, createPlugin.block, createPlugin.property,
      createPlugin.address, exampleBlock, exampleDeps, caddyfile.NewDispenserTokens,
      caddyfile.Dispenser.Next, caddyfile.Dispenser.NextArg, caddyfile.Dispenser.NextBlock,
      caddyfile.Dispenser.RemainingArgs, caddyfile.Dispenser.RemainingArgs.loop,
      caddyfile.Dispenser.Val, caddyfile.Dispenser.token, caddyfile.Dispenser.numLineBreaks,
      hv, hu, hn, hm, defaultTtl, defaultRefreshInterval]

/-- The `ttl` case of the `switch`, once the argument is loaded. -/
theorem property_ttl (deps : createPlugin.Deps) (st : createPlugin.State)
    (hv : st.c.Val = "ttl".toList) (ha : st.c.NextArg.1 = true) :
    createPlugin.property deps st =
      match strconv.ParseUint st.c.NextArg.2.Val with
      | Except.error err => Except.error err
      | Except.ok ttl =>
        if ttl > 0 then
          Except.ok { st with c := st.c.NextArg.2, cfg := { st.cfg with ttl := ttl } }
        else Except.ok { st with c := st.c.NextArg.2 } := by
  have h1 : ¬ st.c.Val = "interface".toList := by rw [hv]; decide
  have h2 : ¬ st.c.Val = "refreshinterval".toList := by rw [hv]; decide
  have ha2 : ¬ st.c.NextArg.1 = false := by rw [ha]; decide
  unfold createPlugin.property
  simp only []
  rw [if_neg h1, if_neg h2, if_pos hv, if_neg ha2]

/-- The `refreshinterval` case of the `switch`, once the argument is loaded. -/
theorem property_refreshinterval (deps : createPlugin.Deps) (st : createPlugin.State)
    (hv : st.c.Val = "refreshinterval".toList) (ha : st.c.NextArg.1 = true) :
    createPlugin.property deps st =
      match strconv.ParseUint st.c.NextArg.2.Val with
      | Except.error err => Except.error err
      | Except.ok refreshInterval =>
        if refreshInterval > 0 then
          Except.ok { st with c := st.c.NextArg.2,
                              cfg := { st.cfg with refreshInterval := refreshInterval } }
        else Except.ok { st with c := st.c.NextArg.2 } := by
  have h1 : ¬ st.c.Val = "interface".toList := by rw [hv]; decide
  have ha2 : ¬ st.c.NextArg.1 = false := by rw [ha]; decide
  unfold createPlugin.property
  simp only []
  rw [if_neg h1, if_pos hv, if_neg ha2]

/-- C12. The two durations default to 30.  `strconv.ParseUint` reads the decimal
text of every `n` below 2^32 as `n`; it fails on the decimal text of every larger
number, on the empty text and on every text that holds a rune other than a
decimal digit.  A `ttl` (or `refreshinterval`) property whose argument is read as
`n` sets the duration to `n` when `n > 0` and leaves it as it was when `n = 0`;
when the argument is not read, or is missing from the line, the property fails.
In every configuration that `createPlugin` accepts both durations are positive
32-bit values, each is 30 or the value read from the argument of a property that
sets it, and each is 30 when the configuration does not hold that property.  On
the block `interface eth0`, `ttl v`, `refreshinterval u`, `createPlugin` fails
when `v` or `u` is not read and otherwise accepts with the durations so set: for
the decimal texts of `n` and `m`, it accepts exactly when both are below 2^32,
with the TTL `n` (30 when `n = 0`) and the refresh interval `m` (30 when `m = 0`),
and it fails when `v` or `u` is empty or holds a rune other than a decimal digit. -/
theorem createPlugin_durations (deps : createPlugin.Deps) :
    (defaultTtl = 30 ∧ defaultRefreshInterval = 30) ∧
    ((∀ n : Nat, strconv.ParseUint (Nat.toDigits 10 n) =
        if n < 2 ^ 32 then Except.ok n
        else Except.error "strconv.ParseUint: value out of range") ∧
      (∀ s : GoString, (s = [] ∨ ∃ c ∈ s, ¬('0' ≤ c ∧ c ≤ '9')) →
        ∃ err, strconv.ParseUint s = Except.error err)) ∧
    (∀ st : createPlugin.State, st.c.Val = "ttl".toList → st.c.NextArg.1 = true →
      (∀ n, strconv.ParseUint st.c.NextArg.2.Val = Except.ok n →
        ∃ st1, createPlugin.property deps st = Except.ok st1 ∧
          st1.cfg.ttl = (if n > 0 then n else st.cfg.ttl) ∧
          st1.cfg.refreshInterval = st.cfg.refreshInterval) ∧
      (∀ err, strconv.ParseUint st.c.NextArg.2.Val = Except.error err →
        createPlugin.property deps st = Except.error err)) ∧
    (∀ st : createPlugin.State, st.c.Val = "refreshinterval".toList → st.c.NextArg.1 = true →
      (∀ n, strconv.ParseUint st.c.NextArg.2.Val = Except.ok n →
        ∃ st1, createPlugin.property deps st = Except.ok st1 ∧
          st1.cfg.refreshInterval = (if n > 0 then n else st.cfg.refreshInterval) ∧
          st1.cfg.ttl = st.cfg.ttl) ∧
      (∀ err, strconv.ParseUint st.c.NextArg.2.Val = Except.error err →
        createPlugin.property deps st = Except.error err)) ∧
    (∀ (st : createPlugin.State) (n : Nat), st.c.Val = "ttl".toList →
      st.c.NextArg.1 = true → st.c.NextArg.2.Val = Nat.toDigits 10 n →
        (n < 2 ^ 32 → ∃ st1, createPlugin.property deps st = Except.ok st1 ∧
          st1.cfg.ttl = (if n > 0 then n else st.cfg.ttl) ∧
          st1.cfg.refreshInterval = st.cfg.refreshInterval) ∧
        (2 ^ 32 ≤ n → createPlugin.property deps st =
          Except.error "strconv.ParseUint: value out of range")) ∧
    (∀ (st : createPlugin.State) (n : Nat), st.c.Val = "refreshinterval".toList →
      st.c.NextArg.1 = true → st.c.NextArg.2.Val = Nat.toDigits 10 n →
        (n < 2 ^ 32 → ∃ st1, createPlugin.property deps st = Except.ok st1 ∧
          st1.cfg.refreshInterval = (if n > 0 then n else st.cfg.refreshInterval) ∧
          st1.cfg.ttl = st.cfg.ttl) ∧
        (2 ^ 32 ≤ n → createPlugin.property deps st =
          Except.error "strconv.ParseUint: value out of range")) ∧
    (∀ st : createPlugin.State,
      st.c.Val = "ttl".toList ∨ st.c.Val = "refreshinterval".toList →
        (st.c.NextArg.1 = false ∨ st.c.NextArg.2.Val = [] ∨
          ∃ c ∈ st.c.NextArg.2.Val, ¬('0' ≤ c ∧ c ≤ '9')) →
          ∃ err, createPlugin.property deps st = Except.error err) ∧
    (∀ (tokens : List caddyfile.Token) (fuel : Nat) (t : Traefik),
      createPlugin deps fuel (caddyfile.NewDispenserTokens tokens) = some (Except.ok t) →
        (0 < t.Config.ttl ∧ t.Config.ttl < 2 ^ 32) ∧
        (0 < t.Config.refreshInterval ∧ t.Config.refreshInterval < 2 ^ 32) ∧
        (t.Config.ttl = 30 ∨ DurationGiven tokens "ttl".toList t.Config.ttl) ∧
        (t.Config.refreshInterval = 30 ∨
          DurationGiven tokens "refreshinterval".toList t.Config.refreshInterval) ∧
        ((∀ tok ∈ tokens, tok.Text ≠ "ttl".toList) → t.Config.ttl = 30) ∧
        ((∀ tok ∈ tokens, tok.Text ≠ "refreshinterval".toList) →
          t.Config.refreshInterval = 30)) ∧
    (∀ v u : GoString,
      (∀ err, strconv.ParseUint v = Except.error err →
        createPlugin exampleDeps 11 (exampleBlock v u) = some (Except.error err)) ∧
      (∀ n err, strconv.ParseUint v = Except.ok n → strconv.ParseUint u = Except.error err →
        createPlugin exampleDeps 11 (exampleBlock v u) = some (Except.error err)) ∧
      (∀ n m, strconv.ParseUint v = Except.ok n → strconv.ParseUint u = Except.ok m →
        ∃ t, createPlugin exampleDeps 11 (exampleBlock v u) = some (Except.ok t) ∧
          t.Config.interfaceName = "eth0".toList ∧
          t.Config.ttl = (if n > 0 then n else 30) ∧
          t.Config.refreshInterval = (if m > 0 then m else 30))) ∧
    (∀ n m : Nat,
      (n < 2 ^ 32 → m < 2 ^ 32 →
        ∃ t, createPlugin exampleDeps 11
            (exampleBlock (Nat.toDigits 10 n) (Nat.toDigits 10 m)) = some (Except.ok t) ∧
          t.Config.ttl = (if n > 0 then n else 30) ∧
          t.Config.refreshInterval = (if m > 0 then m else 30)) ∧
      (2 ^ 32 ≤ n ∨ 2 ^ 32 ≤ m →
        createPlugin exampleDeps 11 (exampleBlock (Nat.toDigits 10 n) (Nat.toDigits 10 m)) =
          some (Except.error "strconv.ParseUint: value out of range"))) ∧
    (∀ v u : GoString,
      ((v = [] ∨ ∃ c ∈ v, ¬('0' ≤ c ∧ c ≤ '9')) ∨ (u = [] ∨ ∃ c ∈ u, ¬('0' ≤ c ∧ c ≤ '9'))) →
        ∃ err, createPlugin exampleDeps 11 (exampleBlock v u) = some (Except.error err)) := by
  have hmax : strconv.maxVal = 2 ^ 32 - 1 := rfl
  refine ⟨⟨rfl, rfl⟩, ⟨strconv.ParseUint_toDigits, strconv.ParseUint_not_digit⟩,
    ?_, ?_, ?_, ?_, ?_, ?_, createPlugin_exampleBlock, ?_, ?_⟩
  · intro st hv ha
    rw [property_ttl deps st hv ha]
    constructor
    · intro n hp
      rw [hp]
      dsimp only
      by_cases hn : n > 0
      · rw [if_pos hn, if_pos hn]
        exact ⟨_, rfl, rfl, rfl⟩
      · rw [if_neg hn, if_neg hn]
        exact ⟨_, rfl, rfl, rfl⟩
    · intro err hp
      rw [hp]
  · intro st hv ha
    rw [property_refreshinterval deps st hv ha]
    constructor
    · intro n hp
      rw [hp]
      dsimp only
      by_cases hn : n > 0
      · rw [if_pos hn, if_pos hn]
        exact ⟨_, rfl, rfl, rfl⟩
      · rw [if_neg hn, if_neg hn]
        exact ⟨_, rfl, rfl, rfl⟩
    · intro err hp
      rw [hp]
  · intro st n hv ha hval
    rw [property_ttl deps st hv ha, hval, strconv.ParseUint_toDigits]
    constructor
    · intro hlt
      rw [if_pos hlt]
      dsimp only
      by_cases hn : n > 0
      · rw [if_pos hn, if_pos hn]
        exact ⟨_, rfl, rfl, rfl⟩
      · rw [if_neg hn, if_neg hn]
        exact ⟨_, rfl, rfl, rfl⟩
    · intro hge
      rw [if_neg (by omega)]
  · intro st n hv ha hval
    rw [property_refreshinterval deps st hv ha, hval, strconv.ParseUint_toDigits]
    constructor
    · intro hlt
      rw [if_pos hlt]
      dsimp only
      by_cases hn : n > 0
      · rw [if_pos hn, if_pos hn]
        exact ⟨_, rfl, rfl, rfl⟩
      · rw [if_neg hn, if_neg hn]
        exact ⟨_, rfl, rfl, rfl⟩
    · intro hge
      rw [if_neg (by omega)]
  · intro st hv hbad
    cases hr : createPlugin.property deps st with
    | error err => exact ⟨err, rfl⟩
    | ok st1 =>
      exfalso
      have hbad2 : ∀ n, st.c.NextArg.1 = true →
          strconv.ParseUint st.c.NextArg.2.Val = Except.ok n → False := by
        intro n ha hp
        rcases hbad with hb | hb | hb
        · rw [ha] at hb; cases hb
        · obtain ⟨err, he⟩ := strconv.ParseUint_not_digit _ (Or.inl hb)
          rw [he] at hp; cases hp
        · obtain ⟨err, he⟩ := strconv.ParseUint_not_digit _ (Or.inr hb)
          rw [he] at hp; cases hp
      rcases property_ok deps st st1 hr with ⟨hi, -, -⟩ | ⟨-, ha, n, hp, -⟩ |
        ⟨-, ha, n, hp, -⟩ | ⟨hf, -⟩
      · rcases hv with hv | hv <;> rw [hv] at hi <;> exact absurd hi (by decide)
      · exact hbad2 n ha hp
      · exact hbad2 n ha hp
      · rcases hv with hv | hv <;> rw [hv] at hf <;> exact absurd hf (by decide)
  · intro tokens fuel t h
    obtain ⟨-, ⟨t1, t2, t3⟩, ⟨r1, r2, r3⟩⟩ := createPlugin_accepts deps fuel _ t rfl h
    have e1 : defaultTtl = 30 := rfl
    have e2 : defaultRefreshInterval = 30 := rfl
    rw [e1] at t3
    rw [e2] at r3
    refine ⟨⟨t1, by omega⟩, ⟨r1, by omega⟩, t3, r3, fun hno => ?_, fun hno => ?_⟩
    · rcases t3 with h3 | ⟨i, p, arg, hp, -, htx, -⟩
      · exact h3
      · exact absurd htx (hno p (List.getElem?_mem hp))
    · rcases r3 with h3 | ⟨i, p, arg, hp, -, htx, -⟩
      · exact h3
      · exact absurd htx (hno p (List.getElem?_mem hp))
  · intro n m
    obtain ⟨x1, x2, x3⟩ := createPlugin_exampleBlock (Nat.toDigits 10 n) (Nat.toDigits 10 m)
    constructor
    · intro hn hm
      obtain ⟨t, ht, -, h2, h3⟩ := x3 n m
        (by rw [strconv.ParseUint_toDigits, if_pos hn])
        (by rw [strconv.ParseUint_toDigits, if_pos hm])
      exact ⟨t, ht, h2, h3⟩
    · intro hge
      by_cases hn : n < 2 ^ 32
      · have hm : ¬ m < 2 ^ 32 := by omega
        exact x2 n _ (by rw [strconv.ParseUint_toDigits, if_pos hn])
          (by rw [strconv.ParseUint_toDigits, if_neg hm])
      · exact x1 _ (by rw [strconv.ParseUint_toDigits, if_neg hn])
  · intro v u hbad
    obtain ⟨x1, x2, -⟩ := createPlugin_exampleBlock v u
    cases hv : strconv.ParseUint v with
    | error err => exact ⟨err, x1 err hv⟩
    | ok n =>
      rcases hbad with hb | hb
      · obtain ⟨err, he⟩ := strconv.ParseUint_not_digit v hb
        rw [he] at hv; cases hv
      · obtain ⟨err, he⟩ := strconv.ParseUint_not_digit u hb
        exact ⟨err, x2 n err hv he⟩

/-- On the state `exampleStuck` the block loop never returns: each iteration reads
`fallthrough` again and leaves the state as it is. -/
theorem block_exampleStuck (fuel : Nat) : createPlugin.block exampleDeps fuel exampleStuck = none := by
  induction fuel with
  | zero => rfl
  | succ fuel ih =>
    have step : createPlugin.block exampleDeps (fuel + 1) exampleStuck =
        createPlugin.block exampleDeps fuel exampleStuck := rfl
    rw [step, ih]

/-- On a block left open after a final `fallthrough`, `createPlugin` does not
return, whatever the fuel. -/
theorem createPlugin_dangling_fallthrough (fuel : Nat) :
    createPlugin exampleDeps fuel
      (NewTestController [(1, "traefik"), (1, "\x7b"), (2, "fallthrough")]) = none := by
  match fuel with
  | 0 => rfl
  | 1 => rfl
  | fuel + 2 =>
    have hb : createPlugin.block exampleDeps (fuel + 1)
        { c := { tokens := testTokens [(1, "traefik"), (1, "\x7b"), (2, "fallthrough")],
                 cursor := 0, nesting := 0 },
          cfg := exampleStuck.cfg, Fall := fall.F.zero, mode := -1 } = none :=
      (rfl : _ = createPlugin.block exampleDeps fuel exampleStuck).trans
        (block_exampleStuck fuel)
    have hs : createPlugin.servers exampleDeps (fuel + 2)
        { c := NewTestController [(1, "traefik"), (1, "\x7b"), (2, "fallthrough")],
          cfg := { baseUrl := defaultTraefikApiEndpoint, interfaceName := [], ttl := defaultTtl,
                   refreshInterval := defaultRefreshInterval, apiHostname := [] },
          Fall := fall.F.zero, mode := -1 } = none := by
      have step : createPlugin.servers exampleDeps (fuel + 2)
          { c := NewTestController [(1, "traefik"), (1, "\x7b"), (2, "fallthrough")],
            cfg := { baseUrl := defaultTraefikApiEndpoint, interfaceName := [], ttl := defaultTtl,
                     refreshInterval := defaultRefreshInterval, apiHostname := [] },
            Fall := fall.F.zero, mode := -1 } =
          match createPlugin.block exampleDeps (fuel + 1)
            { c := { tokens := testTokens [(1, "traefik"), (1, "\x7b"), (2, "fallthrough")],
                     cursor := 0, nesting := 0 },
              cfg := exampleStuck.cfg, Fall := fall.F.zero, mode := -1 } with
          | none => none
          | some (Except.error err) => some (Except.error err)
          | some (Except.ok st2) => createPlugin.servers exampleDeps (fuel + 1) st2 := rfl
      rw [step, hb]
    have hc : createPlugin exampleDeps (fuel + 2)
        (NewTestController [(1, "traefik"), (1, "\x7b"), (2, "fallthrough")]) =
        match createPlugin.servers exampleDeps (fuel + 2)
          { c := NewTestController [(1, "traefik"), (1, "\x7b"), (2, "fallthrough")],
            cfg := { baseUrl := defaultTraefikApiEndpoint, interfaceName := [], ttl := defaultTtl,
                     refreshInterval := defaultRefreshInterval, apiHostname := [] },
            Fall := fall.F.zero, mode := -1 } with
        | none => none
        | some (Except.error err) => some (Except.error err)
        | some (Except.ok st) =>
          if st.mode = -1 then some (Except.error "traefik config requires an interface")
          else
            match exampleDeps.NewTraefikClient st.cfg with
            | Except.error err => some (Except.error err)
            | Except.ok _ =>
              some (Except.ok { Next := none, Config := st.cfg, mappings := ∅, ready := false,
                                Fall := st.Fall }) := rfl
    rw [hc, hs]

/-! ## Invariants of the mapping store -/

/-- The first loop of `refresh` keeps every entry at the TTL it inserts with. -/
theorem observe_foldl_ttl (ttl : Nat) (hs : List GoString) (st : refresh.Locals)
    (h : ∀ k e, st.mappings.lookup k = some e → e.ttl = ttl) :
    ∀ k e, (hs.foldl (refresh.observe ttl) st).mappings.lookup k = some e → e.ttl = ttl := by
  induction hs generalizing st with
  | nil => exact h
  | cons host hs ih =>
    rw [List.foldl_cons]
    apply ih
    intro k e hk
    unfold refresh.observe at hk
    cases hl : st.mappings.lookup host with
    | some e0 =>
      rw [hl] at hk
      exact h k e hk
    | none =>
      rw [hl] at hk
      dsimp only at hk
      by_cases hkh : k = host
      · subst hkh
        rw [AList.lookup_insert] at hk
        cases hk
        rfl
      · rw [AList.lookup_insert_ne hkh] at hk
        exact h k e hk

/-- Deleting hosts does not change the entries that stay. -/
theorem erase_foldl_lookup (ds : List GoString) (m : TraefikConfigEntryMap) (k : GoString)
    (e : TraefikConfigEntry)
    (h : (ds.foldl (fun m del => m.erase del) m).lookup k = some e) : m.lookup k = some e := by
  induction ds generalizing m with
  | nil => exact h
  | cons d ds ih =>
    rw [List.foldl_cons] at h
    have h2 := ih (m.erase d) h
    by_cases hkd : k = d
    · subst hkd
      rw [AList.lookup_erase] at h2
      cases h2
    · rw [AList.lookup_erase_ne hkd] at h2
      exact h2

/-- One call of `refresh` keeps the configuration and keeps every entry at the
configured TTL. -/
theorem refresh_ttl (lower : Char → Char) (t : Traefik)
    (fetched : Except GoError (List TraefikHttpRouter)) (first : Bool)
    (h : ∀ k e, t.mappings.lookup k = some e → e.ttl = t.Config.ttl) :
    (refresh lower t fetched first).t.Config = t.Config ∧
      ∀ k e, (refresh lower t fetched first).t.mappings.lookup k = some e →
        e.ttl = t.Config.ttl := by
  cases fetched with
  | error err => exact ⟨rfl, h⟩
  | ok routers =>
    refine ⟨rfl, ?_⟩
    intro k e hk
    simp only [refresh, perRouter_foldl] at hk
    exact observe_foldl_ttl t.Config.ttl (observedHosts lower routers)
      { mappings := t.mappings, fromTraefik := [], adds := 0 } h k e
      (erase_foldl_lookup _ _ k e hk)

/-- Any sequence of calls of `refresh` keeps the configuration and keeps every
entry at the configured TTL. -/
theorem refreshAll_ttl (lower : Char → Char) (t : Traefik)
    (calls : List (Except GoError (List TraefikHttpRouter) × Bool))
    (h : ∀ k e, t.mappings.lookup k = some e → e.ttl = t.Config.ttl) :
    (refreshAll lower t calls).Config = t.Config ∧
      ∀ k e, (refreshAll lower t calls).mappings.lookup k = some e → e.ttl = t.Config.ttl := by
  induction calls generalizing t with
  | nil => exact ⟨rfl, h⟩
  | cons call calls ih =>
    obtain ⟨r1, r2⟩ := refresh_ttl lower t call.1 call.2 h
    have := ih (refresh lower t call.1 call.2).t (by rw [r1]; exact r2)
    rw [r1] at this
    exact this

/-- Every record of the answer set carries the configured TTL, and the queried
name is mapped. -/
theorem answers_ttl (lower : Char → Char) (os : Net) (t : Traefik) (r : Msg) (rr : RR)
    (h : rr ∈ ServeDNS.answers lower os t r) :
    rr.Header.Ttl = t.Config.ttl ∧
      ∃ e, t.getEntry (ServeDNS.find lower (QName r)) = some e := by
  unfold ServeDNS.answers at h
  dsimp only at h
  cases he : t.getEntry (ServeDNS.find lower (QName r)) with
  | none => rw [he] at h; simp at h
  | some e =>
    rw [he] at h
    dsimp only at h
    refine ⟨?_, e, rfl⟩
    split at h
    · split at h
      · simp only [a, List.mem_map] at h
        obtain ⟨ip, -, rfl⟩ := h
        rfl
      · simp at h
    · split at h
      · split at h
        · simp only [aaaa, List.mem_map] at h
          obtain ⟨ip, -, rfl⟩ := h
          rfl
        · simp at h
      · simp at h

/-- C14. Entry-TTL invariant.  With a fixed configuration, after any sequence of
calls of `refresh` that starts from the empty store, the configuration is
unchanged and every mapping entry has the configured TTL; so all entries have
the same TTL, and every answer record that `ServeDNS` builds carries the TTL of
the mapping entry that was looked up. -/
theorem refreshAll_entry_ttl (lower : Char → Char) (t0 : Traefik)
    (calls : List (Except GoError (List TraefikHttpRouter) × Bool)) :
    (refreshAll lower { t0 with mappings := ∅ } calls).Config = t0.Config ∧
      (∀ host e, (refreshAll lower { t0 with mappings := ∅ } calls).getEntry host = some e →
        e.ttl = t0.Config.ttl) ∧
      (∀ host1 e1 host2 e2,
        (refreshAll lower { t0 with mappings := ∅ } calls).getEntry host1 = some e1 →
        (refreshAll lower { t0 with mappings := ∅ } calls).getEntry host2 = some e2 →
          e1.ttl = e2.ttl) ∧
      (∀ (os : Net) (r : Msg) (rr : RR),
        rr ∈ ServeDNS.answers lower os (refreshAll lower { t0 with mappings := ∅ } calls) r →
          ∃ e, (refreshAll lower { t0 with mappings := ∅ } calls).getEntry
              (ServeDNS.find lower (QName r)) = some e ∧
            rr.Header.Ttl = e.ttl) := by
  obtain ⟨hc, hl⟩ := refreshAll_ttl lower { t0 with mappings := ∅ } calls
    (fun k e hk => by simp at hk)
  refine ⟨hc, hl, fun h1 e1 h2 e2 a1 a2 => ?_, fun os r rr hrr => ?_⟩
  · rw [hl h1 e1 a1, hl h2 e2 a2]
  · obtain ⟨httl, e, he⟩ := answers_ttl lower os _ r rr hrr
    refine ⟨e, he, ?_⟩
    rw [httl, hc]
    exact (hl _ e he).symm

/-- Every reported submatch has three elements, the third a non-empty text
without backtick. -/
theorem hostMatcher.scan_mem (s : GoString) (k : Nat) (sm : List GoString)
    (h : sm ∈ hostMatcher.scan k s) :
    ∃ w g x, sm = [w, g, x] ∧ x ≠ [] ∧ backtick ∉ x := by
  induction s generalizing k with
  | nil => cases k <;> simp [hostMatcher.scan] at h
  | cons c s ih =>
    cases k with
    | succ k => exact ih k (by simpa [hostMatcher.scan] using h)
    | zero =>
      cases hm : hostMatcher.matchAt (c :: s) with
      | none => exact ih 0 (by simpa [hostMatcher.scan, hm] using h)
      | some m =>
        obtain ⟨g, x, rest⟩ := m
        obtain ⟨-, i2, i3, -⟩ := hostMatcher.matchAt_eq_some hm
        simp only [hostMatcher.scan, hm, List.mem_cons] at h
        rcases h with rfl | h
        · exact ⟨_, g, x, rfl, i2, i3⟩
        · exact ih _ h

/-- Every observed host is the lowercase form of a non-empty literal without backtick. -/
theorem observedHosts_mem (lower : Char → Char) (routers : List TraefikHttpRouter)
    (host : GoString) (h : host ∈ observedHosts lower routers) :
    ∃ x, x ≠ [] ∧ backtick ∉ x ∧ host = ToLower lower x := by
  simp only [observedHosts, List.mem_flatMap, ruleHosts, List.mem_filterMap] at h
  obtain ⟨s, -, sm, hsm, hhost⟩ := h
  obtain ⟨w, g, x, rfl, hx1, hx2⟩ := hostMatcher.scan_mem _ _ sm hsm
  simp only [Option.some.injEq] at hhost
  exact ⟨x, hx1, hx2, hhost.symm⟩

/-- After a successful `refresh` every key is the lowercase form of a declared
literal: it is non-empty, and it is unchanged by lowering when lowering twice is
lowering once. -/
theorem refresh_keys_lowercase (lower : Char → Char) (hidem : ∀ c, lower (lower c) = lower c)
    (t : Traefik) (routers : List TraefikHttpRouter) (first : Bool) (host : GoString)
    (h : host ∈ (refresh lower t (Except.ok routers) first).t.mappings.keys) :
    ToLower lower host = host ∧ host ≠ [] := by
  obtain ⟨-, hk, -, -⟩ := refresh_ok_spec lower t routers first
  have hm : host ∈ observedHosts lower routers := by
    have : host ∈ (refresh lower t (Except.ok routers) first).t.mappings.keys.toFinset :=
      List.mem_toFinset.mpr h
    rw [hk] at this
    exact List.mem_toFinset.mp this
  obtain ⟨x, hx1, -, rfl⟩ := observedHosts_mem lower routers host hm
  constructor
  · simp [ToLower, hidem]
  · cases x with
    | nil => exact absurd rfl hx1
    | cons c x => simp [ToLower]

/-! ## The examples of the specification -/

/-- Prior keys `a, b, c` and observed hosts `b, c, d`: the store ends with the
keys `b, c, d`, one addition and one deletion are counted, and a second run
counts nothing. -/
theorem refresh_example :
    (observedHosts Char.toLower exampleRouters).dedup = [['c'], ['d'], ['b']] ∧
      (refresh Char.toLower { examplePlugin with mappings := exampleStoreABC }
        (Except.ok exampleRouters) true).t.mappings.keys = [['d'], ['b'], ['c']] ∧
      (refresh Char.toLower { examplePlugin with mappings := exampleStoreABC }
        (Except.ok exampleRouters) true).adds = 1 ∧
      (refresh Char.toLower { examplePlugin with mappings := exampleStoreABC }
        (Except.ok exampleRouters) true).deletes = 1 := by
  decide

/-- The two A records for `Example.ORG.` on `eth0`, and the key the name is looked up by. -/
theorem ServeDNS_example :
    ServeDNS.find Char.toLower "Example.ORG.".toList = "example.org".toList ∧
      ServeDNS.answers Char.toLower exampleNet examplePlugin (exampleQuery "Example.ORG." 1) =
        [RR.A { Name := "Example.ORG.".toList, Rrtype := 1, Class := 1, Ttl := 30 } [10, 0, 0, 1],
         RR.A { Name := "Example.ORG.".toList, Rrtype := 1, Class := 1, Ttl := 30 } [10, 0, 0, 2]] ∧
      ServeDNS.answers Char.toLower exampleNet examplePlugin (exampleQuery "example.org" 28) =
        [RR.AAAA { Name := "example.org".toList, Rrtype := 28, Class := 1, Ttl := 30 }
          exampleV6] := by
  decide

/-- `TestSetup` of `setup_test.go`: the block with `interface eth0` is accepted,
with the defaults for the two durations, and the input without block is rejected. -/
theorem TestSetup_passes :
    (∃ s, setup exampleDeps 8 (NewTestController TestSetup.input1) = some (Except.ok s) ∧
      s.traefik.Config.interfaceName = "eth0".toList ∧
      s.traefik.Config.baseUrl = "http://localhost:8080/api".toList ∧
      s.traefik.Config.ttl = 30 ∧ s.traefik.Config.refreshInterval = 30) ∧
    setup exampleDeps 4 (NewTestController TestSetup.input2) =
      some (Except.error "traefik config requires an interface") :=
  ⟨⟨_, rfl, rfl, rfl, rfl, rfl⟩, rfl⟩

/-! ## Witnesses -/

/-- Witness for C4: a TXT query for the mapped name `example.org.` is delegated. -/
theorem ServeDNS_out_of_scope_witness :
    (QClass (exampleQuery "example.org." 16) ≠ ClassINET ∨
        (QType (exampleQuery "example.org." 16) ≠ TypeA ∧
          QType (exampleQuery "example.org." 16) ≠ TypeAAAA)) ∧
      examplePlugin.getEntry
        (ServeDNS.find Char.toLower (QName (exampleQuery "example.org." 16))) ≠ none ∧
      ServeDNS Char.toLower exampleNet examplePlugin [] (exampleQuery "example.org." 16) =
        NextOrFailure examplePlugin.Name examplePlugin.Next [] (exampleQuery "example.org." 16) :=
  ⟨by decide, by decide,
    (ServeDNS_out_of_scope Char.toLower exampleNet examplePlugin []
      (exampleQuery "example.org." 16) (by decide)).2.1⟩

/-- Witness for C5: `TestExample`, an A query for `example.org.` on an empty store. -/
theorem ServeDNS_nxdomain_witness :
    ∃ m : Msg,
      ServeDNS Char.toLower exampleNet TestExample.x [] TestExample.r =
        ([] ++ [m], RcodeSuccess, none) ∧
      m.Response = true ∧ m.Authoritative = true ∧ m.Rcode = RcodeNameError ∧
      m.Answer = [] ∧ m.Id = TestExample.r.Id :=
  ServeDNS_nxdomain Char.toLower exampleNet TestExample.x [] TestExample.r
    (by decide) (by decide) (Or.inl (by decide)) (by decide)

/-- Witness for C6: an A query for `Example.ORG.` on an interface with the
addresses 10.0.0.1 and 10.0.0.2 gets two A records in that order. -/
theorem ServeDNS_address_records_witness :
    ∃ m : Msg,
      ServeDNS Char.toLower exampleNet examplePlugin [] (exampleQuery "Example.ORG." 1) =
        ([] ++ [m], RcodeSuccess, none) ∧
      m.Rcode = RcodeSuccess ∧ m.Answer.length = [[10, 0, 0, 1], [10, 0, 0, 2]].length ∧
      m.Answer = [[10, 0, 0, 1], [10, 0, 0, 2]].map fun ip =>
        RR.A { Name := QName (exampleQuery "Example.ORG." 1), Rrtype := TypeA,
               Class := ClassINET, Ttl := examplePlugin.Config.ttl } ip :=
  (ServeDNS_address_records Char.toLower exampleNet examplePlugin []
    (exampleQuery "Example.ORG." 1) [[10, 0, 0, 1], [10, 0, 0, 2]]
    (by decide) (by decide) (by decide)).1 (by decide) (by decide)

/-- Witness for C7: an AAAA query for the unmapped name `x.test.`, which is under
the fallthrough zone, is handed to the next handler. -/
theorem ServeDNS_fallthrough_witness :
    ServeDNS.answers Char.toLower exampleNet examplePlugin (exampleQuery "x.test." 28) = [] ∧
      examplePlugin.Fall.Through (QName (exampleQuery "x.test." 28)) = true ∧
      ServeDNS Char.toLower exampleNet examplePlugin [] (exampleQuery "x.test." 28) =
        test.ErrorHandler [] (exampleQuery "x.test." 28) :=
  ⟨by decide, by decide,
    ((ServeDNS_fallthrough Char.toLower exampleNet examplePlugin []
      (exampleQuery "x.test." 28) (by decide) (by decide)).1 (by decide)).2.1
      (by decide) test.ErrorHandler rfl⟩

/-- Witness for C8: `Example.ORG.` and `example.org` are both looked up as `example.org`. -/
theorem ServeDNS_find_normalizes_witness :
    HasSuffix "Example.ORG".toList ['.'] = false ∧
      ServeDNS.find Char.toLower "Example.ORG".toList = ToLower Char.toLower "Example.ORG".toList ∧
      ServeDNS.find Char.toLower ("Example.ORG".toList ++ ['.']) =
        ToLower Char.toLower "Example.ORG".toList :=
  ⟨by decide,
    (ServeDNS_find_normalizes Char.toLower toLower_eq_dot "Example.ORG".toList (by decide)).1,
    (ServeDNS_find_normalizes Char.toLower toLower_eq_dot "Example.ORG".toList (by decide)).2.1⟩

/-- Witness for C10: the addresses of `eth0` in `exampleNet`. -/
theorem getIPsFromInterface_partition_witness :
    exampleNet.InterfaceByName "eth0".toList = Except.ok (Interface.mk (Except.ok exampleAddrs)) ∧
      ((getIPsFromInterface exampleNet "eth0".toList).1 =
          (exampleAddrs.map getIPsFromInterface.ipOf).filter
            (fun ip => decide (ip.To4 ≠ none ∧ ip.IsLoopback = false)) ∧
        (getIPsFromInterface exampleNet "eth0".toList).2 =
          (exampleAddrs.map getIPsFromInterface.ipOf).filter
            (fun ip => decide (ip.To16 ≠ none ∧ ip.IsLoopback = false ∧ ip.To4 = none))) ∧
      getIPsFromInterface exampleNet "eth0".toList =
        ([[10, 0, 0, 1], [10, 0, 0, 2]], [exampleV6]) ∧
      getIPsFromInterface exampleNet "eth1".toList = ([], []) ∧
      getIPsFromInterface exampleNet "wlan0".toList = ([], []) :=
  ⟨rfl, (getIPsFromInterface_partition exampleNet "eth0".toList).1
    (Interface.mk (Except.ok exampleAddrs)) exampleAddrs rfl rfl, by decide,
    (getIPsFromInterface_partition exampleNet "eth1".toList).2.2.2.2.2
      (Interface.mk (Except.error "address list unavailable")) "address list unavailable" rfl rfl,
    (getIPsFromInterface_partition exampleNet "wlan0".toList).2.2.2.2.1
      "no such network interface" rfl⟩

/-- Witness for C9: the rule `PathPrefix(B /api B) && Host(B Example.ORG B)`
(`B` the backtick) yields the one hostname `example.org`. -/
theorem refresh_host_extraction_witness :
    "PathPrefix(`/api`) && Host(`Example.ORG`)".toList =
        "PathPrefix(`/api`) && ".toList ++ hostMatcher.declaration [] "Example.ORG".toList ++ [] ∧
      ruleHosts Char.toLower "PathPrefix(`/api`) && Host(`Example.ORG`)".toList =
        ["example.org".toList] :=
  ⟨by decide,
    ((refresh_host_extraction Char.toLower "PathPrefix(`/api`) && ".toList "Example.ORG".toList []
      (by decide) (by decide) (Or.inl (by decide))).2.2.1 (by decide) (by decide)
        [] (Or.inl rfl)).1⟩

/-- Witness for C11: the two inputs of `TestSetup`, the input `traefik fallthrough`
and a block whose `interface` has no name. -/
theorem createPlugin_interface_witness :
    (∃ t, createPlugin exampleDeps 8 (NewTestController TestSetup.input1) = some (Except.ok t) ∧
      InterfaceGiven (testTokens TestSetup.input1) t.Config.interfaceName ∧
      t.Config.interfaceName ≠ []) ∧
    (∃ err : GoError,
      createPlugin exampleDeps 4 (NewTestController TestSetup.input2) =
        some (Except.error err) ∧
      setup exampleDeps 4 (NewTestController TestSetup.input2) = some (Except.error err)) ∧
    (∃ err : GoError,
      createPlugin exampleDeps 4 (NewTestController exampleBareFallthrough) =
        some (Except.error err) ∧
      setup exampleDeps 4 (NewTestController exampleBareFallthrough) =
        some (Except.error err)) ∧
    (∃ err : GoError,
      createPlugin exampleDeps 6 (NewTestController exampleNoName) = some (Except.error err) ∧
      setup exampleDeps 6 (NewTestController exampleNoName) = some (Except.error err)) :=
  ⟨⟨_, rfl,
      ((createPlugin_interface exampleDeps (testTokens TestSetup.input1)).1 8 _ rfl).1,
      ((createPlugin_interface exampleDeps (testTokens TestSetup.input1)).1 8 _ rfl).2
        (by decide)⟩,
    ((createPlugin_interface exampleDeps (testTokens TestSetup.input2)).2.1
      (not_InterfaceGiven _ (by decide))).2 (Or.inl (by decide)),
    ((createPlugin_interface exampleDeps (testTokens exampleBareFallthrough)).2.1
      (not_InterfaceGiven _ (by decide))).2 (Or.inr (by decide)),
    ((createPlugin_interface exampleDeps (testTokens exampleNoName)).2.1
      (not_InterfaceGiven _ (by decide))).2 (Or.inl (by decide))⟩

/-- Witness for C12: `ttl 60` with `refreshinterval 0` is accepted with the TTL 60
and the refresh interval 30; `ttl 4294967296` is rejected. -/
theorem createPlugin_durations_witness :
    (∃ t, createPlugin exampleDeps 11 (exampleBlock "60".toList "0".toList) =
        some (Except.ok t) ∧ t.Config.ttl = 60 ∧ t.Config.refreshInterval = 30) ∧
      createPlugin exampleDeps 11 (exampleBlock "4294967296".toList "30".toList) =
        some (Except.error "strconv.ParseUint: value out of range") :=
  ⟨((createPlugin_durations exampleDeps).2.2.2.2.2.2.2.2.2.1 60 0).1 (by decide) (by decide),
    ((createPlugin_durations exampleDeps).2.2.2.2.2.2.2.2.2.1 4294967296 30).2
      (Or.inl (by decide))⟩

/-- Witness for C14: after a successful run and a failed fetch the entry of `b`
has the configured TTL. -/
theorem refreshAll_entry_ttl_witness :
    (refreshAll Char.toLower { examplePlugin with mappings := ∅ } exampleCalls).getEntry ['b'] =
        some { ttl := 30 } ∧
      ({ ttl := 30 } : TraefikConfigEntry).ttl = examplePlugin.Config.ttl :=
  ⟨by decide,
    (refreshAll_entry_ttl Char.toLower examplePlugin exampleCalls).2.1 ['b'] { ttl := 30 }
      (by decide)⟩

/-! ## Inputs on which a statement of the specification fails -/

/-- C9 as stated fails: the rule `Host(B a B) || Host(B b B)` contains the
declaration of `a`, and the hostnames read off it are `a` and `b`, not `a` alone. -/
theorem ruleHosts_two_declarations :
    "Host(`a`) || Host(`b`)".toList =
        [] ++ hostMatcher.declaration [] ['a'] ++ " || Host(`b`)".toList ∧
      ruleHosts Char.toLower "Host(`a`) || Host(`b`)".toList = [['a'], ['b']] ∧
      ¬(∀ x ∈ ruleHosts Char.toLower "Host(`a`) || Host(`b`)".toList,
        x = ToLower Char.toLower ['a']) := by
  decide

/-- A declaration that follows a text with a backtick may be lost: in
`Host(B xHost(B )abc B)` the declaration of `)abc` is covered by a match that
starts before it. -/
theorem ruleHosts_overlapping_declaration :
    "Host(`xHost(`)abc`)".toList =
        "Host(`x".toList ++ hostMatcher.declaration [] ")abc".toList ++ [] ∧
      ruleHosts Char.toLower "Host(`xHost(`)abc`)".toList = ["xhost(".toList] := by
  decide

/-- C11 as stated fails: the block `interface ""` is accepted, with the empty
interface name. -/
theorem createPlugin_empty_interface :
    ∃ t, createPlugin exampleDeps 7 (NewTestController exampleEmptyInterface) =
        some (Except.ok t) ∧ t.Config.interfaceName = [] :=
  ⟨_, rfl, rfl⟩

/-- C13 fails on the code.  A successful `refresh` from the empty store on the
rule `Host(B example.org. B)` (`B` the backtick) leaves the key `example.org.`,
which ends in the root separator.  `ServeDNS` looks a queried `example.org.` up
as `example.org`, so the entry is not found and the answer set is empty, whereas
the same rule without the final dot is answered. -/
theorem refresh_key_trailing_dot :
    (refresh Char.toLower TestExample.x
        (Except.ok [{ Rule := "Host(`example.org.`)".toList }]) true).err = none ∧
      (refresh Char.toLower TestExample.x
        (Except.ok [{ Rule := "Host(`example.org.`)".toList }]) true).t.mappings.keys =
        ["example.org.".toList] ∧
      HasSuffix "example.org.".toList ['.'] = true ∧
      ServeDNS.find Char.toLower "example.org.".toList = "example.org".toList ∧
      ServeDNS.answers Char.toLower exampleNet
        (refresh Char.toLower TestExample.x
          (Except.ok [{ Rule := "Host(`example.org.`)".toList }]) true).t TestExample.r = [] ∧
      ServeDNS.answers Char.toLower exampleNet
        (refresh Char.toLower TestExample.x
          (Except.ok [{ Rule := "Host(`example.org`)".toList }]) true).t TestExample.r ≠ [] := by
  decide

end TraefikPlugin
